import Mathlib

/-!
Override bookkeeping of `LoadStreamingFile.cpp`.

A shallow embedding of the load-list processor, the tag-scoped override
registry and the session-shutdown handler of
`code/components/gta-streaming-five/src/LoadStreamingFile.cpp` (the `GTA_FIVE`
build, release configuration), followed by the properties proved about it.

The process-wide globals of the translation unit are the fields of `State`.
The host engine is not part of the file: its static data is the parameter
`Host`, its mutable resource table is `HostState`, and every call into it is
recorded as an `Event` in `State.trace`.

A function that returns `Option State` gives `none` when the process ends inside
it: a structured exception raised by a mounter (fatal under `SafeCall`) or a
null pointer read.
-/

namespace Cfx

/-! ## Strings and containers -/

/-- A `std::string` / C string: the characters before the terminating NUL. -/
abbrev Str := List Char

/-- The value `std::string::operator<` computes: lexicographic order on the characters. -/
def strLt : Str → Str → Bool
  | [], [] => false
  | [], _ :: _ => true
  | _ :: _, [] => false
  | a :: as, b :: bs =>
    if a.toNat < b.toNat then true
    else if b.toNat < a.toNat then false
    else strLt as bs

/-- Order of `std::tuple<std::string, std::string>` and `std::pair<std::string, std::string>`. -/
def pairLt (x y : Str × Str) : Bool :=
  if strLt x.1 y.1 then true
  else if strLt y.1 x.1 then false
  else strLt x.2 y.2

/-- The call `std::set::insert`: the elements are kept in ascending order, an element that is already
present is not inserted again. -/
def setInsert {α : Type} [DecidableEq α] (lt : α → α → Bool) (x : α) : List α → List α
  | [] => [x]
  | y :: ys =>
    if x = y then y :: ys
    else if lt x y then x :: y :: ys
    else y :: setInsert lt x ys

/-- The call `std::set::erase(key)`. -/
def setErase {α : Type} [DecidableEq α] (x : α) (l : List α) : List α :=
  l.filter (fun y => decide (y ≠ x))

/-- The call `std::map::operator[]` read on a map kept as an association list: a missing key reads as
the default value. -/
def mapGet {β : Type} (m : List (Str × β)) (k : Str) (dflt : β) : β :=
  match m.find? (fun kv => decide (kv.1 = k)) with
  | some kv => kv.2
  | none => dflt

/-- The call `std::map::erase(key)`, also `std::multimap::erase(key)`: every entry of the key goes. -/
def mapErase {β : Type} (m : List (Str × β)) (k : Str) : List (Str × β) :=
  m.filter (fun kv => decide (kv.1 ≠ k))

/-- The assignment `m[k] = v` on a `std::map` kept in ascending key order. -/
def mapSet {β : Type} (k : Str) (v : β) : List (Str × β) → List (Str × β)
  | [] => [(k, v)]
  | kv :: rest =>
    if kv.1 = k then (k, v) :: rest
    else if strLt k kv.1 then (k, v) :: kv :: rest
    else kv :: mapSet k v rest

/-- The call `std::multimap::emplace(k, v)`: the new entry goes after the last entry whose key is not
greater than `k`. -/
def multimapEmplace (k v : Str) : List (Str × Str) → List (Str × Str)
  | [] => [(k, v)]
  | kv :: rest =>
    if strLt k kv.1 then (k, v) :: kv :: rest
    else kv :: multimapEmplace k v rest

/-- The function `strrchr(s, c) + 1` as a string: what follows the last `c`; `none` when `strrchr`
returns a null pointer. -/
def afterLast (c : Char) : Str → Option Str
  | [] => none
  | x :: xs =>
    match afterLast c xs with
    | some r => some r
    | none => if x = c then some xs else none

/-- The call `s.find_last_of(c)`: `none` is `npos`. -/
def find_last_of (c : Char) : Str → Option Nat
  | [] => none
  | x :: xs =>
    match find_last_of c xs with
    | some i => some (i + 1)
    | none => if x = c then some 0 else none

/-- The call `s.find(c)` for one character: `none` is `npos`. -/
def findChar (c : Char) : Str → Option Nat
  | [] => none
  | x :: xs => if x = c then some 0 else (findChar c xs).map (fun i => i + 1)

/-- The call `s.substr(0, n)`, where `n = npos` gives the whole string. -/
def substr0 (s : Str) : Option Nat → Str
  | none => s
  | some n => s.take n

/-- Whether `s` begins with `p`. -/
def startsWith (p : Str) (s : Str) : Bool :=
  match p, s with
  | [], _ => true
  | _ :: _, [] => false
  | a :: as, b :: bs => decide (a = b) && startsWith as bs

/-- The call `s.find(needle)`: index of the first occurrence, `none` is `npos`. -/
def find (needle : Str) : Str → Option Nat
  | [] => if needle = [] then some 0 else none
  | x :: xs =>
    if startsWith needle (x :: xs) then some 0
    else (find needle xs).map (fun i => i + 1)

/-- A `size_t` position as the 64-bit number the comparison in the source sees: `npos` is `2^64 - 1`. -/
def posToSizeT : Option Nat → Nat
  | none => 2 ^ 64 - 1
  | some i => i

/-- One insertion of the stable sort: `a`, which stood before every element of the sorted list, goes
after the elements that compare strictly less than it and before all others. -/
def insertSorted {α : Type} (comp : α → α → Bool) (a : α) : List α → List α
  | [] => [a]
  | b :: l => if comp b a then b :: insertSorted comp a l else a :: b :: l

/-- The function `std::stable_sort(first, last, comp)`. -/
def stable_sort {α : Type} (comp : α → α → Bool) : List α → List α
  | [] => []
  | a :: l => insertSorted comp a (stable_sort comp l)

/-- The loop of `std::remove(first, last, value)` on a sequence: `kept` is the part before the write
position, `hole` the part between the write position and the read position, the third list what is
still to be read. An element that differs from `value` is move-assigned to the write position when
that is not where it stands, which leaves `movedFrom` in its place. -/
def removeShift {α : Type} [DecidableEq α] (movedFrom value : α) :
    List α → List α → List α → List α
  | kept, hole, [] => kept ++ hole
  | kept, [], x :: rest =>
    if x = value then removeShift movedFrom value kept [x] rest
    else removeShift movedFrom value (kept ++ [x]) [] rest
  | kept, h :: hole, x :: rest =>
    if x = value then removeShift movedFrom value kept (h :: hole ++ [x]) rest
    else removeShift movedFrom value (kept ++ [x]) (hole ++ [movedFrom]) rest

/-- The container after a call `std::remove(c.begin(), c.end(), value)` whose result is not used:
the length is the same, the elements that differ from `value` stand at the front in their order,
and behind them stands what the shifting left there. -/
def std_remove {α : Type} [DecidableEq α] (movedFrom value : α) (l : List α) : List α :=
  removeShift movedFrom value [] [] l

/-- The conversion of a 32-bit pattern to `int`. -/
def toInt32 (n : Nat) : Int :=
  if n % 2 ^ 32 < 2 ^ 31 then ((n % 2 ^ 32 : Nat) : Int) else ((n % 2 ^ 32 : Nat) : Int) - 2 ^ 32

/-- The value `uint32_t(-1)`, which the slot lookups write when there is no slot. -/
def NO_SLOT : Nat := 0xFFFFFFFF

/-! ## The host engine -/

/-- A `streaming::strStreamingModule`: the object is identified by its address; `baseIdx` is the
global index of its slot 0. -/
structure StrModule where
  addr : Nat
  baseIdx : Nat
deriving DecidableEq, Repr

/-- A raw streamer (`rage::fiCollection`) as far as the source uses it. -/
structure RawStreamer where
  collectionId : Nat
  getEntryByName : Str → Nat

/-- The mutable resource table of the host engine. `handle i` and `flags i` are
`Entries[i].handle` and `Entries[i].flags`; `slot a name` is what `FindSlot` of the module at address
`a` writes for `name` (`NO_SLOT` when the name has no slot). -/
structure HostState where
  handle : Nat → Nat
  flags : Nat → Nat
  slot : Nat → Str → Nat

/-- The data file mounters `LookupDataFileMounter` can return: the five mounters defined in the
source file and the entries of the host table `g_dataFileMounters`. -/
inductive Mounter where
  | pseudo
  | cache
  | rpf
  | proxyInteriorOrder
  | proxyDlcItyp
  | host (fileType : Int)
deriving DecidableEq, Repr

/-- The fields of `DataFileEntry` the source fills in; all others are zeroed by `memset`. -/
structure DataFileEntry where
  name : Str
  type : Int
deriving DecidableEq, Repr

/-- The static part of the host engine and of the process, taken as a parameter. A mounter
operation of the host returns `none` when it raises a structured exception. -/
structure Host where
  /-- the value of `GetData("policy", ...)`, `none` when the call returns false -/
  policy : Option Str
  /-- the call `moduleMgr.GetStreamingModule(ext)`, `none` for a null pointer -/
  getStreamingModule : Str → Option StrModule
  /-- the call `getRawStreamer()` -/
  rawStreamer : RawStreamer
  /-- the call `GetRawStreamerForFile(file, &custom)`, `none` when it returns false -/
  getRawStreamerForFile : Str → Option RawStreamer
  /-- the handle the host assigns to a file registered with `RegisterRawStreamingFile` -/
  registerHandle : Str → Nat
  /-- the index `FindSlotFromHashKey` gives to a name that has no slot yet, `NO_SLOT` on failure -/
  allocSlot : HostState → StrModule → Str → Nat
  /-- the function `HashString` -/
  hashString : Str → Nat
  /-- the function `HashRageString` -/
  hashRageString : Str → Nat
  /-- the table `g_dataFileTypes` of `(hash, index)` entries, `typesCount` entries long -/
  dataFileTypes : List (Nat × Nat)
  /-- whether `g_dataFileMounters[fileType]` is a non-null pointer -/
  hasDataFileMounter : Int → Bool
  /-- the host side of `MountFile` of a mounter: result and effect on the resource table -/
  mountFile : Mounter → DataFileEntry → HostState → Option (Bool × HostState)
  /-- the host side of `UnmountFile` of a mounter -/
  unmountFile : Mounter → DataFileEntry → HostState → Option (Bool × HostState)
  /-- the call `streaming::GetStreamingIndexForName(file)` -/
  getStreamingIndexForName : HostState → Str → Nat
  /-- whether `_isResourceNotCached(mgr, obj)` holds -/
  isResourceNotCached : HostState → Nat → Bool
  /-- the call `GetDummyCollectionIndexByTag(tag)` -/
  getDummyCollectionIndexByTag : Str → Int
  /-- whether the game build is at least 2190 -/
  buildAbove2189 : Bool

/-- The load phases of `LoadStreamingFiles`. -/
inductive LoadType where
  | BeforeMapLoad
  | BeforeSession
  | AfterSessionEarlyStage
  | AfterSession
deriving DecidableEq, Repr

/-- What the code does to the host and what it writes with `trace`, in program order. -/
inductive Event where
  /-- the first `trace` line of `HandleDataFile`: operation, type name, file name -/
  | handleDataFile (op type file : Str)
  /-- the call `mounter->MountFile(&entry)` -/
  | mountFile (m : Mounter) (e : DataFileEntry)
  /-- the call `mounter->UnmountFile(&entry)` -/
  | unmountFile (m : Mounter) (e : DataFileEntry)
  /-- the call `RegisterRawStreamingFile(&fileId, file, true, baseName, false)` -/
  | registerRawStreamingFile (file baseName : Str)
  /-- the call `rage::pgRawStreamerInvalidateEntry(index)` -/
  | invalidateEntry (index : Nat)
  /-- the call `initGfxTexture(id, name)` -/
  | initGfxTexture (id : Nat) (name : Str)
  /-- the call `origCfxCollection_AddStreamingFileByTag(tag, fileName, flags)` -/
  | origAddStreamingFileByTag (tag file : Str)
  /-- the call `origCfxCollection_BackoutStreamingTag(tag)` -/
  | origBackoutStreamingTag (tag : Str)
  /-- the call `rage::sysMemAllocator::UpdateAllocatorValue()` -/
  | updateAllocatorValue
  /-- the call `mgr->RequestObject(index, flags)` -/
  | requestObject (index flags : Nat)
  /-- the call `streaming::LoadObjectsNow(0)` -/
  | loadObjectsNow
  /-- the call `ReleaseObject(index)` -/
  | releaseObject (index : Nat)
  /-- the call `ReleaseObject(index, flags)` -/
  | releaseObjectFlags (index flags : Nat)
  /-- the write `*(uint16_t*)(entry + 16) &= ~0x14` on the pool entry of a map-types slot -/
  | clearTypesFlags (module : StrModule) (idx : Int)
  /-- the call `rage__fwArchetypeManager__FreeArchetypes(idx)` -/
  | freeArchetypes (idx : Int)
  /-- the call `module->RemoveSlot(idx)` -/
  | removeSlot (module : StrModule) (idx : Int)
  /-- the call `_waitUntilStreamerClear()` -/
  | waitUntilStreamerClear
  /-- the call `_resyncStreamers(g_streamingInternals)` -/
  | resyncStreamers
  /-- the call `_unloadTextureLODs()` -/
  | unloadTextureLODs
  /-- the call `RegisterPeds()` -/
  | registerPeds (peds : List Str)
  /-- the event `OnReloadMapStore()` -/
  | onReloadMapStore
  /-- the call `ReloadMapStoreNative()` -/
  | reloadMapStoreNative
  /-- the call `g_disableContentGroup(*g_extraContentManager, group)` -/
  | disableContentGroup (group : Nat)
  /-- the call `g_enableContentGroup(*g_extraContentManager, group)` -/
  | enableContentGroup (group : Nat)
  /-- the call `g_clearContentCache(0)` -/
  | clearContentCache
deriving DecidableEq, Repr

/-- The globals of `LoadStreamingFile.cpp` that the modelled functions use, the host resource table
and the trace of events so far. The two `std::unordered_map`s are only read with `operator[]`, so a
missing key and a key with the default value are the same thing; keys are the 32-bit patterns. -/
structure State where
  g_gtxdFiles : List Str
  g_dataFiles : List (Str × Str)
  g_loadedDataFiles : List (Str × Str)
  g_customStreamingFiles : List (Str × Str)
  g_customStreamingFileRefs : List Str
  g_customStreamingFilesByTag : List (Str × List Str)
  g_handleStack : Nat → List Nat
  g_pendingRemovals : List (StrModule × Int)
  g_handlesToTag : Nat → Str
  g_pedsToRegister : List Str
  g_ourIndexes : Nat → Bool
  g_manifestNames : List (Str × Str)
  g_reloadStreamingFiles : Bool
  g_lockedStreamingFiles : Int
  g_lockReload : Bool
  g_unloadingCfx : Bool
  g_reloadMapStore : Bool
  loadedCollisions : List Str
  /-- the local vector `newGfx` of a running `LoadStreamingFiles` call; empty between calls -/
  newGfx : List (Nat × Str)
  host : HostState
  trace : List Event

/-- Append one event to the trace. -/
def State.emit (s : State) (e : Event) : State :=
  { s with trace := s.trace ++ [e] }

/-- The order of `std::pair<strStreamingModule*, int>`: by address, then by the signed index. -/
def pendingLt (x y : StrModule × Int) : Bool :=
  if x.1.addr < y.1.addr then true
  else if y.1.addr < x.1.addr then false
  else decide (x.2 < y.2)

/-- The index expression `strId + strModule->baseIdx` in 32-bit unsigned arithmetic. -/
def globalIdx (strId : Nat) (m : StrModule) : Nat :=
  (strId + m.baseIdx) % 2 ^ 32

/-- The index expression `idx + module->baseIdx` for a signed `idx`, as a 32-bit pattern. -/
def globalIdxInt (idx : Int) (m : StrModule) : Nat :=
  ((idx + (m.baseIdx : Int)) % (2 ^ 32 : Int)).toNat

/-- The call `strModule->FindSlot(&strId, name)`. -/
def FindSlot (hs : HostState) (m : StrModule) (name : Str) : Nat :=
  hs.slot m.addr name

/-- The call `strModule->FindSlotFromHashKey(&strId, name)`: the slot of the name, created when the
name has none. -/
def FindSlotFromHashKey (host : Host) (hs : HostState) (m : StrModule) (name : Str) : Nat × HostState :=
  if hs.slot m.addr name ≠ NO_SLOT then (hs.slot m.addr name, hs)
  else
    let i := host.allocSlot hs m name
    if i = NO_SLOT then (NO_SLOT, hs)
    else (i, { hs with slot := fun a n => if a = m.addr ∧ n = name then i else hs.slot a n })

/-- Modelled from the spec: the host primitive `streaming::RegisterRawStreamingFile(&fileId, file,
true, registerAs, false)`, which is not in the source file. It registers the file as a host resource
under the name `registerAs`: the slot of that name in the module of its extension is resolved or
created and its live handle becomes the handle the host assigns to the file. The result is the global
index of the slot, `NO_SLOT` (that is `-1`) on failure. -/
def RegisterRawStreamingFile (host : Host) (hs : HostState) (file registerAs : Str) : Nat × HostState :=
  match afterLast '.' registerAs with
  | none => (NO_SLOT, hs)
  | some ext =>
    match host.getStreamingModule ext with
    | none => (NO_SLOT, hs)
    | some m =>
      let r := FindSlotFromHashKey host hs m (substr0 registerAs (find_last_of '.' registerAs))
      if r.1 = NO_SLOT then (NO_SLOT, r.2)
      else
        (globalIdx r.1 m,
          { r.2 with handle := Function.update r.2.handle (globalIdx r.1 m) (host.registerHandle file) })

/-! ## The override registry -/

/-- The function `GetBaseName`: with the `[subdir_file_mapping]` policy every `^` becomes a `/`. -/
def GetBaseName (host : Host) (name : Str) : Str :=
  match host.policy with
  | some policyVal =>
    if (find "[subdir_file_mapping]".toList policyVal).isSome then
      name.map (fun c => if c = '^' then '/' else c)
    else name
  | none => name

/-- The handle `(collectionId << 16) | idx` that `LoadStreamingFiles` computes for a file that
overrides a registered asset: collection 1 of the custom raw streamer when the file has one, else
collection 0 of the default raw streamer. -/
def overrideHandle (host : Host) (file : Str) : Nat :=
  match host.getRawStreamerForFile file with
  | some customRawStreamer => ((1 <<< 16) ||| customRawStreamer.getEntryByName file) % 2 ^ 32
  | none => ((0 <<< 16) ||| host.rawStreamer.getEntryByName file) % 2 ^ 32

/-- The handle `(rawStreamer->GetCollectionId() << 16) | rawStreamer->GetEntryByName(file)` that
`CfxCollection_RemoveStreamingTag` looks for, always on the default raw streamer. -/
def removeHandle (host : Host) (file : Str) : Nat :=
  ((host.rawStreamer.collectionId <<< 16) ||| host.rawStreamer.getEntryByName file) % 2 ^ 32

/-- The branch of `LoadStreamingFiles` for a slot whose live handle is not zero (lines 1144-1180):
the handle of the file becomes the live handle and goes on the front of the handle stack of the
slot, above the handle that was live when the stack was empty. -/
def pushOverride (host : Host) (file tag : Str) (strModule : StrModule) (strId : Nat) (s : State) :
    State :=
  if strId ≠ NO_SLOT then
    let g := globalIdx strId strModule
    let hs := if (s.g_handleStack g).isEmpty then [s.host.handle g] else s.g_handleStack g
    let h := overrideHandle host file
    { s with
      host := { s.host with handle := Function.update s.host.handle g h }
      g_handlesToTag := Function.update s.g_handlesToTag h tag
      g_handleStack := Function.update s.g_handleStack g (h :: hs) }
  else s

/-- The branch of `LoadStreamingFiles` for a slot whose live handle is zero (lines 1182-1203): the
file is registered with the host and the assigned handle seeds the handle stack. -/
def registerNew (host : Host) (file tag baseName : Str) (s : State) : State :=
  let r := RegisterRawStreamingFile host s.host file baseName
  let s1 := { s with host := r.2 }.emit (Event.registerRawStreamingFile file baseName)
  if r.1 ≠ NO_SLOT then
    let h := r.2.handle r.1
    let s2 := { s1 with g_handleStack := Function.update s1.g_handleStack r.1 (h :: s1.g_handleStack r.1) }
    let s3 := if h >>> 16 = 0 then s2.emit (Event.invalidateEntry (h &&& 0xFFFF)) else s2
    { s3 with g_handlesToTag := Function.update s3.g_handlesToTag h tag }
  else s1

/-- Lines 1139-1203 of `LoadStreamingFiles`, once the slot `strId` is known: the slot is marked as
ours and taken out of the pending removals, then the file is pushed or registered. -/
def applyToSlot (host : Host) (file tag baseName : Str) (strModule : StrModule) (strId : Nat)
    (s : State) : State :=
  let s1 := { s with
    g_ourIndexes := Function.update s.g_ourIndexes (globalIdx strId strModule) true
    g_pendingRemovals := setErase (strModule, toInt32 strId) s.g_pendingRemovals }
  if s1.host.handle (globalIdx strId strModule) ≠ 0 then
    pushOverride host file tag strModule strId s1
  else
    registerNew host file tag baseName s1

/-- Lines 1117-1204 of `LoadStreamingFiles`: the slot of the asset is found with `FindSlot` or,
when there is none, created with `FindSlotFromHashKey` (a new `gfx` slot is noted in `newGfx`). -/
def applyToModule (host : Host) (file tag baseName ext : Str) (strModule : StrModule) (s : State) :
    State :=
  let nameWithoutExt := substr0 baseName (find_last_of '.' baseName)
  if FindSlot s.host strModule nameWithoutExt = NO_SLOT then
    let r := FindSlotFromHashKey host s.host strModule nameWithoutExt
    let s1 := { s with host := r.2 }
    let s2 := if ext = "gfx".toList then { s1 with newGfx := s1.newGfx ++ [(r.1, nameWithoutExt)] }
              else s1
    applyToSlot host file tag baseName strModule r.1 s2
  else
    applyToSlot host file tag baseName strModule (FindSlot s.host strModule nameWithoutExt) s

/-- Lines 1114-1216 of `LoadStreamingFiles`: what happens to a registration once it has been taken
out of the pending set. -/
def applyRegistration (host : Host) (file tag baseName ext : Str) (s : State) : State :=
  let s1 := match host.getStreamingModule ext with
    | some strModule => applyToModule host file tag baseName ext strModule s
    | none => s
  match findChar '/' baseName with
  | some i => { s1 with g_pedsToRegister := setInsert strLt (baseName.take i) s1.g_pedsToRegister }
  | none => s1

/-- One iteration of the loop of `LoadStreamingFiles` over the pending set. The first component says
whether the registration stays in the set (the `++it` exits) or is erased from it. -/
def loadStreamingFile (host : Host) (loadType : LoadType) (reg : Str × Str) (s : State) :
    Bool × State :=
  let file := reg.1
  let tag := reg.2
  let isMod := startsWith "mod_".toList tag || startsWith "faux_pack".toList tag
  if (loadType = LoadType.BeforeMapLoad ∨ loadType = LoadType.AfterSessionEarlyStage) ∧
      (isMod = false ∨ (find "cache:/".toList file).isSome) then (true, s)
  else
    match afterLast '/' file with
    | none => (false, s)
    | some afterSlash =>
      let baseName := GetBaseName host afterSlash
      match afterLast '.' baseName with
      | none => (false, s)
      | some ext =>
        if ext = "rpf".toList then (false, s)
        else if (loadType ≠ LoadType.AfterSession ∧ loadType ≠ LoadType.AfterSessionEarlyStage) ∧
            (ext = "ymap".toList ∨ ext = "ytyp".toList ∨ ext = "ybn".toList) then (true, s)
        else (false, applyRegistration host file tag baseName ext s)

/-- The loop of `LoadStreamingFiles` over the pending set in ascending order: the registrations that
stay, and the state after the last iteration. -/
def loadStreamingLoop (host : Host) (loadType : LoadType) : List (Str × Str) → State →
    List (Str × Str) × State
  | [], s => ([], s)
  | reg :: rest, s =>
    let r := loadStreamingFile host loadType reg s
    let r2 := loadStreamingLoop host loadType rest r.2
    (if r.1 then reg :: r2.1 else r2.1, r2.2)

/-- The function `LoadStreamingFiles(loadType)`. -/
def LoadStreamingFiles (host : Host) (loadType : LoadType) (s : State) : State :=
  let r := loadStreamingLoop host loadType s.g_customStreamingFiles { s with newGfx := [] }
  let s1 := { r.2 with g_customStreamingFiles := r.1 }
  let s2 := s1.newGfx.foldl (fun st g => st.emit (Event.initGfxTexture g.1 g.2)) s1
  { s2 with newGfx := [] }

/-- The function `CfxCollection_SetStreamingLoadLocked`; the counter is a 32-bit `std::atomic<int>`. -/
def CfxCollection_SetStreamingLoadLocked (locked : Bool) (s : State) : State :=
  if locked then
    { s with g_lockedStreamingFiles := toInt32 ((s.g_lockedStreamingFiles + 1) % 2 ^ 32).toNat }
  else
    { s with g_lockedStreamingFiles := toInt32 ((s.g_lockedStreamingFiles - 1) % 2 ^ 32).toNat }

/-- The function `CfxCollection_AddStreamingFileByTag`. The result is `none` when the file name has
no `/`: then `strrchr` returns a null pointer and the code reads from address 1. -/
def CfxCollection_AddStreamingFileByTag (tag fileName : Str) (s : State) : Option State :=
  match afterLast '/' fileName with
  | none => none
  | some baseName =>
    let s1 := if posToSizeT (find ".ymf".toList baseName) = (baseName.length + 2 ^ 64 - 4) % 2 ^ 64 then
                { s with g_manifestNames := multimapEmplace tag fileName s.g_manifestNames }
              else s
    let s2 := { s1 with
      g_customStreamingFilesByTag :=
        mapSet tag (mapGet s1.g_customStreamingFilesByTag tag [] ++ [fileName])
          s1.g_customStreamingFilesByTag
      g_customStreamingFiles := setInsert pairLt (fileName, tag) s1.g_customStreamingFiles
      g_customStreamingFileRefs := setInsert strLt baseName s1.g_customStreamingFileRefs
      g_reloadStreamingFiles := true }
    some (s2.emit (Event.origAddStreamingFileByTag tag fileName))

/-- The function `CfxCollection_BackoutStreamingTag`. -/
def CfxCollection_BackoutStreamingTag (tag : Str) (s : State) : State :=
  let s1 := (mapGet s.g_customStreamingFilesByTag tag []).foldl
    (fun st name => { st with
      g_customStreamingFiles := setErase (name, tag) st.g_customStreamingFiles
      g_customStreamingFileRefs := setErase name st.g_customStreamingFileRefs }) s
  let s2 := { s1 with
    g_manifestNames := mapErase s1.g_manifestNames tag
    g_customStreamingFilesByTag := mapErase s1.g_customStreamingFilesByTag tag }
  s2.emit (Event.origBackoutStreamingTag tag)

/-- One run of the loop at lines 1701-1707 from `begin()` up to the point where the iterator either
reaches `end()` or steps over it. An entry equal to `idx` is erased and, because the `++it` of the
loop follows the `it = erase(it)`, the entry behind it is not looked at. The flag is true when the
erased entry was the last one: `erase` then returns `end()` and the `++it` moves on from there. -/
def eraseScan (idx : Nat) : List Nat → List Nat × Bool
  | [] => ([], false)
  | [x] => if x = idx then ([], true) else ([x], false)
  | x :: y :: ys =>
    if x = idx then (y :: (eraseScan idx ys).1, (eraseScan idx ys).2)
    else (x :: (eraseScan idx (y :: ys)).1, (eraseScan idx (y :: ys)).2)

/-- The runs of `eraseScan` that follow each other: a `std::list` is a ring of nodes closed by the
sentinel node `end()`, so the `++it` on `end()` lands on the first node that is left and the scan
goes over the list once more. Every such restart comes after an erasure, so `n` restarts are enough
for a list of `n` entries. -/
def eraseRuns (idx : Nat) : Nat → List Nat → List Nat
  | 0, l => l
  | n + 1, l =>
    match eraseScan idx l with
    | (r, true) => eraseRuns idx n r
    | (r, false) => r

/-- The loop at lines 1701-1707 of `CfxCollection_RemoveStreamingTag` on the handle stack of a slot. -/
def eraseHandle (idx : Nat) (handleData : List Nat) : List Nat :=
  eraseRuns idx handleData.length handleData

/-- Lines 1695-1722 of `CfxCollection_RemoveStreamingTag`, for a file whose slot `strId` was found:
the slot leaves the own-index set, the handle of the file is erased from the handle stack of the
slot, and the live handle becomes the front of the stack or, when the stack is empty, zero with the
slot entered in `g_pendingRemovals`. -/
def removeFromSlot (host : Host) (file baseName : Str) (strModule : StrModule) (strId : Nat)
    (s : State) : State :=
  let g := globalIdx strId strModule
  let handleData := eraseHandle (removeHandle host file) (s.g_handleStack g)
  let s1 := { s with
    g_ourIndexes := Function.update s.g_ourIndexes g false
    g_handleStack := Function.update s.g_handleStack g handleData }
  match handleData with
  | front :: _ =>
    { s1 with host := { s1.host with handle := Function.update s1.host.handle g front } }
  | [] =>
    { s1 with
      g_pendingRemovals := setInsert pendingLt (strModule, toInt32 strId) s1.g_pendingRemovals
      g_customStreamingFileRefs := setErase baseName s1.g_customStreamingFileRefs
      host := { s1.host with handle := Function.update s1.host.handle g 0 } }

/-- The body of the first loop of `CfxCollection_RemoveStreamingTag` for one file of the tag. The
result is `none` when the file name has no `/` (null pointer from `strrchr`). -/
def removeStreamingFile (host : Host) (file : Str) (s : State) : Option State :=
  match afterLast '/' file with
  | none => none
  | some afterSlash =>
    match afterLast '.' (GetBaseName host afterSlash) with
    | none => some s
    | some ext =>
      match host.getStreamingModule ext with
      | none => some s
      | some strModule =>
        if FindSlot s.host strModule
            (substr0 (GetBaseName host afterSlash)
              (find_last_of '.' (GetBaseName host afterSlash))) ≠ NO_SLOT then
          some (removeFromSlot host file (GetBaseName host afterSlash) strModule
            (FindSlot s.host strModule
              (substr0 (GetBaseName host afterSlash)
                (find_last_of '.' (GetBaseName host afterSlash)))) s)
        else some s

/-- The first loop of `CfxCollection_RemoveStreamingTag` over the files of the tag. -/
def removeStreamingFiles (host : Host) : List Str → State → Option State
  | [], s => some s
  | file :: rest, s =>
    match removeStreamingFile host file s with
    | none => none
    | some s1 => removeStreamingFiles host rest s1

/-- The function `CfxCollection_RemoveStreamingTag`; `none` when a file listed under the tag has
no `/`. -/
def CfxCollection_RemoveStreamingTag (host : Host) (tag : Str) (s : State) : Option State :=
  let files := mapGet s.g_customStreamingFilesByTag tag []
  match removeStreamingFiles host files (s.emit Event.updateAllocatorValue) with
  | none => none
  | some s1 =>
    some { s1 with
      g_customStreamingFiles :=
        files.foldl (fun set file => setErase (file, tag) set) s1.g_customStreamingFiles
      g_customStreamingFilesByTag := mapErase s1.g_customStreamingFilesByTag tag
      g_manifestNames := mapErase s1.g_manifestNames tag }

/-! ## The load list -/

/-- The function `boost::to_upper_copy`. -/
def to_upper_copy (s : Str) : Str :=
  s.map Char.toUpper

/-- The function `LookupDataFileType`: the index of the first table entry with the hash of the
upper-cased type name, `-1` when there is none. -/
def LookupDataFileType (host : Host) (type : Str) : Int :=
  match host.dataFileTypes.find? (fun entry => decide (entry.1 = host.hashRageString (to_upper_copy type))) with
  | some entry => toInt32 entry.2
  | none => -1

/-- The function `LookupDataFileMounter`; `none` is the null pointer. -/
def LookupDataFileMounter (host : Host) (type : Str) : Option Mounter :=
  if type = "CFX_PSEUDO_ENTRY".toList then some Mounter.pseudo
  else if type = "CFX_PSEUDO_CACHE".toList then some Mounter.cache
  else if LookupDataFileType host type < 0 then none
  else if LookupDataFileType host type = 0 then some Mounter.rpf
  else if LookupDataFileType host type = 160 then none
  else if LookupDataFileType host type = 173 then some Mounter.proxyInteriorOrder
  else if LookupDataFileType host type = 174 then some Mounter.proxyDlcItyp
  else if host.hasDataFileMounter (LookupDataFileType host type) then
    some (Mounter.host (LookupDataFileType host type))
  else none

/-- The element of the host table `g_dataFileMounters` that `LookupDataFileMounter` reads: the index
`fileType` of line 815, `none` when the function returns before that line. -/
def mounterTableRead (host : Host) (type : Str) : Option Int :=
  if type = "CFX_PSEUDO_ENTRY".toList then none
  else if type = "CFX_PSEUDO_CACHE".toList then none
  else if LookupDataFileType host type < 0 then none
  else if LookupDataFileType host type = 0 then none
  else if LookupDataFileType host type = 160 then none
  else if LookupDataFileType host type = 173 then none
  else if LookupDataFileType host type = 174 then none
  else some (LookupDataFileType host type)

/-- The virtual call `mounter->MountFile(&entry)`. The pseudo mounter is all in the source file; the
mounters of the source file that call into the host return true whatever the host did. `none` is a
structured exception raised on the way. -/
def MountFile (host : Host) (mounter : Mounter) (entry : DataFileEntry) (s : State) :
    Option (Bool × State) :=
  match mounter with
  | Mounter.pseudo =>
    if entry.name = "RELOAD_MAP_STORE".toList then some (true, { s with g_reloadMapStore := true })
    else some (false, s)
  | Mounter.host _ =>
    (host.mountFile mounter entry s.host).map (fun r => (r.1, { s with host := r.2 }))
  | _ => (host.mountFile mounter entry s.host).map (fun r => (true, { s with host := r.2 }))

/-- The virtual call `mounter->UnmountFile(&entry)`. -/
def UnmountFile (host : Host) (mounter : Mounter) (entry : DataFileEntry) (s : State) :
    Option (Bool × State) :=
  match mounter with
  | Mounter.pseudo =>
    if entry.name = "RELOAD_MAP_STORE".toList then some (true, { s with loadedCollisions := [] })
    else some (true, s)
  | Mounter.cache => some (true, s)
  | Mounter.host _ =>
    (host.unmountFile mounter entry s.host).map (fun r => (r.1, { s with host := r.2 }))
  | _ => (host.unmountFile mounter entry s.host).map (fun r => (true, { s with host := r.2 }))

/-- The lambda `mounter->MountFile(&entry)` that `LoadDataFiles` passes to `HandleDataFileList`. -/
def mountFn (host : Host) (mounter : Mounter) (entry : DataFileEntry) (s : State) :
    Option (Bool × State) :=
  MountFile host mounter entry (s.emit (Event.mountFile mounter entry))

/-- The lambda `mounter->UnmountFile(&entry)` that the unload functions pass on. -/
def unmountFn (host : Host) (mounter : Mounter) (entry : DataFileEntry) (s : State) :
    Option (Bool × State) :=
  UnmountFile host mounter entry (s.emit (Event.unmountFile mounter entry))

/-- The function `HandleDataFile`. The call of `fn` runs under `SafeCall`: an exception raised by
it ends the process with a fatal error, which is the result `none`. Names longer than the 128-byte
buffer of the entry are not modelled. -/
def HandleDataFile (host : Host)
    (fn : Mounter → DataFileEntry → State → Option (Bool × State)) (op : Str)
    (dataFile : Str × Str) (s : State) : Option State :=
  let s1 := s.emit (Event.handleDataFile op dataFile.1 dataFile.2)
  match LookupDataFileMounter host dataFile.1 with
  | none => some s1
  | some mounter =>
    match fn mounter { name := dataFile.2, type := LookupDataFileType host dataFile.1 } s1 with
    | none => none
    | some r => some r.2

/-- The function `HandleDataFileList`; `none` as soon as one `HandleDataFile` ends the process. -/
def HandleDataFileList (host : Host)
    (fn : Mounter → DataFileEntry → State → Option (Bool × State)) (op : Str) :
    List (Str × Str) → State → Option State
  | [], s => some s
  | dataFile :: rest, s =>
    match HandleDataFile host fn op dataFile s with
    | none => none
    | some s1 => HandleDataFileList host fn op rest s1

/-- The function `HandleDataFileListWithTypes`: the entries whose type code is in `types` are
handled and erased from the list; the result is the list that is left and the state. -/
def HandleDataFileListWithTypes (host : Host)
    (fn : Mounter → DataFileEntry → State → Option (Bool × State)) (types : List Int) (op : Str) :
    List (Str × Str) → State → Option (List (Str × Str) × State)
  | [], s => some ([], s)
  | dataFile :: rest, s =>
    if LookupDataFileType host dataFile.1 ∈ types then
      match HandleDataFile host fn op dataFile s with
      | none => none
      | some s1 => HandleDataFileListWithTypes host fn types op rest s1
    else
      match HandleDataFileListWithTypes host fn types op rest s with
      | none => none
      | some r => some (dataFile :: r.1, r.2)

/-- The groups of `batchSize = 4` consecutive files of the request loop of `ReloadMapStore`. -/
def batches {α : Type} : List α → List (List α)
  | a :: b :: c :: d :: rest => [a, b, c, d] :: batches rest
  | [] => []
  | l => [l]

/-- The selection of `ReloadMapStore` among the claimed base names: a collision file that is not
in `loadedCollisions`, has a streaming index and is not cached or belongs to no dummy collection;
paired with its streaming index. -/
def collisionFiles (host : Host) (s : State) : List (Str × Nat) :=
  s.g_customStreamingFileRefs.filterMap (fun file =>
    if (find ".ybn".toList file).isNone then none
    else if file ∈ s.loadedCollisions then none
    else if host.getStreamingIndexForName s.host file = 0 then none
    else if host.isResourceNotCached s.host (host.getStreamingIndexForName s.host file) ∨
        host.getDummyCollectionIndexByTag
          (s.g_handlesToTag (s.host.handle (host.getStreamingIndexForName s.host file))) = -1 then
      some (file, host.getStreamingIndexForName s.host file)
    else none)

/-- One batch of the request loop: request every file, load, release every file. -/
def reloadBatch (batch : List (Str × Nat)) (s : State) : State :=
  let s1 := batch.foldl (fun st f => st.emit (Event.requestObject f.2 0)) s
  let s2 := s1.emit Event.loadObjectsNow
  batch.foldl (fun st f => st.emit (Event.releaseObject f.2)) s2

/-- The mounting of the `g_gtxdFiles` at the end of `ReloadMapStore`; the mounter pointer is used
without a null check and outside `SafeCall`, `none` is the process dying there. -/
def mountGtxdFiles (host : Host) : List Str → State → Option State
  | [], s => some s
  | file :: rest, s =>
    match LookupDataFileMounter host "GTXD_PARENTING_DATA".toList with
    | none => none
    | some mounter =>
      match mountFn host mounter
          { name := file, type := LookupDataFileType host "GTXD_PARENTING_DATA".toList } s with
      | none => none
      | some r => mountGtxdFiles host rest r.2

/-- Lines 404-497 of `ReloadMapStore`: the selected collision files are requested in batches, the
map content group is cycled, the content cache and `loadedCollisions` are cleared. -/
def reloadCollisions (host : Host) (s : State) : State :=
  let s1 := (batches (collisionFiles host s)).foldl (fun st batch => reloadBatch batch st) s
  let s2 := s1.emit Event.onReloadMapStore
  let s3 := if host.buildAbove2189 = false then s2.emit Event.reloadMapStoreNative
    else ((s2.emit (Event.disableContentGroup 0xBCC89179)).emit Event.onReloadMapStore).emit
      (Event.enableContentGroup 0xBCC89179)
  { s3.emit Event.clearContentCache with loadedCollisions := [] }

/-- The function `ReloadMapStore`; `none` when the mounting of a gtxd file ends the process. -/
def ReloadMapStore (host : Host) (s : State) : Option State :=
  if s.g_reloadMapStore = false then some s
  else
    match mountGtxdFiles host (reloadCollisions host s).g_gtxdFiles (reloadCollisions host s) with
    | none => none
    | some s5 => some { s5 with g_reloadMapStore := false }

/-- The key `dfSort` of `LoadDataFiles`: 0 for the two types that go first, 100 for all others. -/
def dfSort (host : Host) (type : Str × Str) : Nat :=
  if host.hashString type.1 = host.hashString "VEHICLE_LAYOUTS_FILE".toList ∨
      host.hashString type.1 = host.hashString "HANDLING_FILE".toList then 0
  else 100

/-- The function `LoadDataFiles`; `none` when a mounter raises on the way. -/
def LoadDataFiles (host : Host) (s : State) : Option State :=
  let s1 := { s with
    g_dataFiles := stable_sort (fun left right => decide (dfSort host left < dfSort host right))
      s.g_dataFiles }
  match HandleDataFileList host (mountFn host) "loading".toList s1.g_dataFiles s1 with
  | none => none
  | some s2 =>
    let s3 := { s2 with
      g_loadedDataFiles := s2.g_loadedDataFiles ++ s2.g_dataFiles
      g_dataFiles := [] }
    match (if s3.g_reloadMapStore then ReloadMapStore host s3 else some s3) with
    | none => none
    | some s4 =>
      if s4.g_pedsToRegister ≠ [] then
        some { s4.emit (Event.registerPeds s4.g_pedsToRegister) with g_pedsToRegister := [] }
      else some s4

/-- The function `UnloadDataFiles`; `none` when a mounter raises on the way. -/
def UnloadDataFiles (host : Host) (s : State) : Option State :=
  if s.g_loadedDataFiles ≠ [] then
    match HandleDataFileList host (unmountFn host) "unloading".toList s.g_loadedDataFiles s with
    | none => none
    | some s1 => some { s1 with g_loadedDataFiles := [] }
  else some s

/-- The function `UnloadDataFilesOfTypes`; `none` when a mounter raises on the way. -/
def UnloadDataFilesOfTypes (host : Host) (types : List Int) (s : State) : Option State :=
  match HandleDataFileListWithTypes host (unmountFn host) types "pre-unloading".toList
      s.g_loadedDataFiles s with
  | none => none
  | some r => some { r.2 with g_loadedDataFiles := r.1 }

/-- The function `streaming::AddDataFileToLoadList`. The two arguments `gameLoaded` and
`gameKilled` are what `GetGameLoaded()` and `HasVariable("gameKilled")` of the `ICoreGameInit`
instance return at the call. -/
def AddDataFileToLoadList (host : Host) (gameLoaded gameKilled : Bool) (type path : Str)
    (s : State) : Option State :=
  if type = "GTXD_PARENTING_DATA".toList then
    some { s with g_gtxdFiles := s.g_gtxdFiles ++ [path] }
  else
    let s1 := { s with g_dataFiles := s.g_dataFiles ++ [(type, path)] }
    if gameLoaded = true ∧ gameKilled = false then
      LoadDataFiles host
        (LoadStreamingFiles host LoadType.AfterSession
          (LoadStreamingFiles host LoadType.AfterSessionEarlyStage s1))
    else some s1

/-- The function `FilterUnmountOperation`: true is `EXCEPTION_EXECUTE_HANDLER`, false is
`EXCEPTION_CONTINUE_SEARCH`. -/
def FilterUnmountOperation (entry : DataFileEntry) : Bool :=
  decide (entry.type = 174)

/-- The lambda that `RemoveDataFileFromLoadList` passes on: `UnmountFile` inside
`__try`/`__except (FilterUnmountOperation(entry))`. A structured exception is handled there when the
filter says so; the lambda then ends without a `return`, and the value the caller sees (taken as
false) only selects one of two log lines. The resource table is taken as it was before the call. -/
def guardedUnmountFn (host : Host) (mounter : Mounter) (entry : DataFileEntry) (s : State) :
    Option (Bool × State) :=
  match UnmountFile host mounter entry (s.emit (Event.unmountFile mounter entry)) with
  | some r => some r
  | none =>
    if FilterUnmountOperation entry then some (false, s.emit (Event.unmountFile mounter entry))
    else none

/-- The function `streaming::RemoveDataFileFromLoadList`. The results of the two `std::remove`
calls are not used and nothing is erased, so both vectors keep their length; a moved-from pair of
strings is a pair of empty strings. The argument `gameLoaded` is what `GetGameLoaded()` returns. -/
def RemoveDataFileFromLoadList (host : Host) (gameLoaded : Bool) (type path : Str) (s : State) :
    Option State :=
  let s1 := { s with g_dataFiles := std_remove ([], []) (type, path) s.g_dataFiles }
  if (type, path) ∉ s1.g_loadedDataFiles then some s1
  else
    let s2 := { s1 with g_loadedDataFiles := std_remove ([], []) (type, path) s1.g_loadedDataFiles }
    if gameLoaded = true then
      HandleDataFileList host (guardedUnmountFn host) "removing".toList [(type, path)] s2
    else some s2

/-! ## Session shutdown and the frame tick -/

/-- The function `SafelyDrainStreamer`. -/
def SafelyDrainStreamer (s : State) : State :=
  (({ s with g_unloadingCfx := true }.emit Event.waitUntilStreamerClear).emit
    Event.resyncStreamers).emit Event.unloadTextureLODs

/-- The loop of the shutdown handler that calls `CfxCollection_RemoveStreamingTag` for every tag. -/
def removeAllTags (host : Host) : List Str → State → Option State
  | [], s => some s
  | tag :: rest, s =>
    match CfxCollection_RemoveStreamingTag host tag s with
    | none => none
    | some s1 => removeAllTags host rest s1

/-- Whether the module pointer `module` equals the pointer `store`, which may be null. -/
def isModule (store : Option StrModule) (module : StrModule) : Bool :=
  match store with
  | some m => decide (m.addr = module.addr)
  | none => false

/-- The body of the first loop over `g_pendingRemovals` in the shutdown handler (lines 2529-2569):
flags are cleared and the object is released twice; the slot stays allocated. -/
def releasePending (host : Host) (p : StrModule × Int) (s : State) : State :=
  let g := globalIdxInt p.2 p.1
  let s1 := if isModule (host.getStreamingModule "ytyp".toList) p.1 then
      s.emit (Event.clearTypesFlags p.1 p.2) else s
  let s2 := if isModule (host.getStreamingModule "ybn".toList) p.1 = false ∧
        s1.host.flags g &&& 0xFFFC ≠ 0 then
      { s1 with host := { s1.host with
          flags := Function.update s1.host.flags g (s1.host.flags g &&& 0xFFFF0003) } }
    else s1
  let s3 := (s2.emit (Event.releaseObjectFlags g 0xF1)).emit (Event.releaseObject g)
  if isModule (host.getStreamingModule "ytyp".toList) p.1 then s3.emit (Event.freeArchetypes p.2)
  else s3

/-- The body of the second loop over `g_pendingRemovals` (lines 2572-2580): `RemoveSlot`, but not
for the nav mesh store and the static bounds store. -/
def removePending (host : Host) (p : StrModule × Int) (s : State) : State :=
  if isModule (host.getStreamingModule "ynv".toList) p.1 = false ∧
      isModule (host.getStreamingModule "ybn".toList) p.1 = false then
    { s with host := { s.host with
        slot := fun a n =>
          if a = p.1.addr ∧ toInt32 (s.host.slot a n) = p.2 then NO_SLOT else s.host.slot a n } }.emit
      (Event.removeSlot p.1 p.2)
  else s

/-- The first part of the shutdown handler (lines 2505-2522): the streamer is drained, the loaded
data files are unmounted and every tag is removed, which fills `g_pendingRemovals`. -/
def shutdownUnregister (host : Host) (s : State) : Option State :=
  let s1 := { SafelyDrainStreamer s with g_lockReload := true, g_unloadingCfx := true }
  match UnloadDataFiles host s1 with
  | none => none
  | some s2 =>
    removeAllTags host
      (s2.g_customStreamingFilesByTag.foldl (fun set kv => setInsert strLt kv.1 set) []) s2

/-- The handler connected to `OnShutdownSession` (lines 2502-2585): after the first part, one loop
over `g_pendingRemovals` that releases, a second loop over it that removes, then the set is
cleared. -/
def OnShutdownSession (host : Host) (s : State) : Option State :=
  match shutdownUnregister host s with
  | none => none
  | some s3 =>
    let s4 := s3.g_pendingRemovals.foldl (fun st p => releasePending host p st) s3
    let s5 := s4.g_pendingRemovals.foldl (fun st p => removePending host p st) s4
    some { s5 with g_pendingRemovals := [], g_unloadingCfx := false }

/-- The handler connected to `OnMainGameFrame` (lines 2587-2601). -/
def OnMainGameFrame (host : Host) (s : State) : State :=
  if s.g_reloadStreamingFiles = true ∧ s.g_lockedStreamingFiles = 0 ∧ s.g_lockReload = false then
    { LoadStreamingFiles host LoadType.AfterSession
        (LoadStreamingFiles host LoadType.AfterSessionEarlyStage s) with
      g_reloadStreamingFiles := false }
  else s

/-- The handler connected to `rage::OnInitFunctionStart` (lines 2634-2642); the argument says
whether `type == rage::INIT_SESSION`. -/
def OnInitFunctionStart (host : Host) (isInitSession : Bool) (s : State) : State :=
  if isInitSession then LoadStreamingFiles host LoadType.BeforeSession { s with g_lockReload := false }
  else s

/-! ## Vocabulary of the properties -/

/-- The data files handed to `HandleDataFile`, in the order of its first `trace` line. -/
def dispatched (tr : List Event) : List (Str × Str) :=
  tr.filterMap (fun e =>
    match e with
    | Event.handleDataFile _ type file => some (type, file)
    | _ => none)

/-- The entries `UnmountFile` was called for. -/
def unmounted (tr : List Event) : List DataFileEntry :=
  tr.filterMap (fun e =>
    match e with
    | Event.unmountFile _ entry => some entry
    | _ => none)

/-- The slot the override registry resolves for a file with `FindSlot`: the module of the extension
of its base name and the slot of the name without extension; `none` when any step fails. -/
def resolveSlot (host : Host) (hs : HostState) (file : Str) : Option (StrModule × Nat) :=
  match afterLast '/' file with
  | none => none
  | some afterSlash =>
    match afterLast '.' (GetBaseName host afterSlash) with
    | none => none
    | some ext =>
      match host.getStreamingModule ext with
      | none => none
      | some strModule =>
        if FindSlot hs strModule
            (substr0 (GetBaseName host afterSlash)
              (find_last_of '.' (GetBaseName host afterSlash))) ≠ NO_SLOT then
          some (strModule, FindSlot hs strModule
            (substr0 (GetBaseName host afterSlash)
              (find_last_of '.' (GetBaseName host afterSlash))))
        else none

/-- The global index of the slot a file resolves to. -/
def slotIndex (host : Host) (hs : HostState) (file : Str) : Option Nat :=
  (resolveSlot host hs file).map (fun p => globalIdx p.2 p.1)

/-- The extension of the base name of a file, as `LoadStreamingFiles` derives it. -/
def extensionOf (host : Host) (file : Str) : Option Str :=
  (afterLast '/' file).bind (fun afterSlash => afterLast '.' (GetBaseName host afterSlash))

/-- The handle values that the registrations of a tag push on handle stacks: for every file listed
under the tag, the handle `LoadStreamingFiles` computes for the file on the push branch and the
handle the host assigns to the file on the registration branch. -/
def tagHandles (host : Host) (s : State) (tag : Str) : List Nat :=
  (mapGet s.g_customStreamingFilesByTag tag []).flatMap
    (fun f => [overrideHandle host f, host.registerHandle f])

/-- Whether a handle-stack entry has a value that a registration of the tag pushes. Stack entries
are bare handle values, so this is all that tells the entries of one tag from those of another. -/
def pushedBy (host : Host) (s : State) (tag : Str) (handle : Nat) : Bool :=
  decide (handle ∈ tagHandles host s tag)

/-- An override file for the slot `strId` of module `m` with handle `H`: the registry resolves the
file to that slot, its extension is not `rpf`, and `H` is the handle of the file wherever the code
obtains one (the handle the host assigns on registration, the handle `LoadStreamingFiles` computes
on the push branch, the handle `CfxCollection_RemoveStreamingTag` looks for). -/
def OverrideFor (host : Host) (hs : HostState) (m : StrModule) (strId : Nat) (file : Str)
    (H : Nat) : Prop :=
  resolveSlot host hs file = some (m, strId) ∧ extensionOf host file ≠ some "rpf".toList ∧
    host.registerHandle file = H ∧ overrideHandle host file = H ∧ removeHandle host file = H

instance (host : Host) (hs : HostState) (m : StrModule) (strId : Nat) (file : Str) (H : Nat) :
    Decidable (OverrideFor host hs m strId file H) :=
  inferInstanceAs (Decidable (_ ∧ _ ∧ _ ∧ _ ∧ _))

/-- A fresh slot: live handle 0 and an empty handle stack (and a global index that is not the
value `-1`, which the code takes for a failed registration). -/
def FreshSlot (s : State) (m : StrModule) (strId : Nat) : Prop :=
  globalIdx strId m ≠ NO_SLOT ∧ s.host.handle (globalIdx strId m) = 0 ∧
    s.g_handleStack (globalIdx strId m) = []

instance (s : State) (m : StrModule) (strId : Nat) : Decidable (FreshSlot s m strId) :=
  inferInstanceAs (Decidable (_ ∧ _ ∧ _))

/-- No mounter operation of the host raises a structured exception. -/
def NoFault (host : Host) : Prop :=
  ∀ m e hs, (host.mountFile m e hs).isSome = true ∧ (host.unmountFile m e hs).isSome = true

/-- The mounting of the `g_gtxdFiles` in `ReloadMapStore` does not hit a null mounter: there is no
such file, or the type `GTXD_PARENTING_DATA` has a mounter. -/
def GtxdMountable (host : Host) (s : State) : Prop :=
  s.g_gtxdFiles = [] ∨ (LookupDataFileMounter host "GTXD_PARENTING_DATA".toList).isSome = true

/-- Every file listed under a tag has a `/`, as every file listed by
`CfxCollection_AddStreamingFileByTag` has. -/
def ListedFilesHaveSlash (s : State) : Prop :=
  ∀ kv ∈ s.g_customStreamingFilesByTag, ∀ f ∈ kv.2, '/' ∈ f

instance (s : State) : Decidable (ListedFilesHaveSlash s) :=
  inferInstanceAs (Decidable (∀ kv ∈ s.g_customStreamingFilesByTag, ∀ f ∈ kv.2, '/' ∈ f))

/-- Whether an event is a call of `RemoveSlot`. -/
def Event.isRemoveSlot : Event → Bool
  | Event.removeSlot _ _ => true
  | _ => false

/-- The host calls of the first loop of the shutdown handler for one pending slot. -/
def releaseEvents (host : Host) (p : StrModule × Int) : List Event :=
  (if isModule (host.getStreamingModule "ytyp".toList) p.1 then [Event.clearTypesFlags p.1 p.2]
    else []) ++
  [Event.releaseObjectFlags (globalIdxInt p.2 p.1) 0xF1, Event.releaseObject (globalIdxInt p.2 p.1)] ++
  (if isModule (host.getStreamingModule "ytyp".toList) p.1 then [Event.freeArchetypes p.2]
    else [])

/-- The host calls of the second loop of the shutdown handler for one pending slot. -/
def removeEvents (host : Host) (p : StrModule × Int) : List Event :=
  if isModule (host.getStreamingModule "ynv".toList) p.1 = false ∧
      isModule (host.getStreamingModule "ybn".toList) p.1 = false then
    [Event.removeSlot p.1 p.2]
  else []

/-- The priority category of `LoadDataFiles`: the key `dfSort` of the entry is 0. -/
def isPriority (host : Host) (dataFile : Str × Str) : Bool :=
  decide (dfSort host dataFile = 0)

/-- A mod-style tag: the test `isMod` of `LoadStreamingFiles`. -/
def isModTag (tag : Str) : Bool :=
  startsWith "mod_".toList tag || startsWith "faux_pack".toList tag

/-- The two early phases of `LoadStreamingFiles`. -/
def earlyPhase (loadType : LoadType) : Bool :=
  decide (loadType = LoadType.BeforeMapLoad ∨ loadType = LoadType.AfterSessionEarlyStage)

/-- A registration that the early phases pass over: its tag is not mod-style, or its file contains
`cache:/`. -/
def blockedEarly (reg : Str × Str) : Bool :=
  !isModTag reg.2 || (find "cache:/".toList reg.1).isSome

/-- A registration that the phase `loadType` does not pass over by the rule of the early phases. -/
def eligible (loadType : LoadType) (reg : Str × Str) : Bool :=
  !(earlyPhase loadType && blockedEarly reg)

/-- A registration `LoadStreamingFiles` throws away: the base name of its file has no extension
(also when the file has no `/` to find the base name by) or the extension is `rpf`. -/
def malformed (host : Host) (reg : Str × Str) : Bool :=
  decide (extensionOf host reg.1 = none ∨ extensionOf host reg.1 = some "rpf".toList)

/-- The base name `CfxCollection_AddStreamingFileByTag` derives from a file name. -/
def baseNameOf (file : Str) : Option Str :=
  afterLast '/' file

/-- A manifest-kind file: its base name ends with `.ymf`. -/
def isManifestFile (file : Str) : Bool :=
  match baseNameOf file with
  | some baseName => ".ymf".toList.isSuffixOf baseName
  | none => false

/-- The tags that have an entry in the manifest multimap. -/
def manifestTags (s : State) : List Str :=
  s.g_manifestNames.map (fun kv => kv.1)

/-- The session is active for `AddDataFileToLoadList`: the game is loaded and not being killed. -/
def sessionActive (gameLoaded gameKilled : Bool) : Bool :=
  gameLoaded && !gameKilled

/-- A registration of a kind the passes before the session leave for later: the extension of its
base name is `ymap`, `ytyp` or `ybn`. -/
def deferredKind (host : Host) (reg : Str × Str) : Bool :=
  decide (extensionOf host reg.1 = some "ymap".toList ∨
    extensionOf host reg.1 = some "ytyp".toList ∨ extensionOf host reg.1 = some "ybn".toList)

/-- The host calls of one batch of `ReloadMapStore`: a request for every file of the batch, one
`LoadObjectsNow`, a release for every file of the batch. -/
def batchEvents (batch : List (Str × Nat)) : List Event :=
  batch.map (fun f => Event.requestObject f.2 0) ++
    Event.loadObjectsNow :: batch.map (fun f => Event.releaseObject f.2)

/-- Whether an event is one of the three streamer calls of the request loop. -/
def Event.isStreamerCall : Event → Bool
  | Event.requestObject _ _ => true
  | Event.loadObjectsNow => true
  | Event.releaseObject _ => true
  | _ => false

/-- The indexes `RequestObject` was called for, in call order. -/
def requested (tr : List Event) : List Nat :=
  tr.filterMap (fun e =>
    match e with
    | Event.requestObject index _ => some index
    | _ => none)

/-- The indexes `ReleaseObject(index)` was called for, in call order. -/
def released (tr : List Event) : List Nat :=
  tr.filterMap (fun e =>
    match e with
    | Event.releaseObject index => some index
    | _ => none)

/-- The number of requests that have not been released at the end of a sequence of calls. -/
def outstanding : List Event → Int
  | [] => 0
  | Event.requestObject _ _ :: rest => outstanding rest + 1
  | Event.releaseObject _ :: rest => outstanding rest - 1
  | _ :: rest => outstanding rest

/-- How often `a` stands in the list `l`. -/
def timesIn {α : Type} [DecidableEq α] (a : α) (l : List α) : Nat :=
  (l.filter (fun x => decide (x = a))).length

/-- A pending slot of the nav-mesh store or of the static-bounds store: the second loop of the
shutdown handler leaves it allocated. -/
def keptAllocated (host : Host) (p : StrModule × Int) : Bool :=
  isModule (host.getStreamingModule "ynv".toList) p.1 ||
    isModule (host.getStreamingModule "ybn".toList) p.1

/-- Front = currently active, for one slot: a handle stack that is not empty has the live handle of
the slot as its front entry. -/
def FrontIsLive (s : State) (i : Nat) : Prop :=
  s.g_handleStack i ≠ [] → (s.g_handleStack i).head? = some (s.host.handle i)

instance (s : State) (i : Nat) : Decidable (FrontIsLive s i) :=
  inferInstanceAs (Decidable (_ → _))

/-- No slot is at the same time marked as ours and pending removal: the global index of every
entry of `g_pendingRemovals` is outside `g_ourIndexes`. -/
def NotOursAndPending (s : State) : Prop :=
  ∀ p ∈ s.g_pendingRemovals, s.g_ourIndexes (globalIdxInt p.2 p.1) = false

instance (s : State) : Decidable (NotOursAndPending s) :=
  inferInstanceAs (Decidable (∀ p ∈ s.g_pendingRemovals, _))

/-- Distinct slots have distinct global indexes, as far as an apply on the slot `strId` of the
module `m` needs it: every pending slot other than this one has another global index than the index
`strId + baseIdx` the apply marks as ours (for a failed slot lookup, `strId = -1`, that is the index
`baseIdx - 1`). -/
def SlotIndexDistinct (s : State) (m : StrModule) (strId : Nat) : Prop :=
  ∀ p ∈ s.g_pendingRemovals, p ≠ (m, toInt32 strId) → globalIdxInt p.2 p.1 ≠ globalIdx strId m

instance (s : State) (m : StrModule) (strId : Nat) : Decidable (SlotIndexDistinct s m strId) :=
  inferInstanceAs (Decidable (∀ p ∈ s.g_pendingRemovals, _))

/-- The original handle `c` of a slot lies at the bottom of its handle stack: the stack ends in
`c`, its front entry is the live handle of the slot, and the slot is not pending removal. -/
def Layered (s : State) (m : StrModule) (strId c : Nat) : Prop :=
  (s.g_handleStack (globalIdx strId m)).getLast? = some c ∧
  FrontIsLive s (globalIdx strId m) ∧
  (m, toInt32 strId) ∉ s.g_pendingRemovals

instance (s : State) (m : StrModule) (strId c : Nat) : Decidable (Layered s m strId c) :=
  inferInstanceAs (Decidable (_ ∧ _ ∧ _))

/-- Every file listed under a tag in `g_customStreamingFilesByTag` has the property `P`. -/
def ListedFiles (P : Str → Prop) (s : State) : Prop :=
  ∀ kv ∈ s.g_customStreamingFilesByTag, ∀ f ∈ kv.2, P f

instance (P : Str → Prop) [DecidablePred P] (s : State) : Decidable (ListedFiles P s) :=
  inferInstanceAs (Decidable (∀ kv ∈ s.g_customStreamingFilesByTag, ∀ f ∈ kv.2, P f))

/-- The calls into the override registry that a sequence of overrides is made of. -/
inductive RegistryOp where
  /-- the call `CfxCollection_AddStreamingFileByTag(tag, file)` -/
  | register (tag file : Str)
  /-- the call `LoadStreamingFiles(loadType)` -/
  | load (loadType : LoadType)
  /-- the call `CfxCollection_RemoveStreamingTag(tag)` -/
  | remove (tag : Str)
deriving DecidableEq, Repr

/-- One call into the registry; `none` when the call ends the process. -/
def runOp (host : Host) : RegistryOp → State → Option State
  | RegistryOp.register tag file, s => CfxCollection_AddStreamingFileByTag tag file s
  | RegistryOp.load loadType, s => some (LoadStreamingFiles host loadType s)
  | RegistryOp.remove tag, s => CfxCollection_RemoveStreamingTag host tag s

/-- A sequence of calls into the registry, one after the other. -/
def runOps (host : Host) : List RegistryOp → State → Option State
  | [], s => some s
  | op :: rest, s =>
    match runOp host op s with
    | none => none
    | some s1 => runOps host rest s1

/-- The files a call adds to the registry. -/
def RegistryOp.files : RegistryOp → List Str
  | RegistryOp.register _ file => [file]
  | _ => []

/-- What an apply keeps of the handle stacks, the live handles and the pending set: the bottom
entry of every stack, front = live at every slot (other than the index `-1`), and no new pending
slot. -/
def ApplyKeeps (s s' : State) : Prop :=
  (∀ i c, (s.g_handleStack i).getLast? = some c → (s'.g_handleStack i).getLast? = some c) ∧
  (∀ i, i ≠ NO_SLOT → FrontIsLive s i → FrontIsLive s' i) ∧
  (∀ p, p ∈ s'.g_pendingRemovals → p ∈ s.g_pendingRemovals)

/-! ## The entry count of a vehicle meta file -/

/-- The call `z.resize(len)` on a `std::vector<int>`: the vector is cut to `len` entries or filled
up with zeros. -/
def resize (z : List Nat) (len : Nat) : List Nat :=
  z.take len ++ List.replicate (len - z.length) 0

/-- The inner loop of `calc_z`, `for (z[i] = r - i; r < len; ++r, ++z[i]) if (s[r] != s[z[i]])
break;`, from the values `r` and `zi` of `r` and `z[i]`: the values at the exit of the loop. The
result is `none` when an index is outside the string, and when the fuel runs out, which `len + 1`
rounds do not let happen. -/
def calc_z_inner (s : Str) (len : Nat) : Nat → Nat → Nat → Option (Nat × Nat)
  | 0, _, _ => none
  | fuel + 1, r, zi =>
    if r < len then
      match s[r]?, s[zi]? with
      | some a, some b =>
        if a ≠ b then some (r, zi) else calc_z_inner s len fuel (r + 1) (zi + 1)
      | _, _ => none
    else some (r, zi)

/-- The body of the outer loop of `calc_z` for the index `i`, on the vector `z` and the variables
`l` and `r`. The `int` variables are natural numbers here: every value the loop computes lies
between 0 and `2 * len`, and the differences `i - l`, `r - i` and `--r` are taken where the left
side is not smaller (for `i - l` this is checked). The result is `none` when an index is outside
the vector or the string. -/
def calc_z_step (s : Str) (len i : Nat) (z : List Nat) (l r : Nat) :
    Option (List Nat × Nat × Nat) :=
  if l ≤ i ∧ i < z.length then
    match z[i - l]? with
    | none => none
    | some zk =>
      if zk + i ≤ r then some (z.set i zk, l, r)
      else
        match calc_z_inner s len (len + 1) (if i > r then i else r)
            ((if i > r then i else r) - i) with
        | none => none
        | some (r2, zi) => some (z.set i zi, i, r2 - 1)
  else none

/-- The outer loop of `calc_z`, `for (int i = 1; i < len; ++i)`: `k` iterations from the index
`i` on. -/
def calc_z_loop (s : Str) (len : Nat) : Nat → Nat → List Nat → Nat → Nat →
    Option (List Nat × Nat × Nat)
  | 0, _, z, l, r => some (z, l, r)
  | k + 1, i, z, l, r =>
    match calc_z_step s len i z l r with
    | none => none
    | some (z1, l1, r1) => calc_z_loop s len k (i + 1) z1 l1 r1

/-- The function `calc_z(s, z)`: the vector `z` after the call, `none` when the call uses an index
outside the vector or the string. The model is in natural numbers and is exact where no `int` of
the source overflows, which is so for strings of less than `2^30` characters. -/
def calc_z (s : Str) (z : List Nat) : Option (List Nat) :=
  (calc_z_loop s s.length (s.length - 1) 1 (resize z s.length) 0 0).map (fun st => st.1)

/-- The loop of `LoadVehicleMetaForDlc` over the positions `i` of the text behind the substring:
`k` iterations from the index `i` on, from the count `entryCount`. -/
def countEntries (z : List Nat) (substringSize : Nat) : Nat → Nat → Nat → Option Nat
  | 0, _, entryCount => some entryCount
  | k + 1, i, entryCount =>
    match z[i]? with
    | none => none
    | some zi =>
      countEntries z substringSize k (i + 1)
        (if zi ≥ substringSize then entryCount + 1 else entryCount)

/-- The guess of `LoadVehicleMetaForDlc` at the number of entries of a meta file (lines 2211-2241):
16 when the file cannot be opened, else 4 and one more for every position of the text at which the
Z-function of `"</modelName>" + text` is at least the length of the substring. -/
def guessEntryCount (text : Option Str) : Option Nat :=
  match text with
  | none => some 16
  | some textString =>
    match calc_z ("</modelName>".toList ++ textString) [] with
    | none => none
    | some z =>
      countEntries z "</modelName>".toList.length
        (("</modelName>".toList ++ textString).length - "</modelName>".toList.length)
        "</modelName>".toList.length 4

/-- The length of the longest common prefix of two strings. -/
def lcp : Str → Str → Nat
  | a :: as, b :: bs => if a = b then lcp as bs + 1 else 0
  | _, _ => 0

/-- The number of occurrences of `substring` in `text`, overlapping ones included: the number of
positions of `text` at which `substring` begins. -/
def occurrences (substring : Str) : Str → Nat
  | [] => 0
  | c :: cs => (if startsWith substring (c :: cs) then 1 else 0) + occurrences substring cs

/-- The state of `calc_z` at the head of the iteration `i` of its outer loop: the entries before
`i` are the values of the Z-function, the entry 0 and the entries from `i` on are still zero, and
`s[l..r]` is a copy of the beginning of the string (`l = r = 0` before the first iteration). -/
def ZInv (s : Str) (i : Nat) (z : List Nat) (l r : Nat) : Prop :=
  z.length = s.length ∧
  (∀ j, 1 ≤ j → j < i → z[j]? = some (lcp s (s.drop j))) ∧
  (∀ j, (j = 0 ∨ i ≤ j) → j < s.length → z[j]? = some 0) ∧
  l < i ∧ r < s.length ∧
  (∀ j, l ≤ j → j ≤ r → s[j]? = s[j - l]?) ∧
  (l = 0 → r = 0)

/-! ## A small host for the concrete scenarios -/

/-- The empty state of a host whose resource table has no slot and no handle. -/
def emptyHostState : HostState :=
  { handle := fun _ => 0, flags := fun _ => 0, slot := fun _ _ => NO_SLOT }

/-- The entry number the demo raw streamer gives to a file name. -/
def demoEntry (file : Str) : Nat :=
  (file.foldl (fun h c => (h * 31 + c.toNat) % 65536) 7) % 65000 + 1

/-- The modules of the demo host: textures at 100, static bounds at 200, nav meshes at 300, map
types at 400. -/
def demoModule (ext : Str) : Option StrModule :=
  if ext = "ytd".toList then some ⟨1, 100⟩
  else if ext = "ybn".toList then some ⟨2, 200⟩
  else if ext = "ynv".toList then some ⟨3, 300⟩
  else if ext = "ytyp".toList then some ⟨4, 400⟩
  else none

/-- The type table of the demo host: the hash of a type name is its length. -/
def demoTypes : List (Nat × Nat) := [(2, 7), (3, 9), (4, 0), (5, 174), (13, 101), (20, 102)]

/-- A host with one raw streamer, new slots handed out by the character sum of the name, and mounters
that succeed for every type but type 9, which reports failure. -/
def demoHost : Host :=
  { policy := none
    getStreamingModule := demoModule
    rawStreamer := { collectionId := 0, getEntryByName := demoEntry }
    getRawStreamerForFile := fun _ => none
    registerHandle := demoEntry
    allocSlot := fun _ _ name => (name.foldl (fun h c => h + c.toNat) 0) % 64
    hashString := fun t => t.length
    hashRageString := fun t => t.length
    dataFileTypes := demoTypes
    hasDataFileMounter := fun _ => true
    mountFile := fun m _ hs => some (decide (m ≠ Mounter.host 9), hs)
    unmountFile := fun _ _ hs => some (true, hs)
    getStreamingIndexForName := fun _ _ => 0
    isResourceNotCached := fun _ _ => true
    getDummyCollectionIndexByTag := fun _ => -1
    buildAbove2189 := true }

/-- The state of the process before anything was registered, on a given host resource table. -/
def initState (hs : HostState) : State :=
  { g_gtxdFiles := []
    g_dataFiles := []
    g_loadedDataFiles := []
    g_customStreamingFiles := []
    g_customStreamingFileRefs := []
    g_customStreamingFilesByTag := []
    g_handleStack := fun _ => []
    g_pendingRemovals := []
    g_handlesToTag := fun _ => []
    g_pedsToRegister := []
    g_ourIndexes := fun _ => false
    g_manifestNames := []
    g_reloadStreamingFiles := false
    g_lockedStreamingFiles := 0
    g_lockReload := false
    g_unloadingCfx := false
    g_reloadMapStore := false
    loadedCollisions := []
    newGfx := []
    host := hs
    trace := [] }

/-- The load list of the load-order scenario: three ordinary entries around one handling file and
one vehicle layouts file. -/
def demoDataFiles : List (Str × Str) :=
  [("ab".toList, "first.meta".toList),
   ("HANDLING_FILE".toList, "handling.meta".toList),
   ("abc".toList, "second.meta".toList),
   ("VEHICLE_LAYOUTS_FILE".toList, "layouts.meta".toList),
   ("ab".toList, "third.meta".toList)]

/-- A state with the demo load list pending and one file loaded before. -/
def demoLoadState : State :=
  { initState emptyHostState with
    g_dataFiles := demoDataFiles
    g_loadedDataFiles := [("abcd".toList, "old.rpf".toList)] }

/-- The state after `LoadDataFiles` on the demo load list. -/
def demoLoaded : State :=
  (LoadDataFiles demoHost demoLoadState).getD demoLoadState

/-- A pending list whose first entry has a mounter that reports failure (type code 9) and whose
second entry has a type that is not in the type table. -/
def demoFailState : State :=
  { initState emptyHostState with
    g_dataFiles := [("abc".toList, "bad.meta".toList), ("zzzzzzz".toList, "unknown.meta".toList)] }

/-- The state after `LoadDataFiles` on the failing pending list. -/
def demoFailLoaded : State :=
  (LoadDataFiles demoHost demoFailState).getD demoFailState

/-- A loaded list with two entries of type code 7 around one entry of type code 9. -/
def demoUnloadState : State :=
  { initState emptyHostState with
    g_loadedDataFiles :=
      [("ab".toList, "x.meta".toList), ("abc".toList, "y.meta".toList),
       ("ab".toList, "z.meta".toList)] }

/-- The state after `UnloadDataFilesOfTypes({7})` on the demo loaded list. -/
def demoUnloaded : State :=
  (UnloadDataFilesOfTypes demoHost [7] demoUnloadState).getD demoUnloadState

/-- The state after `CfxCollection_AddStreamingFileByTag("pack1", "a/foo.ytd")` on a fresh
process, with the load-lock counter at `locked`. -/
def demoAdded (locked : Int) : State :=
  (CfxCollection_AddStreamingFileByTag "pack1".toList "a/foo.ytd".toList
    { initState emptyHostState with g_lockedStreamingFiles := locked }).getD
    (initState emptyHostState)

/-- The state after a second `CfxCollection_AddStreamingFileByTag("pack1", "b/bar.ytd")` on
`demoAdded 0`, where `pack1` already has `a/foo.ytd` registered. -/
def demoAddedTwice : State :=
  (CfxCollection_AddStreamingFileByTag "pack1".toList "b/bar.ytd".toList (demoAdded 0)).getD
    (demoAdded 0)

/-- A session on the demo host: `pack1` registers `a/foo.ytd` and `b/bar.ybn`, `pack2` registers
`c/x.ytyp`, and the three registrations are applied by `LoadStreamingFiles`. -/
def demoSession : State :=
  ((((CfxCollection_AddStreamingFileByTag "pack1".toList "a/foo.ytd".toList
      (initState emptyHostState)).bind
    (CfxCollection_AddStreamingFileByTag "pack1".toList "b/bar.ybn".toList)).bind
    (CfxCollection_AddStreamingFileByTag "pack2".toList "c/x.ytyp".toList)).map
    (LoadStreamingFiles demoHost LoadType.AfterSession)).getD (initState emptyHostState)

/-- The demo session after the first part of the shutdown handler. -/
def demoUnregistered : State :=
  (shutdownUnregister demoHost demoSession).getD demoSession

/-- The demo session after the shutdown handler. -/
def demoShutdown : State :=
  (OnShutdownSession demoHost demoSession).getD demoSession

/-- A host resource table in which the texture `foo` is a real asset: slot 3 of the texture
module (global index 103) exists and has the live handle 777. -/
def assetHostState : HostState :=
  { emptyHostState with
    handle := fun i => if i = 103 then 777 else 0
    slot := fun a n => if a = 1 ∧ n = "foo".toList then 3 else NO_SLOT }

/-- One registration added and applied at once: `CfxCollection_AddStreamingFileByTag` followed by
`LoadStreamingFiles(AfterSession)` on the demo host. -/
def addAndApply (tag file : String) (s : Option State) : Option State :=
  (s.bind (CfxCollection_AddStreamingFileByTag tag.toList file.toList)).map
    (LoadStreamingFiles demoHost LoadType.AfterSession)

/-- The texture `foo` overridden three times: by `a/foo.ytd` of tag `t1`, by `b/foo.ytd` of tag
`t3`, and by the same `a/foo.ytd` registered again under tag `t2`. -/
def demoShared : State :=
  (addAndApply "t2" "a/foo.ytd" (addAndApply "t3" "b/foo.ytd" (addAndApply "t1" "a/foo.ytd"
    (some (initState assetHostState))))).getD (initState assetHostState)

/-- The state `demoShared` after `CfxCollection_RemoveStreamingTag("t1")`. -/
def demoSharedRemoved : State :=
  (CfxCollection_RemoveStreamingTag demoHost "t1".toList demoShared).getD demoShared

/-- The scenario of the spec: tag `pack1` registers `a/foo.ytd` and `b/bar.ytd` on a host without
these assets, and both registrations are applied. -/
def demoPack1 : State :=
  (((CfxCollection_AddStreamingFileByTag "pack1".toList "a/foo.ytd".toList
      (initState emptyHostState)).bind
    (CfxCollection_AddStreamingFileByTag "pack1".toList "b/bar.ytd".toList)).map
    (LoadStreamingFiles demoHost LoadType.AfterSession)).getD (initState emptyHostState)

/-- A host resource table in which the texture `foo` has a slot (slot 3 of the texture module,
global index 103) that is fresh: no live handle. -/
def freshSlotHostState : HostState :=
  { emptyHostState with slot := fun a n => if a = 1 ∧ n = "foo".toList then 3 else NO_SLOT }

/-- Three registrations pending on a fresh process: `a/foo.ytd` under the tag `pack1`, which is
not mod-style, and `cache:/b/bar.ytd` and `c/baz.ytd` under the mod-style tag `mod_x`. -/
def demoEarly : State :=
  (((CfxCollection_AddStreamingFileByTag "pack1".toList "a/foo.ytd".toList
      (initState emptyHostState)).bind
    (CfxCollection_AddStreamingFileByTag "mod_x".toList "cache:/b/bar.ytd".toList)).bind
    (CfxCollection_AddStreamingFileByTag "mod_x".toList "c/baz.ytd".toList)).getD
    (initState emptyHostState)

/-- Three registrations pending on a fresh process under the tag `pack1`: `a/readme` without an
extension, the container `a/pack.rpf`, and the texture `a/foo.ytd`. -/
def demoMalformed : State :=
  (((CfxCollection_AddStreamingFileByTag "pack1".toList "a/readme".toList
      (initState emptyHostState)).bind
    (CfxCollection_AddStreamingFileByTag "pack1".toList "a/pack.rpf".toList)).bind
    (CfxCollection_AddStreamingFileByTag "pack1".toList "a/foo.ytd".toList)).getD
    (initState emptyHostState)

/-- The texture `foo`, a real asset of the host with the live handle 777, overridden by `a/foo.ytd`
of the tag `pack1`: the handle stack of the slot is the handle of the file above 777. -/
def demoOverridden : State :=
  (addAndApply "pack1" "a/foo.ytd" (some (initState assetHostState))).getD
    (initState assetHostState)

/-- The demo override after the shutdown handler. -/
def demoOverriddenShutdown : State :=
  (OnShutdownSession demoHost demoOverridden).getD demoOverridden

/-- The registration of `a/foo.ytd` under `pack1` added and applied on a fresh process, and the tag
backed out after that. -/
def demoBackedOut : State :=
  ((CfxCollection_AddStreamingFileByTag "pack1".toList "a/foo.ytd".toList
      (initState emptyHostState)).map
    (fun s => CfxCollection_BackoutStreamingTag "pack1".toList
      (LoadStreamingFiles demoHost LoadType.AfterSession s))).getD (initState emptyHostState)

/-- The demo host with the type `DLC_ITYP_REQUEST` (type code 174) in its type table, on which
`UnmountFile` of the mounter of that type raises an access violation. -/
def faultHost : Host :=
  { demoHost with
    dataFileTypes := (16, 174) :: demoTypes
    unmountFile := fun m _ hs => if m = Mounter.proxyDlcItyp then none else some (true, hs) }

/-- A loaded list with one `DLC_ITYP_REQUEST` entry in front of an ordinary entry. -/
def demoItypLoaded : State :=
  { initState emptyHostState with
    g_loadedDataFiles :=
      [("DLC_ITYP_REQUEST".toList, "dlc/a.ityp".toList), ("ab".toList, "x.meta".toList)] }

/-- The entry `(ab, x.meta)` as the only pending entry and as the last of two loaded entries. -/
def demoRemoveState : State :=
  { initState emptyHostState with
    g_dataFiles := [("ab".toList, "x.meta".toList)]
    g_loadedDataFiles := [("abc".toList, "y.meta".toList), ("ab".toList, "x.meta".toList)] }

/-- Three registrations pending on a fresh process: the texture `a/foo.ytd` and the static bounds
`b/bar.ybn` of `pack1`, and the map types `c/x.ytyp` of `pack2`. -/
def demoPending : State :=
  (((CfxCollection_AddStreamingFileByTag "pack1".toList "a/foo.ytd".toList
      (initState emptyHostState)).bind
    (CfxCollection_AddStreamingFileByTag "pack1".toList "b/bar.ybn".toList)).bind
    (CfxCollection_AddStreamingFileByTag "pack2".toList "c/x.ytyp".toList)).getD
    (initState emptyHostState)

/-- A host on which every claimed collision file has the streaming index of its length (over the
static-bounds base 200) and is not cached, and the type `GTXD_PARENTING_DATA` has a mounter. -/
def collisionHost : Host :=
  { demoHost with
    getStreamingIndexForName := fun _ file => 200 + file.length
    dataFileTypes := (19, 103) :: demoTypes }

/-- Six claimed collision files, one gtxd file, and the deferred reload of the map store set. -/
def demoCollisions : State :=
  { initState emptyHostState with
    g_customStreamingFileRefs :=
      ["a.ybn".toList, "bb.ybn".toList, "ccc.ybn".toList, "dddd.ybn".toList, "eeeee.ybn".toList,
       "ffffff.ybn".toList, "tex.ytd".toList]
    g_gtxdFiles := ["gtxd.meta".toList]
    g_reloadMapStore := true }

/-- The demo collisions after `ReloadMapStore`. -/
def demoCollisionsReloaded : State :=
  (ReloadMapStore collisionHost demoCollisions).getD demoCollisions

/-- A host on which the texture module hands out the slot 99 to a new name (global index 199, the
last index below the base 200 of the static-bounds module) and every other module has no slot to
hand out: there the slot lookups of `LoadStreamingFiles` fail and leave `strId = -1`. -/
def noSlotHost : Host :=
  { demoHost with allocSlot := fun _ m _ => if m.addr = 1 then 99 else NO_SLOT }

/-- On `noSlotHost`: the texture `a/foo.ytd` was registered under `t1`, applied and removed with
its tag, so that its slot 99 is pending removal; then the static bounds `b/bar.ybn` were registered
under `t2` and wait for the next `LoadStreamingFiles` pass. -/
def demoLookupFails : State :=
  (runOps noSlotHost
    [RegistryOp.register "t1".toList "a/foo.ytd".toList, RegistryOp.load LoadType.AfterSession,
     RegistryOp.remove "t1".toList, RegistryOp.register "t2".toList "b/bar.ybn".toList]
    (initState emptyHostState)).getD (initState emptyHostState)

/-- The demo host with a custom raw streamer that holds every file as its entry 5: the handle
`LoadStreamingFiles` computes for a file on the push branch is `(1 << 16) | 5 = 65541`. -/
def customStreamerHost : Host :=
  { demoHost with
    getRawStreamerForFile := fun _ => some { collectionId := 1, getEntryByName := fun _ => 5 } }

/-- One override and its removal: `a/foo.ytd` is registered under `pack1` and applied, then the tag
is removed. -/
def demoOverrideOps : List RegistryOp :=
  [RegistryOp.register "pack1".toList "a/foo.ytd".toList, RegistryOp.load LoadType.AfterSession,
   RegistryOp.remove "pack1".toList]

/-! ## Lemmas -/

theorem isSome_eq_some_getD {α : Type} (o : Option α) (d : α) (h : o.isSome = true) :
    o = some (o.getD d) := by
  cases o with
  | none => simp at h
  | some a => rfl

theorem insertSorted_append {α : Type} (comp : α → α → Bool) (a : α) (P N : List α)
    (hP : ∀ b ∈ P, comp b a = true) (hN : ∀ b ∈ N, comp b a = false) :
    insertSorted comp a (P ++ N) = P ++ a :: N := by
  induction P with
  | nil =>
    cases N with
    | nil => rfl
    | cons b N => simp [insertSorted, hN b (List.mem_cons_self b N)]
  | cons p P ih =>
    have hp : comp p a = true := hP p (List.mem_cons_self p P)
    have ih2 := ih (fun b hb => hP b (List.mem_cons_of_mem p hb))
    simp [insertSorted, hp, ih2]

theorem dfSort_cases (host : Host) (x : Str × Str) : dfSort host x = 0 ∨ dfSort host x = 100 := by
  unfold dfSort
  split
  · exact Or.inl rfl
  · exact Or.inr rfl

/-- The stable sort of `LoadDataFiles` is the stable partition by the priority predicate. -/
theorem stable_sort_dfSort (host : Host) (l : List (Str × Str)) :
    stable_sort (fun left right => decide (dfSort host left < dfSort host right)) l =
      l.filter (isPriority host) ++ l.filter (fun x => !isPriority host x) := by
  induction l with
  | nil => rfl
  | cons a l ih =>
    simp only [stable_sort, ih]
    rcases dfSort_cases host a with h0 | h100
    · have hpa : isPriority host a = true := by simp [isPriority, h0]
      have h := insertSorted_append
        (fun left right => decide (dfSort host left < dfSort host right)) a []
        (l.filter (isPriority host) ++ l.filter (fun x => !isPriority host x))
        (by simp) (by intro b _; simp [h0])
      simp only [List.nil_append] at h
      rw [h]
      simp [List.filter_cons, hpa]
    · have hpa : isPriority host a = false := by simp [isPriority, h100]
      rw [insertSorted_append _ a _ _
        (by intro b hb; have := (List.mem_filter.mp hb).2; simp [isPriority] at this; simp [this, h100])
        (by
          intro b hb
          have h2 := (List.mem_filter.mp hb).2
          rcases dfSort_cases host b with hb0 | hb100
          · simp [isPriority, hb0] at h2
          · simp [hb100, h100])]
      simp [List.filter_cons, hpa]

theorem MountFile_frame (host : Host) (m : Mounter) (e : DataFileEntry) (s : State)
    (r : Bool × State) (h : MountFile host m e s = some r) :
    r.2 = { s with g_reloadMapStore := r.2.g_reloadMapStore, host := r.2.host } := by
  unfold MountFile at h
  cases m <;> simp only [Option.map_eq_some'] at h
  case pseudo =>
    split at h <;> (injection h with h; subst h; rfl)
  all_goals
    obtain ⟨a, _, ha⟩ := h
    subst ha
    rfl

theorem UnmountFile_frame (host : Host) (m : Mounter) (e : DataFileEntry) (s : State)
    (r : Bool × State) (h : UnmountFile host m e s = some r) :
    r.2 = { s with loadedCollisions := r.2.loadedCollisions, host := r.2.host } := by
  unfold UnmountFile at h
  cases m <;> simp only [Option.map_eq_some'] at h
  case pseudo =>
    split at h <;> (injection h with h; subst h; rfl)
  case cache =>
    injection h with h; subst h; rfl
  all_goals
    obtain ⟨a, _, ha⟩ := h
    subst ha
    rfl

/-- What `HandleDataFile` with the mounting lambda leaves behind: the trace line of the dispatch,
then at most the one `MountFile` call; of the globals only `g_reloadMapStore` can change. -/
theorem HandleDataFile_mount (host : Host) (op : Str) (df : Str × Str) (s s' : State)
    (h : HandleDataFile host (mountFn host) op df s = some s') :
    ∃ evs, (∀ e ∈ evs, ∃ m entry, e = Event.mountFile m entry) ∧
      s' = { s with
        g_reloadMapStore := s'.g_reloadMapStore
        host := s'.host
        trace := s.trace ++ Event.handleDataFile op df.1 df.2 :: evs } := by
  unfold HandleDataFile at h
  split at h
  · injection h with h
    subst h
    exact ⟨[], by simp, by simp [State.emit]⟩
  · rename_i mounter _
    dsimp only at h
    split at h
    · exact absurd h (by simp)
    · rename_i r hr
      injection h with h
      subst h
      have hf := MountFile_frame host _ _ _ r hr
      refine ⟨[Event.mountFile mounter ⟨df.2, LookupDataFileType host df.1⟩], ?_, ?_⟩
      · intro e he
        simp only [List.mem_singleton] at he
        exact ⟨_, _, he⟩
      · rw [hf]
        simp [State.emit]

/-- What `HandleDataFile` with the unmounting lambda leaves behind. -/
theorem HandleDataFile_unmount (host : Host) (op : Str) (df : Str × Str) (s s' : State)
    (h : HandleDataFile host (unmountFn host) op df s = some s') :
    ∃ evs, (∀ e ∈ evs, ∃ m, e = Event.unmountFile m ⟨df.2, LookupDataFileType host df.1⟩) ∧
      s' = { s with
        loadedCollisions := s'.loadedCollisions
        host := s'.host
        trace := s.trace ++ Event.handleDataFile op df.1 df.2 :: evs } := by
  unfold HandleDataFile at h
  split at h
  · injection h with h
    subst h
    exact ⟨[], by simp, by simp [State.emit]⟩
  · rename_i mounter _
    dsimp only at h
    split at h
    · exact absurd h (by simp)
    · rename_i r hr
      injection h with h
      subst h
      have hf := UnmountFile_frame host _ _ _ r hr
      refine ⟨[Event.unmountFile mounter ⟨df.2, LookupDataFileType host df.1⟩], ?_, ?_⟩
      · intro e he
        simp only [List.mem_singleton] at he
        exact ⟨_, he⟩
      · rw [hf]
        simp [State.emit]

theorem dispatched_append (a b : List Event) :
    dispatched (a ++ b) = dispatched a ++ dispatched b := by
  simp [dispatched, List.filterMap_append]

theorem unmounted_append (a b : List Event) :
    unmounted (a ++ b) = unmounted a ++ unmounted b := by
  simp [unmounted, List.filterMap_append]

theorem dispatched_of_mountFile (evs : List Event)
    (h : ∀ e ∈ evs, ∃ m entry, e = Event.mountFile m entry) : dispatched evs = [] := by
  induction evs with
  | nil => rfl
  | cons e evs ih =>
    obtain ⟨m, entry, he⟩ := h e (List.mem_cons_self e evs)
    subst he
    have := ih (fun e he => h e (List.mem_cons_of_mem _ he))
    simpa [dispatched] using this

/-- The mounting pass over a list: the entries are dispatched in list order, the two data file
lists are not touched. -/
theorem HandleDataFileList_mount (host : Host) (op : Str) (l : List (Str × Str)) (s s' : State)
    (h : HandleDataFileList host (mountFn host) op l s = some s') :
    ∃ evs, dispatched evs = l ∧
      s' = { s with
        g_reloadMapStore := s'.g_reloadMapStore
        host := s'.host
        trace := s.trace ++ evs } := by
  induction l generalizing s with
  | nil =>
    simp only [HandleDataFileList] at h
    injection h with h
    subst h
    exact ⟨[], rfl, by simp⟩
  | cons df rest ih =>
    simp only [HandleDataFileList] at h
    split at h
    · exact absurd h (by simp)
    · rename_i s1 h1
      obtain ⟨evs1, hev1, hs1⟩ := HandleDataFile_mount host op df s s1 h1
      obtain ⟨evs2, hev2, hs2⟩ := ih s1 h
      refine ⟨Event.handleDataFile op df.1 df.2 :: evs1 ++ evs2, ?_, ?_⟩
      · rw [dispatched_append]
        have : dispatched (Event.handleDataFile op df.1 df.2 :: evs1) = [df] := by
          have h0 := dispatched_of_mountFile evs1 hev1
          simpa [dispatched] using h0
        rw [this, hev2]
        rfl
      · rw [hs2, hs1]
        simp

theorem foldl_emit {α : Type} (f : α → Event) (l : List α) (s : State) :
    l.foldl (fun st x => st.emit (f x)) s = { s with trace := s.trace ++ l.map f } := by
  induction l generalizing s with
  | nil => simp
  | cons x l ih =>
    simp only [List.foldl_cons, ih]
    simp [State.emit]

theorem dispatched_map_nil {α : Type} (f : α → Event) (l : List α)
    (h : ∀ x, dispatched [f x] = []) : dispatched (l.map f) = [] := by
  induction l with
  | nil => rfl
  | cons x l ih =>
    have := dispatched_append [f x] (l.map f)
    simp only [List.singleton_append] at this
    simp [this, h x, ih]

theorem reloadBatch_frame (batch : List (Str × Nat)) (s : State) :
    ∃ evs, dispatched evs = [] ∧ reloadBatch batch s = { s with trace := s.trace ++ evs } := by
  refine ⟨batch.map (fun f => Event.requestObject f.2 0) ++ [Event.loadObjectsNow] ++
      batch.map (fun f => Event.releaseObject f.2), ?_, ?_⟩
  · simp only [dispatched_append]
    rw [dispatched_map_nil (fun f : Str × Nat => Event.requestObject f.2 0) batch (fun _ => rfl),
      dispatched_map_nil (fun f : Str × Nat => Event.releaseObject f.2) batch (fun _ => rfl)]
    rfl
  · simp only [reloadBatch, foldl_emit]
    simp [State.emit]

theorem reloadBatches_frame (bs : List (List (Str × Nat))) (s : State) :
    ∃ evs, dispatched evs = [] ∧
      bs.foldl (fun st batch => reloadBatch batch st) s = { s with trace := s.trace ++ evs } := by
  induction bs generalizing s with
  | nil => exact ⟨[], rfl, by simp⟩
  | cons b bs ih =>
    obtain ⟨e1, hd1, h1⟩ := reloadBatch_frame b s
    obtain ⟨e2, hd2, h2⟩ := ih (reloadBatch b s)
    refine ⟨e1 ++ e2, by simp [dispatched_append, hd1, hd2], ?_⟩
    simp only [List.foldl_cons, h2]
    rw [h1]
    simp

theorem mountGtxdFiles_frame (host : Host) (l : List Str) (s s' : State)
    (h : mountGtxdFiles host l s = some s') :
    ∃ evs, dispatched evs = [] ∧
      s' = { s with
        g_reloadMapStore := s'.g_reloadMapStore
        host := s'.host
        trace := s.trace ++ evs } := by
  induction l generalizing s with
  | nil =>
    simp only [mountGtxdFiles] at h
    injection h with h
    subst h
    exact ⟨[], rfl, by simp⟩
  | cons file rest ih =>
    simp only [mountGtxdFiles] at h
    split at h
    · exact absurd h (by simp)
    · rename_i mounter _
      split at h
      · exact absurd h (by simp)
      · rename_i r hr
        obtain ⟨evs, hd, hs⟩ := ih r.2 h
        have hf := MountFile_frame host _ _ _ r hr
        refine ⟨Event.mountFile mounter
            ⟨file, LookupDataFileType host "GTXD_PARENTING_DATA".toList⟩ :: evs, ?_, ?_⟩
        · have := dispatched_append
            [Event.mountFile mounter ⟨file, LookupDataFileType host "GTXD_PARENTING_DATA".toList⟩] evs
          simp only [List.singleton_append] at this
          rw [this, hd]
          rfl
        · rw [hs, hf]
          simp [State.emit]

theorem reloadCollisions_frame (host : Host) (s : State) :
    ∃ evs, dispatched evs = [] ∧
      reloadCollisions host s = { s with loadedCollisions := [], trace := s.trace ++ evs } := by
  obtain ⟨e1, hd1, h1⟩ := reloadBatches_frame (batches (collisionFiles host s)) s
  unfold reloadCollisions
  dsimp only
  rw [h1]
  cases hb : host.buildAbove2189
  · refine ⟨e1 ++ [Event.onReloadMapStore, Event.reloadMapStoreNative,
      Event.clearContentCache], ?_, ?_⟩
    · simp only [dispatched_append, hd1]
      rfl
    · simp [State.emit]
  · refine ⟨e1 ++ [Event.onReloadMapStore, Event.disableContentGroup 0xBCC89179,
      Event.onReloadMapStore, Event.enableContentGroup 0xBCC89179,
      Event.clearContentCache], ?_, ?_⟩
    · simp only [dispatched_append, hd1]
      rfl
    · simp [State.emit]

/-- The function `ReloadMapStore` dispatches no data file and leaves the globals alone, apart
from its own flag and `loadedCollisions`. -/
theorem ReloadMapStore_frame (host : Host) (s s' : State) (h : ReloadMapStore host s = some s') :
    ∃ evs, dispatched evs = [] ∧
      s' = { s with
        g_reloadMapStore := s'.g_reloadMapStore
        loadedCollisions := s'.loadedCollisions
        host := s'.host
        trace := s.trace ++ evs } := by
  unfold ReloadMapStore at h
  split at h
  · injection h with h
    subst h
    exact ⟨[], rfl, by simp⟩
  · split at h
    · exact absurd h (by simp)
    · rename_i s5 h5
      injection h with h
      subst h
      obtain ⟨e1, hd1, h1⟩ := reloadCollisions_frame host s
      obtain ⟨e2, hd2, h2⟩ := mountGtxdFiles_frame host _ _ s5 h5
      rw [h1] at h2
      refine ⟨e1 ++ e2, by simp only [dispatched_append, hd1, hd2]; rfl, ?_⟩
      rw [h2]
      simp

/-- What `LoadDataFiles` does with the two data file lists and in which order it dispatches. -/
theorem LoadDataFiles_spec (host : Host) (s s' : State) (h : LoadDataFiles host s = some s') :
    ∃ evs,
      dispatched evs =
        stable_sort (fun left right => decide (dfSort host left < dfSort host right)) s.g_dataFiles ∧
      s'.trace = s.trace ++ evs ∧
      s'.g_loadedDataFiles = s.g_loadedDataFiles ++
        stable_sort (fun left right => decide (dfSort host left < dfSort host right)) s.g_dataFiles ∧
      s'.g_dataFiles = [] := by
  unfold LoadDataFiles at h
  dsimp only at h
  split at h
  · exact absurd h (by simp)
  · rename_i s2 h2
    obtain ⟨e1, hd1, hs2⟩ := HandleDataFileList_mount host _ _ _ s2 h2
    split at h
    · exact absurd h (by simp)
    · rename_i s4 h4
      have key : ∃ e2, dispatched e2 = [] ∧ s4.trace = s2.trace ++ e2 ∧
          s4.g_loadedDataFiles = s2.g_loadedDataFiles ++ s2.g_dataFiles ∧ s4.g_dataFiles = [] ∧
          s4.g_pedsToRegister = s2.g_pedsToRegister := by
        split at h4
        · obtain ⟨e2, hd2, hs4⟩ := ReloadMapStore_frame host _ s4 h4
          refine ⟨e2, hd2, ?_, ?_, ?_, ?_⟩ <;> (rw [hs4])
        · injection h4 with h4
          subst h4
          exact ⟨[], rfl, by simp, rfl, rfl, rfl⟩
      obtain ⟨e2, hd2, ht4, hl4, hdf4, _⟩ := key
      have h2t : s2.trace = s.trace ++ e1 := by rw [hs2]
      have h2l : s2.g_loadedDataFiles = s.g_loadedDataFiles := by rw [hs2]
      have h2d : s2.g_dataFiles =
          stable_sort (fun left right => decide (dfSort host left < dfSort host right))
            s.g_dataFiles := by rw [hs2]
      split at h
      · injection h with h
        subst h
        refine ⟨e1 ++ e2 ++ [Event.registerPeds s4.g_pedsToRegister], ?_, ?_, ?_, ?_⟩
        · simp only [dispatched_append, hd1, hd2]
          simp [dispatched]
        · simp [State.emit, ht4, h2t]
        · simp [State.emit, hl4, h2l, h2d]
        · simp [State.emit, hdf4]
      · injection h with h
        subst h
        refine ⟨e1 ++ e2, ?_, ?_, ?_, ?_⟩
        · simp only [dispatched_append, hd1, hd2]
          simp
        · simp [ht4, h2t]
        · simp [hl4, h2l, h2d]
        · exact hdf4

theorem unmounted_of_unmountFile (entry : DataFileEntry) (evs : List Event)
    (h : ∀ e ∈ evs, ∃ m, e = Event.unmountFile m entry) :
    ∀ en ∈ unmounted evs, en = entry := by
  induction evs with
  | nil => intro en hen; simp [unmounted] at hen
  | cons e evs ih =>
    obtain ⟨m, he⟩ := h e (List.mem_cons_self e evs)
    subst he
    intro en hen
    have hsplit := unmounted_append [Event.unmountFile m entry] evs
    simp only [List.singleton_append] at hsplit
    rw [hsplit] at hen
    rcases List.mem_append.mp hen with h1 | h2
    · simpa [unmounted] using h1
    · exact ih (fun e he => h e (List.mem_cons_of_mem _ he)) en h2

/-- The filtered unmounting pass: the list that is left, and whom `UnmountFile` was called for. -/
theorem HandleDataFileListWithTypes_unmount (host : Host) (types : List Int) (op : Str)
    (l : List (Str × Str)) (s : State) (r : List (Str × Str) × State)
    (h : HandleDataFileListWithTypes host (unmountFn host) types op l s = some r) :
    r.1 = l.filter (fun df => decide (LookupDataFileType host df.1 ∉ types)) ∧
    ∃ evs, r.2.trace = s.trace ++ evs ∧
      (∀ en ∈ unmounted evs, ∃ df ∈ l, LookupDataFileType host df.1 ∈ types ∧
        en = ⟨df.2, LookupDataFileType host df.1⟩) ∧
      dispatched evs = l.filter (fun df => decide (LookupDataFileType host df.1 ∈ types)) := by
  induction l generalizing s r with
  | nil =>
    simp only [HandleDataFileListWithTypes] at h
    injection h with h
    subst h
    exact ⟨rfl, [], by simp, by simp [unmounted], rfl⟩
  | cons df rest ih =>
    simp only [HandleDataFileListWithTypes] at h
    split at h
    · rename_i hin
      split at h
      · exact absurd h (by simp)
      · rename_i s1 h1
        obtain ⟨e1, hev1, hs1⟩ := HandleDataFile_unmount host op df s s1 h1
        obtain ⟨hr, e2, ht2, hu2, hd2⟩ := ih s1 r h
        refine ⟨by simp [List.filter_cons, hin, hr], Event.handleDataFile op df.1 df.2 :: e1 ++ e2,
          ?_, ?_, ?_⟩
        · rw [ht2, hs1]
          simp
        · intro en hen
          rw [unmounted_append] at hen
          rcases List.mem_append.mp hen with ha | hb
          · have hsplit := unmounted_append [Event.handleDataFile op df.1 df.2] e1
            simp only [List.singleton_append] at hsplit
            rw [hsplit] at ha
            have ha2 : en ∈ unmounted e1 := by simpa [unmounted] using ha
            exact ⟨df, List.mem_cons_self df rest, hin, unmounted_of_unmountFile _ e1 hev1 en ha2⟩
          · obtain ⟨d, hd, hdt, hde⟩ := hu2 en hb
            exact ⟨d, List.mem_cons_of_mem _ hd, hdt, hde⟩
        · rw [dispatched_append, hd2]
          have hsplit := dispatched_append [Event.handleDataFile op df.1 df.2] e1
          simp only [List.singleton_append] at hsplit
          have hnil : dispatched e1 = [] := by
            clear hsplit hs1
            induction e1 with
            | nil => rfl
            | cons e e1 ihe =>
              obtain ⟨m, he⟩ := hev1 e (List.mem_cons_self e e1)
              subst he
              have := ihe (fun e he => hev1 e (List.mem_cons_of_mem _ he))
              simpa [dispatched] using this
          rw [hsplit, hnil]
          simp [List.filter_cons, hin, dispatched]
    · rename_i hin
      split at h
      · exact absurd h (by simp)
      · rename_i r1 h1
        injection h with h
        subst h
        obtain ⟨hr, e2, ht2, hu2, hd2⟩ := ih s r1 h1
        refine ⟨by simp [List.filter_cons, hin, hr], e2, ht2, ?_, ?_⟩
        · intro en hen
          obtain ⟨d, hd, hdt, hde⟩ := hu2 en hen
          exact ⟨d, List.mem_cons_of_mem _ hd, hdt, hde⟩
        · rw [hd2]
          simp [List.filter_cons, hin]

theorem afterLast_isSome (c : Char) (l : Str) (h : c ∈ l) : ∃ r, afterLast c l = some r := by
  induction l with
  | nil => simp at h
  | cons x xs ih =>
    simp only [afterLast]
    cases hx : afterLast c xs with
    | some r => exact ⟨r, rfl⟩
    | none =>
      rcases List.mem_cons.mp h with h1 | h2
      · subst h1
        exact ⟨xs, by simp⟩
      · obtain ⟨r, hr⟩ := ih h2
        rw [hr] at hx
        exact absurd hx (by simp)

theorem afterLast_none (c : Char) (l : Str) (h : c ∉ l) : afterLast c l = none := by
  induction l with
  | nil => rfl
  | cons x xs ih =>
    simp only [List.mem_cons, not_or] at h
    simp only [afterLast, ih h.2]
    rw [if_neg (fun e => h.1 e.symm)]

theorem mapGet_mapSet {β : Type} (k : Str) (v d : β) (m : List (Str × β)) :
    mapGet (mapSet k v m) k d = v := by
  induction m with
  | nil => simp [mapSet, mapGet]
  | cons kv rest ih =>
    simp only [mapSet]
    by_cases h1 : kv.1 = k
    · simp [h1, mapGet]
    · by_cases h2 : strLt k kv.1 = true
      · simp [h1, h2, mapGet]
      · have h3 : strLt k kv.1 = false := by simpa using h2
        have hr : (if kv.1 = k then (k, v) :: rest
            else if strLt k kv.1 = true then (k, v) :: kv :: rest else kv :: mapSet k v rest) =
            kv :: mapSet k v rest := by
          rw [if_neg h1, h3]
          rfl
        rw [hr]
        simp only [mapGet, List.find?_cons, h1, decide_False] at ih ⊢
        exact ih

theorem setInsert_filter {α : Type} [DecidableEq α] (lt : α → α → Bool) (x : α) (l : List α)
    (p : α → Bool) (hx : p x = false) : (setInsert lt x l).filter p = l.filter p := by
  induction l with
  | nil => simp [setInsert, hx]
  | cons y ys ih =>
    simp only [setInsert]
    by_cases h1 : x = y
    · simp [h1]
    · by_cases h2 : lt x y = true
      · simp [h1, h2, List.filter_cons, hx]
      · simp [h1, h2, List.filter_cons, ih]

theorem foldl_setErase {α β : Type} [DecidableEq α] (f : β → α) (names : List β) (l : List α) :
    names.foldl (fun set n => setErase (f n) set) l =
      l.filter (fun y => names.all (fun n => decide (y ≠ f n))) := by
  induction names generalizing l with
  | nil => simp
  | cons n names ih =>
    rw [List.foldl_cons, ih]
    simp only [setErase, List.filter_filter, List.all_cons]
    congr 1
    funext y
    simp [Bool.and_comm]

/-- The loop of `CfxCollection_BackoutStreamingTag` touches the registration set and the claimed
base names only. -/
theorem backout_fold (tag : Str) (names : List Str) (s : State) :
    names.foldl
      (fun st name => { st with
        g_customStreamingFiles := setErase (name, tag) st.g_customStreamingFiles
        g_customStreamingFileRefs := setErase name st.g_customStreamingFileRefs }) s =
    { s with
      g_customStreamingFiles :=
        names.foldl (fun set n => setErase (n, tag) set) s.g_customStreamingFiles
      g_customStreamingFileRefs :=
        names.foldl (fun set n => setErase n set) s.g_customStreamingFileRefs } := by
  induction names generalizing s with
  | nil => rfl
  | cons n names ih =>
    simp only [List.foldl_cons]
    rw [ih]

theorem removeFromSlot_trace (host : Host) (file baseName : Str) (m : StrModule) (strId : Nat)
    (s : State) : (removeFromSlot host file baseName m strId s).trace = s.trace := by
  unfold removeFromSlot
  dsimp only
  split <;> rfl

theorem removeStreamingFile_trace (host : Host) (file : Str) (s s' : State)
    (h : removeStreamingFile host file s = some s') : s'.trace = s.trace := by
  unfold removeStreamingFile at h
  split at h
  · exact absurd h (by simp)
  · split at h
    · injection h with h; subst h; rfl
    · split at h
      · injection h with h; subst h; rfl
      · split at h
        · injection h with h
          subst h
          exact removeFromSlot_trace _ _ _ _ _ _
        · injection h with h; subst h; rfl

theorem removeStreamingFiles_trace (host : Host) (files : List Str) (s s' : State)
    (h : removeStreamingFiles host files s = some s') : s'.trace = s.trace := by
  induction files generalizing s with
  | nil =>
    simp only [removeStreamingFiles] at h
    injection h with h
    subst h
    rfl
  | cons f rest ih =>
    simp only [removeStreamingFiles] at h
    split at h
    · exact absurd h (by simp)
    · rename_i s1 h1
      rw [ih s1 h, removeStreamingFile_trace host f s s1 h1]

theorem RemoveStreamingTag_trace (host : Host) (tag : Str) (s s' : State)
    (h : CfxCollection_RemoveStreamingTag host tag s = some s') :
    s'.trace = s.trace ++ [Event.updateAllocatorValue] := by
  unfold CfxCollection_RemoveStreamingTag at h
  dsimp only at h
  split at h
  · exact absurd h (by simp)
  · rename_i s1 h1
    injection h with h
    subst h
    have := removeStreamingFiles_trace host _ _ s1 h1
    simpa [State.emit] using this

theorem removeAllTags_trace (host : Host) (tags : List Str) (s s' : State)
    (h : removeAllTags host tags s = some s') :
    ∃ evs, s'.trace = s.trace ++ evs ∧ ∀ e ∈ evs, e.isRemoveSlot = false := by
  induction tags generalizing s with
  | nil =>
    simp only [removeAllTags] at h
    injection h with h
    subst h
    exact ⟨[], by simp, by simp⟩
  | cons t rest ih =>
    simp only [removeAllTags] at h
    split at h
    · exact absurd h (by simp)
    · rename_i s1 h1
      obtain ⟨evs, ht, hn⟩ := ih s1 h
      refine ⟨Event.updateAllocatorValue :: evs, ?_, ?_⟩
      · rw [ht, RemoveStreamingTag_trace host t s s1 h1]
        simp
      · intro e he
        rcases List.mem_cons.mp he with h1 | h2
        · subst h1; rfl
        · exact hn e h2

theorem HandleDataFileList_unmount_trace (host : Host) (op : Str) (l : List (Str × Str))
    (s s' : State) (h : HandleDataFileList host (unmountFn host) op l s = some s') :
    ∃ evs, s'.trace = s.trace ++ evs ∧ ∀ e ∈ evs, e.isRemoveSlot = false := by
  induction l generalizing s with
  | nil =>
    simp only [HandleDataFileList] at h
    injection h with h
    subst h
    exact ⟨[], by simp, by simp⟩
  | cons df rest ih =>
    simp only [HandleDataFileList] at h
    split at h
    · exact absurd h (by simp)
    · rename_i s1 h1
      obtain ⟨e1, hev1, hs1⟩ := HandleDataFile_unmount host op df s s1 h1
      obtain ⟨e2, ht2, hn2⟩ := ih s1 h
      refine ⟨Event.handleDataFile op df.1 df.2 :: e1 ++ e2, ?_, ?_⟩
      · rw [ht2, hs1]
        simp
      · intro e he
        rcases List.mem_append.mp he with ha | hb
        · rcases List.mem_cons.mp ha with h0 | h1
          · subst h0; rfl
          · obtain ⟨m, hm⟩ := hev1 e h1
            subst hm
            rfl
        · exact hn2 e hb

/-- The first part of the shutdown handler issues no `RemoveSlot`. -/
theorem shutdownUnregister_trace (host : Host) (s s3 : State)
    (h : shutdownUnregister host s = some s3) :
    ∃ pre, s3.trace = s.trace ++ pre ∧ ∀ e ∈ pre, e.isRemoveSlot = false := by
  unfold shutdownUnregister at h
  dsimp only at h
  split at h
  · exact absurd h (by simp)
  · rename_i s2 h2
    obtain ⟨e3, ht3, hn3⟩ := removeAllTags_trace host _ s2 s3 h
    have key : ∃ e2, s2.trace = s.trace ++ [Event.waitUntilStreamerClear, Event.resyncStreamers,
        Event.unloadTextureLODs] ++ e2 ∧ ∀ e ∈ e2, e.isRemoveSlot = false := by
      unfold UnloadDataFiles at h2
      split at h2
      · split at h2
        · exact absurd h2 (by simp)
        · rename_i s1 h1
          injection h2 with h2
          subst h2
          obtain ⟨e2, ht2, hn2⟩ := HandleDataFileList_unmount_trace host _ _ _ s1 h1
          exact ⟨e2, by simp [ht2, SafelyDrainStreamer, State.emit], hn2⟩
      · injection h2 with h2
        subst h2
        exact ⟨[], by simp [SafelyDrainStreamer, State.emit], by simp⟩
    obtain ⟨e2, ht2, hn2⟩ := key
    refine ⟨[Event.waitUntilStreamerClear, Event.resyncStreamers, Event.unloadTextureLODs] ++ e2 ++ e3,
      ?_, ?_⟩
    · rw [ht3, ht2]
      simp
    · intro e he
      rcases List.mem_append.mp he with ha | hb
      · rcases List.mem_append.mp ha with h0 | h1
        · simp only [List.mem_cons, List.mem_singleton, List.not_mem_nil, or_false] at h0
          rcases h0 with h0 | h0 | h0 <;> (subst h0; rfl)
        · exact hn2 e h1
      · exact hn3 e hb

theorem releasePending_eq (host : Host) (p : StrModule × Int) (s : State) :
    releasePending host p s =
      { s with
        host := (releasePending host p s).host
        trace := s.trace ++ releaseEvents host p } := by
  unfold releasePending releaseEvents
  generalize isModule (host.getStreamingModule "ytyp".toList) p.1 = b1
  generalize isModule (host.getStreamingModule "ybn".toList) p.1 = b2
  cases b1 <;> cases b2 <;>
    by_cases h2 : s.host.flags (globalIdxInt p.2 p.1) &&& 0xFFFC = 0 <;>
    simp [State.emit, h2]

theorem removePending_eq (host : Host) (p : StrModule × Int) (s : State) :
    removePending host p s =
      { s with
        host := (removePending host p s).host
        trace := s.trace ++ removeEvents host p } := by
  unfold removePending removeEvents
  generalize isModule (host.getStreamingModule "ynv".toList) p.1 = b1
  generalize isModule (host.getStreamingModule "ybn".toList) p.1 = b2
  cases b1 <;> cases b2 <;> simp [State.emit]

theorem foldl_releasePending (host : Host) (l : List (StrModule × Int)) (s : State) :
    l.foldl (fun st p => releasePending host p st) s =
      { s with
        host := (l.foldl (fun st p => releasePending host p st) s).host
        trace := s.trace ++ l.flatMap (releaseEvents host) } := by
  induction l generalizing s with
  | nil => simp
  | cons p l ih =>
    simp only [List.foldl_cons]
    rw [ih, releasePending_eq]
    simp

theorem foldl_removePending (host : Host) (l : List (StrModule × Int)) (s : State) :
    l.foldl (fun st p => removePending host p st) s =
      { s with
        host := (l.foldl (fun st p => removePending host p st) s).host
        trace := s.trace ++ l.flatMap (removeEvents host) } := by
  induction l generalizing s with
  | nil => simp
  | cons p l ih =>
    simp only [List.foldl_cons]
    rw [ih, removePending_eq]
    simp

/-- The trace of the shutdown handler after its first part: the release calls of all pending slots,
then the `RemoveSlot` calls. -/
theorem OnShutdownSession_trace (host : Host) (s s' : State)
    (h : OnShutdownSession host s = some s') :
    ∃ s3, shutdownUnregister host s = some s3 ∧
      s'.trace = s3.trace ++ s3.g_pendingRemovals.flatMap (releaseEvents host) ++
        s3.g_pendingRemovals.flatMap (removeEvents host) := by
  unfold OnShutdownSession at h
  split at h
  · exact absurd h (by simp)
  · rename_i s3 h3
    injection h with h
    subst h
    refine ⟨s3, h3, ?_⟩
    dsimp only
    rw [foldl_removePending]
    rw [foldl_releasePending]

theorem eraseScan_filter (idx : Nat) (p : Nat → Bool) (hp : p idx = false) (l : List Nat) :
    ((eraseScan idx l).1).filter p = l.filter p := by
  suffices hn : ∀ n (l : List Nat), l.length ≤ n → ((eraseScan idx l).1).filter p = l.filter p from
    hn l.length l (Nat.le_refl _)
  intro n
  induction n with
  | zero =>
    intro l hl
    cases l with
    | nil => rfl
    | cons x xs => simp at hl
  | succ n ih =>
    intro l hl
    match l, hl with
    | [], _ => rfl
    | [x], _ =>
      by_cases hx : x = idx
      · subst hx
        simp [eraseScan, hp]
      · simp [eraseScan, hx]
    | x :: y :: ys, hl =>
      simp only [List.length_cons] at hl
      by_cases hx : x = idx
      · subst hx
        have := ih ys (by omega)
        simp [eraseScan, hp, List.filter_cons, this]
      · have := ih (y :: ys) (by simp only [List.length_cons]; omega)
        simp only [eraseScan, if_neg hx]
        rw [List.filter_cons, this]
        simp [List.filter_cons]

theorem eraseScan_length (idx : Nat) (l : List Nat) :
    (eraseScan idx l).1.length ≤ l.length ∧
    ((eraseScan idx l).2 = true → (eraseScan idx l).1.length < l.length) := by
  suffices hn : ∀ n (l : List Nat), l.length ≤ n →
      (eraseScan idx l).1.length ≤ l.length ∧
      ((eraseScan idx l).2 = true → (eraseScan idx l).1.length < l.length) from
    hn l.length l (Nat.le_refl _)
  intro n
  induction n with
  | zero =>
    intro l hl
    cases l with
    | nil => simp [eraseScan]
    | cons x xs => simp at hl
  | succ n ih =>
    intro l hl
    match l, hl with
    | [], _ => simp [eraseScan]
    | [x], _ =>
      by_cases hx : x = idx <;> simp [eraseScan, hx]
    | x :: y :: ys, hl =>
      simp only [List.length_cons] at hl
      by_cases hx : x = idx
      · obtain ⟨h1, h2⟩ := ih ys (by omega)
        simp only [eraseScan, if_pos hx, List.length_cons]
        exact ⟨by omega, fun h => by have := h2 h; omega⟩
      · obtain ⟨h1, h2⟩ := ih (y :: ys) (by simp only [List.length_cons]; omega)
        simp only [List.length_cons] at h1 h2
        simp only [eraseScan, if_neg hx, List.length_cons]
        exact ⟨by omega, fun h => by have := h2 h; omega⟩

/-- More restarts than the list has entries change nothing: the fuel of `eraseHandle` is enough. -/
theorem eraseRuns_fuel (idx : Nat) (n : Nat) (l : List Nat) (h : l.length ≤ n) :
    eraseRuns idx (n + 1) l = eraseRuns idx n l := by
  induction n generalizing l with
  | zero =>
    have hl : l = [] := List.eq_nil_of_length_eq_zero (Nat.le_zero.mp h)
    subst hl
    rfl
  | succ n ih =>
    rw [eraseRuns, eraseRuns]
    cases hsc : eraseScan idx l with
    | mk r b =>
      cases b with
      | false => rfl
      | true =>
        dsimp only
        apply ih
        have := (eraseScan_length idx l).2
        rw [hsc] at this
        have h2 := this rfl
        dsimp only at h2
        omega

/-- The loop on the handle stack with any larger number of allowed restarts gives `eraseHandle`. -/
theorem eraseRuns_eq_eraseHandle (idx : Nat) (l : List Nat) (k : Nat) :
    eraseRuns idx (l.length + k) l = eraseHandle idx l := by
  induction k with
  | zero => rfl
  | succ k ih =>
    rw [← ih]
    exact eraseRuns_fuel idx (l.length + k) l (Nat.le_add_right _ _)

theorem eraseRuns_filter (idx : Nat) (p : Nat → Bool) (hp : p idx = false) (n : Nat)
    (l : List Nat) : (eraseRuns idx n l).filter p = l.filter p := by
  induction n generalizing l with
  | zero => rfl
  | succ n ih =>
    simp only [eraseRuns]
    split
    · rename_i r hr
      have h1 := eraseScan_filter idx p hp l
      rw [hr] at h1
      rw [ih r, h1]
    · rename_i r hr
      have h1 := eraseScan_filter idx p hp l
      rw [hr] at h1
      exact h1

/-- The erase loop only takes out entries equal to the handle it looks for: what a filter that
rejects that handle sees of the stack is unchanged. -/
theorem eraseHandle_filter (idx : Nat) (p : Nat → Bool) (hp : p idx = false) (l : List Nat) :
    (eraseHandle idx l).filter p = l.filter p :=
  eraseRuns_filter idx p hp l.length l

theorem removeFromSlot_handleStack (host : Host) (file baseName : Str) (m : StrModule)
    (strId : Nat) (s : State) :
    (removeFromSlot host file baseName m strId s).g_handleStack =
      Function.update s.g_handleStack (globalIdx strId m)
        (eraseHandle (removeHandle host file) (s.g_handleStack (globalIdx strId m))) := by
  unfold removeFromSlot
  dsimp only
  split <;> rfl

theorem removeFromSlot_ourIndexes (host : Host) (file baseName : Str) (m : StrModule)
    (strId : Nat) (s : State) :
    (removeFromSlot host file baseName m strId s).g_ourIndexes =
      Function.update s.g_ourIndexes (globalIdx strId m) false := by
  unfold removeFromSlot
  dsimp only
  split <;> rfl

theorem removeFromSlot_handlesToTag (host : Host) (file baseName : Str) (m : StrModule)
    (strId : Nat) (s : State) :
    (removeFromSlot host file baseName m strId s).g_handlesToTag = s.g_handlesToTag := by
  unfold removeFromSlot
  dsimp only
  split <;> rfl

theorem removeFromSlot_slot (host : Host) (file baseName : Str) (m : StrModule)
    (strId : Nat) (s : State) :
    (removeFromSlot host file baseName m strId s).host.slot = s.host.slot := by
  unfold removeFromSlot
  dsimp only
  split <;> rfl

theorem removeFromSlot_byTag (host : Host) (file baseName : Str) (m : StrModule)
    (strId : Nat) (s : State) :
    (removeFromSlot host file baseName m strId s).g_customStreamingFilesByTag =
      s.g_customStreamingFilesByTag := by
  unfold removeFromSlot
  dsimp only
  split <;> rfl

theorem removeFromSlot_handle (host : Host) (file baseName : Str) (m : StrModule)
    (strId : Nat) (s : State) :
    (removeFromSlot host file baseName m strId s).host.handle =
      Function.update s.host.handle (globalIdx strId m)
        ((eraseHandle (removeHandle host file) (s.g_handleStack (globalIdx strId m))).headD 0) := by
  unfold removeFromSlot
  dsimp only
  split <;> rename_i heq <;> simp [heq]

theorem removeFromSlot_pending (host : Host) (file baseName : Str) (m : StrModule)
    (strId : Nat) (s : State) :
    (removeFromSlot host file baseName m strId s).g_pendingRemovals =
      if eraseHandle (removeHandle host file) (s.g_handleStack (globalIdx strId m)) = [] then
        setInsert pendingLt (m, toInt32 strId) s.g_pendingRemovals
      else s.g_pendingRemovals := by
  unfold removeFromSlot
  dsimp only
  split <;> rename_i heq <;> simp [heq]

/-- The two outcomes of the loop body of `CfxCollection_RemoveStreamingTag`: the file is skipped,
or its slot was found and `removeFromSlot` ran on it. -/
theorem removeStreamingFile_cases (host : Host) (file : Str) (s s' : State)
    (h : removeStreamingFile host file s = some s') :
    (s' = s ∧ resolveSlot host s.host file = none) ∨
    ∃ baseName m strId, resolveSlot host s.host file = some (m, strId) ∧
      s' = removeFromSlot host file baseName m strId s := by
  unfold removeStreamingFile at h
  unfold resolveSlot
  split at h
  · exact absurd h (by simp)
  · split at h
    · injection h with h
      exact Or.inl ⟨h.symm, rfl⟩
    · split at h
      · injection h with h
        exact Or.inl ⟨h.symm, rfl⟩
      · split at h
        · rename_i hfound
          injection h with h
          refine Or.inr ⟨_, _, _, ?_, h.symm⟩
          rw [if_pos hfound]
        · rename_i hfound
          injection h with h
          refine Or.inl ⟨h.symm, ?_⟩
          rw [if_neg hfound]

theorem removeStreamingFile_isSome (host : Host) (file : Str) (s : State) (h : '/' ∈ file) :
    ∃ s', removeStreamingFile host file s = some s' := by
  obtain ⟨b, hb⟩ := afterLast_isSome '/' file h
  unfold removeStreamingFile
  rw [hb]
  dsimp only
  split
  · exact ⟨_, rfl⟩
  · split
    · exact ⟨_, rfl⟩
    · split <;> exact ⟨_, rfl⟩

theorem removeStreamingFiles_isSome (host : Host) (files : List Str) (s : State)
    (h : ∀ f ∈ files, '/' ∈ f) : ∃ s', removeStreamingFiles host files s = some s' := by
  induction files generalizing s with
  | nil => exact ⟨s, rfl⟩
  | cons f rest ih =>
    obtain ⟨s1, h1⟩ := removeStreamingFile_isSome host f s (h f (List.mem_cons_self f rest))
    obtain ⟨s2, h2⟩ := ih s1 (fun g hg => h g (List.mem_cons_of_mem f hg))
    exact ⟨s2, by simp only [removeStreamingFiles, h1, h2]⟩

/-- The loop of `CfxCollection_RemoveStreamingTag` leaves `g_handlesToTag` alone and takes out of
the handle stacks only entries equal to the handle of one of the files. -/
theorem removeStreamingFiles_filter (host : Host) (p : Nat → Bool) (files : List Str)
    (s s' : State) (h : removeStreamingFiles host files s = some s')
    (hp : ∀ f ∈ files, p (removeHandle host f) = false) :
    s'.g_handlesToTag = s.g_handlesToTag ∧
    ∀ i, (s'.g_handleStack i).filter p = (s.g_handleStack i).filter p := by
  induction files generalizing s with
  | nil =>
    simp only [removeStreamingFiles] at h
    injection h with h
    subst h
    exact ⟨rfl, fun _ => rfl⟩
  | cons f rest ih =>
    simp only [removeStreamingFiles] at h
    split at h
    · exact absurd h (by simp)
    · rename_i s1 h1
      obtain ⟨ht, hs⟩ := ih s1 h (fun g hg => hp g (List.mem_cons_of_mem f hg))
      have hpf := hp f (List.mem_cons_self f rest)
      rcases removeStreamingFile_cases host f s s1 h1 with ⟨heq, _⟩ | ⟨b, m, strId, _, heq⟩
      · subst heq
        exact ⟨ht, hs⟩
      · subst heq
        refine ⟨by rw [ht, removeFromSlot_handlesToTag], ?_⟩
        intro i
        rw [hs i, removeFromSlot_handleStack]
        by_cases hi : i = globalIdx strId m
        · subst hi
          rw [Function.update_same]
          exact eraseHandle_filter _ p hpf _
        · rw [Function.update_noteq hi]

theorem RemoveStreamingTag_eq (host : Host) (tag : Str) (s s1 : State)
    (h1 : removeStreamingFiles host (mapGet s.g_customStreamingFilesByTag tag [])
      (s.emit Event.updateAllocatorValue) = some s1) :
    CfxCollection_RemoveStreamingTag host tag s =
      some { s1 with
        g_customStreamingFiles :=
          (mapGet s.g_customStreamingFilesByTag tag []).foldl
            (fun set file => setErase (file, tag) set) s1.g_customStreamingFiles
        g_customStreamingFilesByTag := mapErase s1.g_customStreamingFilesByTag tag
        g_manifestNames := mapErase s1.g_manifestNames tag } := by
  unfold CfxCollection_RemoveStreamingTag
  dsimp only
  rw [h1]

theorem mem_setInsert_self {α : Type} [DecidableEq α] (lt : α → α → Bool) (x : α) (l : List α) :
    x ∈ setInsert lt x l := by
  induction l with
  | nil => simp [setInsert]
  | cons y ys ih =>
    simp only [setInsert]
    by_cases h1 : x = y
    · simp [h1]
    · by_cases h2 : lt x y = true
      · simp [h1, h2]
      · simp [h1, h2, ih]

theorem mem_setInsert_of_mem {α : Type} [DecidableEq α] (lt : α → α → Bool) (x y : α)
    (l : List α) (h : y ∈ l) : y ∈ setInsert lt x l := by
  induction l with
  | nil => simp at h
  | cons z zs ih =>
    simp only [setInsert]
    by_cases h1 : x = z
    · simpa [h1] using h
    · by_cases h2 : lt x z = true
      · simp only [h1, h2, if_true, if_false]
        exact List.mem_cons_of_mem _ h
      · simp only [h1, h2, if_false]
        rcases List.mem_cons.mp h with h3 | h3
        · subst h3
          exact List.mem_cons_self _ _
        · exact List.mem_cons_of_mem _ (ih h3)

theorem resolveSlot_congr (host : Host) (hs hs' : HostState) (file : Str)
    (h : hs'.slot = hs.slot) : resolveSlot host hs' file = resolveSlot host hs file := by
  unfold resolveSlot FindSlot
  rw [h]

theorem removeStreamingFile_of_resolve (host : Host) (file : Str) (s : State)
    (p : StrModule × Nat) (h : resolveSlot host s.host file = some p) :
    ∃ baseName, removeStreamingFile host file s =
      some (removeFromSlot host file baseName p.1 p.2 s) := by
  unfold resolveSlot at h
  unfold removeStreamingFile
  cases h1 : afterLast '/' file with
  | none =>
    rw [h1] at h
    exact absurd h (by simp)
  | some afterSlash =>
    rw [h1] at h
    dsimp only at h ⊢
    cases h2 : afterLast '.' (GetBaseName host afterSlash) with
    | none =>
      rw [h2] at h
      exact absurd h (by simp)
    | some ext =>
      rw [h2] at h
      dsimp only at h ⊢
      cases h3 : host.getStreamingModule ext with
      | none =>
        rw [h3] at h
        exact absurd h (by simp)
      | some m =>
        rw [h3] at h
        dsimp only at h ⊢
        by_cases hfound : FindSlot s.host m
            (substr0 (GetBaseName host afterSlash)
              (find_last_of '.' (GetBaseName host afterSlash))) ≠ NO_SLOT
        · rw [if_pos hfound] at h
          injection h with h
          subst h
          rw [if_pos hfound]
          exact ⟨_, rfl⟩
        · rw [if_neg hfound] at h
          exact absurd h (by simp)

theorem eraseHandle_single (h : Nat) : eraseHandle h [h] = [] := by
  simp [eraseHandle, eraseRuns, eraseScan]

/-- The loop of `CfxCollection_RemoveStreamingTag` over files that resolve to pairwise distinct
slots, each with a handle stack that holds the handle of the file and nothing else. -/
theorem removeStreamingFiles_fresh (host : Host) (files : List Str) (s : State)
    (hres : ∀ f ∈ files,
      (resolveSlot host s.host f).map (fun p => s.g_handleStack (globalIdx p.2 p.1)) =
        some [removeHandle host f])
    (hd : (files.map (slotIndex host s.host)).Nodup) :
    ∃ s', removeStreamingFiles host files s = some s' ∧ s'.host.slot = s.host.slot ∧
      (∀ x ∈ s.g_pendingRemovals, x ∈ s'.g_pendingRemovals) ∧
      (∀ i, some i ∉ files.map (slotIndex host s.host) →
        s'.g_ourIndexes i = s.g_ourIndexes i ∧ s'.host.handle i = s.host.handle i ∧
        s'.g_handleStack i = s.g_handleStack i) ∧
      (∀ f ∈ files, ∀ p, resolveSlot host s.host f = some p →
        s'.g_ourIndexes (globalIdx p.2 p.1) = false ∧
        (p.1, toInt32 p.2) ∈ s'.g_pendingRemovals ∧
        s'.host.handle (globalIdx p.2 p.1) = 0) := by
  induction files generalizing s with
  | nil =>
    exact ⟨s, rfl, rfl, fun _ h => h, fun _ _ => ⟨rfl, rfl, rfl⟩, fun f hf => by simp at hf⟩
  | cons f rest ih =>
    have hresf := hres f (List.mem_cons_self f rest)
    obtain ⟨p, hp, hstack⟩ := Option.map_eq_some'.mp hresf
    obtain ⟨b, hrm⟩ := removeStreamingFile_of_resolve host f s p hp
    have hslot1 : (removeFromSlot host f b p.1 p.2 s).host.slot = s.host.slot :=
      removeFromSlot_slot _ _ _ _ _ _
    have hres1 : ∀ g, resolveSlot host (removeFromSlot host f b p.1 p.2 s).host g =
        resolveSlot host s.host g := fun g => resolveSlot_congr host _ _ g hslot1
    have hidx1 : ∀ g, slotIndex host (removeFromSlot host f b p.1 p.2 s).host g =
        slotIndex host s.host g := fun g => by simp only [slotIndex, hres1]
    have hfidx : slotIndex host s.host f = some (globalIdx p.2 p.1) := by
      simp only [slotIndex, hp, Option.map_some']
    simp only [List.map_cons, List.nodup_cons] at hd
    obtain ⟨hnotin, hdrest⟩ := hd
    rw [hfidx] at hnotin
    have herase : eraseHandle (removeHandle host f) (s.g_handleStack (globalIdx p.2 p.1)) = [] := by
      rw [hstack]
      exact eraseHandle_single _
    obtain ⟨s', hs', hslot', hpend', hframe', hdone'⟩ :=
      ih (removeFromSlot host f b p.1 p.2 s)
        (by
          intro g hg
          have hg0 := hres g (List.mem_cons_of_mem f hg)
          obtain ⟨q, hq, hqs⟩ := Option.map_eq_some'.mp hg0
          rw [hres1 g, hq]
          simp only [Option.map_some', Option.some.injEq]
          rw [removeFromSlot_handleStack, Function.update_noteq, hqs]
          intro heq
          apply hnotin
          rw [← heq]
          exact List.mem_map.mpr ⟨g, hg, by simp only [slotIndex, hq, Option.map_some']⟩)
        (by
          have : rest.map (slotIndex host (removeFromSlot host f b p.1 p.2 s).host) =
              rest.map (slotIndex host s.host) := List.map_congr_left (fun g _ => hidx1 g)
          rw [this]
          exact hdrest)
    have hrest_idx : rest.map (slotIndex host (removeFromSlot host f b p.1 p.2 s).host) =
        rest.map (slotIndex host s.host) := List.map_congr_left (fun g _ => hidx1 g)
    refine ⟨s', by simp only [removeStreamingFiles, hrm, hs'], by rw [hslot', hslot1], ?_, ?_, ?_⟩
    · intro x hx
      apply hpend'
      rw [removeFromSlot_pending, if_pos herase]
      exact mem_setInsert_of_mem _ _ _ _ hx
    · intro i hi
      simp only [List.map_cons, List.mem_cons, not_or] at hi
      obtain ⟨hif, hir⟩ := hi
      rw [hfidx] at hif
      have hne : i ≠ globalIdx p.2 p.1 := fun h => hif (by rw [h])
      obtain ⟨h1, h2, h3⟩ := hframe' i (by rw [hrest_idx]; exact hir)
      refine ⟨?_, ?_, ?_⟩
      · rw [h1, removeFromSlot_ourIndexes, Function.update_noteq hne]
      · rw [h2, removeFromSlot_handle, Function.update_noteq hne]
      · rw [h3, removeFromSlot_handleStack, Function.update_noteq hne]
    · intro g hg q hq
      rcases List.mem_cons.mp hg with hgf | hgr
      · subst hgf
        rw [hp] at hq
        injection hq with hq
        subst hq
        obtain ⟨h1, h2, _⟩ := hframe' (globalIdx p.2 p.1) (by rw [hrest_idx]; exact hnotin)
        refine ⟨?_, ?_, ?_⟩
        · rw [h1, removeFromSlot_ourIndexes, Function.update_same]
        · apply hpend'
          rw [removeFromSlot_pending, if_pos herase]
          exact mem_setInsert_self _ _ _
        · rw [h2, removeFromSlot_handle, Function.update_same, herase]
          rfl
      · exact hdone' g hgr q (by rw [hres1 g]; exact hq)

theorem resolveSlot_some (host : Host) (hs : HostState) (file : Str) (m : StrModule)
    (strId : Nat) (h : resolveSlot host hs file = some (m, strId)) :
    ∃ afterSlash ext, afterLast '/' file = some afterSlash ∧
      afterLast '.' (GetBaseName host afterSlash) = some ext ∧
      host.getStreamingModule ext = some m ∧
      FindSlot hs m (substr0 (GetBaseName host afterSlash)
        (find_last_of '.' (GetBaseName host afterSlash))) = strId ∧
      strId ≠ NO_SLOT := by
  unfold resolveSlot at h
  cases h1 : afterLast '/' file with
  | none =>
    rw [h1] at h
    exact absurd h (by simp)
  | some afterSlash =>
    rw [h1] at h
    dsimp only at h
    cases h2 : afterLast '.' (GetBaseName host afterSlash) with
    | none =>
      rw [h2] at h
      exact absurd h (by simp)
    | some ext =>
      rw [h2] at h
      dsimp only at h
      cases h3 : host.getStreamingModule ext with
      | none =>
        rw [h3] at h
        exact absurd h (by simp)
      | some m0 =>
        rw [h3] at h
        dsimp only at h
        by_cases hfound : FindSlot hs m0
            (substr0 (GetBaseName host afterSlash)
              (find_last_of '.' (GetBaseName host afterSlash))) ≠ NO_SLOT
        · rw [if_pos hfound] at h
          injection h with h
          injection h with hm hid
          subst hm
          subst hid
          exact ⟨afterSlash, ext, rfl, h2, h3, rfl, hfound⟩
        · rw [if_neg hfound] at h
          exact absurd h (by simp)

theorem FindSlotFromHashKey_existing (host : Host) (hs : HostState) (m : StrModule) (name : Str)
    (h : hs.slot m.addr name ≠ NO_SLOT) :
    FindSlotFromHashKey host hs m name = (hs.slot m.addr name, hs) := by
  unfold FindSlotFromHashKey
  rw [if_pos h]

/-- The host registration of a file whose slot exists already: the result is the global index of
the slot, and only the live handle of the slot changes. -/
theorem RegisterRawStreamingFile_existing (host : Host) (hs : HostState)
    (file baseName ext : Str) (m : StrModule) (strId : Nat)
    (hext : afterLast '.' baseName = some ext) (hm : host.getStreamingModule ext = some m)
    (hslot : FindSlot hs m (substr0 baseName (find_last_of '.' baseName)) = strId)
    (hid : strId ≠ NO_SLOT) :
    RegisterRawStreamingFile host hs file baseName =
      (globalIdx strId m,
        { hs with handle := Function.update hs.handle (globalIdx strId m) (host.registerHandle file) }) := by
  unfold RegisterRawStreamingFile
  rw [hext]
  dsimp only
  rw [hm]
  dsimp only
  unfold FindSlot at hslot
  have hne : hs.slot m.addr (substr0 baseName (find_last_of '.' baseName)) ≠ NO_SLOT := by
    rw [hslot]
    exact hid
  rw [FindSlotFromHashKey_existing host hs m _ hne]
  dsimp only
  rw [hslot, if_neg hid]

/-- What applying a registration to an existing slot does to the slot, when the handle of the file
is `H` on both branches and the handle stack is non-empty or the slot has no live handle: `H`
becomes the live handle and goes on the front of the stack. -/
theorem applyToSlot_obs (host : Host) (file tag baseName ext : Str) (m : StrModule)
    (strId H : Nat) (s : State)
    (hext : afterLast '.' baseName = some ext) (hm : host.getStreamingModule ext = some m)
    (hslot : FindSlot s.host m (substr0 baseName (find_last_of '.' baseName)) = strId)
    (hid : strId ≠ NO_SLOT) (hg : globalIdx strId m ≠ NO_SLOT)
    (hreg : host.registerHandle file = H) (hov : overrideHandle host file = H)
    (hstack : s.g_handleStack (globalIdx strId m) ≠ [] ∨ s.host.handle (globalIdx strId m) = 0) :
    (applyToSlot host file tag baseName m strId s).host.slot = s.host.slot ∧
    (applyToSlot host file tag baseName m strId s).g_customStreamingFilesByTag =
      s.g_customStreamingFilesByTag ∧
    (applyToSlot host file tag baseName m strId s).newGfx = s.newGfx ∧
    (applyToSlot host file tag baseName m strId s).host.handle (globalIdx strId m) = H ∧
    (applyToSlot host file tag baseName m strId s).g_handleStack (globalIdx strId m) =
      H :: s.g_handleStack (globalIdx strId m) := by
  unfold applyToSlot
  dsimp only
  by_cases h0 : s.host.handle (globalIdx strId m) = 0
  · rw [if_neg (by simpa using h0)]
    unfold registerNew
    dsimp only
    rw [RegisterRawStreamingFile_existing host s.host file baseName ext m strId hext hm hslot hid]
    dsimp only
    rw [if_pos hg]
    refine ⟨?_, ?_, ?_, ?_, ?_⟩ <;> (split <;> simp [State.emit, hreg])
  · rw [if_pos (by simpa using h0)]
    unfold pushOverride
    rw [if_pos hid]
    have hne : s.g_handleStack (globalIdx strId m) ≠ [] := by
      rcases hstack with h1 | h1
      · exact h1
      · exact absurd h1 h0
    have hemp : (s.g_handleStack (globalIdx strId m)).isEmpty = false := by
      cases hl : s.g_handleStack (globalIdx strId m) with
      | nil => exact absurd hl hne
      | cons _ _ => rfl
    simp [hov, hemp]

/-- One iteration of the `AfterSession` pass for a registration whose slot exists: the
registration leaves the pending set and is applied to the slot. -/
theorem loadStreamingFile_obs (host : Host) (f t : Str) (m : StrModule) (strId H : Nat)
    (s : State) (hres : resolveSlot host s.host f = some (m, strId))
    (hrpf : extensionOf host f ≠ some "rpf".toList) (hg : globalIdx strId m ≠ NO_SLOT)
    (hreg : host.registerHandle f = H) (hov : overrideHandle host f = H)
    (hstack : s.g_handleStack (globalIdx strId m) ≠ [] ∨ s.host.handle (globalIdx strId m) = 0) :
    (loadStreamingFile host LoadType.AfterSession (f, t) s).1 = false ∧
    (loadStreamingFile host LoadType.AfterSession (f, t) s).2.host.slot = s.host.slot ∧
    (loadStreamingFile host LoadType.AfterSession (f, t) s).2.g_customStreamingFilesByTag =
      s.g_customStreamingFilesByTag ∧
    (loadStreamingFile host LoadType.AfterSession (f, t) s).2.newGfx = s.newGfx ∧
    (loadStreamingFile host LoadType.AfterSession (f, t) s).2.host.handle (globalIdx strId m) = H ∧
    (loadStreamingFile host LoadType.AfterSession (f, t) s).2.g_handleStack (globalIdx strId m) =
      H :: s.g_handleStack (globalIdx strId m) := by
  obtain ⟨afterSlash, ext, h1, h2, h3, h4, h5⟩ := resolveSlot_some host s.host f m strId hres
  have hext : ext ≠ "rpf".toList := by
    intro he
    apply hrpf
    simp only [extensionOf, h1, Option.some_bind, h2, he]
  have hobs := applyToSlot_obs host f t (GetBaseName host afterSlash) ext m strId H s h2 h3 h4 h5 hg
    hreg hov hstack
  have hfound : ¬ FindSlot s.host m (substr0 (GetBaseName host afterSlash)
      (find_last_of '.' (GetBaseName host afterSlash))) = NO_SLOT := by
    rw [h4]
    exact h5
  have hload : loadStreamingFile host LoadType.AfterSession (f, t) s =
      (false, applyRegistration host f t (GetBaseName host afterSlash) ext s) := by
    unfold loadStreamingFile
    simp only [h1, h2, if_neg hext]
    simp
  have happ : applyToModule host f t (GetBaseName host afterSlash) ext m s =
      applyToSlot host f t (GetBaseName host afterSlash) m strId s := by
    unfold applyToModule
    dsimp only
    rw [if_neg hfound, h4]
  rw [hload]
  unfold applyRegistration
  rw [h3]
  dsimp only
  rw [happ]
  obtain ⟨o1, o2, o3, o4, o5⟩ := hobs
  split <;> exact ⟨rfl, o1, o2, o3, o4, o5⟩

/-- The `AfterSession` pass over a pending set that holds one registration whose slot exists. -/
theorem LoadStreamingFiles_single (host : Host) (f t : Str) (m : StrModule) (strId H : Nat)
    (s : State) (hset : s.g_customStreamingFiles = [(f, t)])
    (hres : resolveSlot host s.host f = some (m, strId))
    (hrpf : extensionOf host f ≠ some "rpf".toList) (hg : globalIdx strId m ≠ NO_SLOT)
    (hreg : host.registerHandle f = H) (hov : overrideHandle host f = H)
    (hstack : s.g_handleStack (globalIdx strId m) ≠ [] ∨ s.host.handle (globalIdx strId m) = 0) :
    (LoadStreamingFiles host LoadType.AfterSession s).g_customStreamingFiles = [] ∧
    (LoadStreamingFiles host LoadType.AfterSession s).host.slot = s.host.slot ∧
    (LoadStreamingFiles host LoadType.AfterSession s).g_customStreamingFilesByTag =
      s.g_customStreamingFilesByTag ∧
    (LoadStreamingFiles host LoadType.AfterSession s).host.handle (globalIdx strId m) = H ∧
    (LoadStreamingFiles host LoadType.AfterSession s).g_handleStack (globalIdx strId m) =
      H :: s.g_handleStack (globalIdx strId m) := by
  obtain ⟨o0, o1, o2, o3, o4, o5⟩ :=
    loadStreamingFile_obs host f t m strId H { s with newGfx := [] } hres hrpf hg hreg hov hstack
  have hloop : loadStreamingLoop host LoadType.AfterSession s.g_customStreamingFiles
      { s with newGfx := [] } =
      ([], (loadStreamingFile host LoadType.AfterSession (f, t) { s with newGfx := [] }).2) := by
    have h1 : loadStreamingLoop host LoadType.AfterSession s.g_customStreamingFiles
        { s with newGfx := [] } =
        loadStreamingLoop host LoadType.AfterSession [(f, t)] { s with newGfx := [] } := by
      rw [hset]
    rw [h1]
    simp only [loadStreamingLoop, o0]
    rfl
  unfold LoadStreamingFiles
  rw [hloop]
  dsimp only
  rw [o3]
  exact ⟨rfl, o1, o2, o4, o5⟩

theorem AddStreamingFileByTag_obs (tag file : Str) (s : State) (h : '/' ∈ file) :
    ∃ a, CfxCollection_AddStreamingFileByTag tag file s = some a ∧
      a.g_customStreamingFiles = setInsert pairLt (file, tag) s.g_customStreamingFiles ∧
      a.g_customStreamingFilesByTag =
        mapSet tag (mapGet s.g_customStreamingFilesByTag tag [] ++ [file])
          s.g_customStreamingFilesByTag ∧
      a.host = s.host ∧ a.g_handleStack = s.g_handleStack ∧
      a.g_pendingRemovals = s.g_pendingRemovals := by
  obtain ⟨b, hb⟩ := afterLast_isSome '/' file h
  unfold CfxCollection_AddStreamingFileByTag
  rw [hb]
  dsimp only
  refine ⟨_, rfl, ?_, ?_, ?_, ?_, ?_⟩ <;> (split <;> rfl)

theorem mapGet_cons {β : Type} (kv : Str × β) (m : List (Str × β)) (k : Str) (d : β) :
    mapGet (kv :: m) k d = if kv.1 = k then kv.2 else mapGet m k d := by
  unfold mapGet
  by_cases h : kv.1 = k <;> simp [List.find?_cons, h]

theorem mapGet_mapSet_ne {β : Type} (k k' : Str) (v d : β) (m : List (Str × β)) (h : k' ≠ k) :
    mapGet (mapSet k v m) k' d = mapGet m k' d := by
  induction m with
  | nil =>
    simp only [mapSet, mapGet_cons]
    rw [if_neg (fun e => h e.symm)]
  | cons kv rest ih =>
    simp only [mapSet]
    by_cases h1 : kv.1 = k
    · rw [if_pos h1]
      simp only [mapGet_cons]
      rw [if_neg (fun e => h e.symm), if_neg (fun e => h (e.symm.trans h1))]
    · rw [if_neg h1]
      by_cases h2 : strLt k kv.1 = true
      · rw [if_pos h2]
        simp only [mapGet_cons]
        rw [if_neg (fun e => h e.symm)]
      · rw [if_neg h2]
        simp only [mapGet_cons, ih]

theorem mapGet_mapErase_ne {β : Type} (k k' : Str) (d : β) (m : List (Str × β)) (h : k' ≠ k) :
    mapGet (mapErase m k) k' d = mapGet m k' d := by
  induction m with
  | nil => rfl
  | cons kv rest ih =>
    unfold mapErase at ih ⊢
    by_cases h1 : kv.1 = k
    · have hd : decide (kv.1 ≠ k) = false := by simp [h1]
      rw [List.filter_cons, hd]
      simp only [Bool.false_eq_true, if_false]
      rw [ih, mapGet_cons, if_neg (fun e => h (e.symm.trans h1))]
    · have hd : decide (kv.1 ≠ k) = true := by simp [h1]
      rw [List.filter_cons, hd]
      simp only [if_true]
      rw [mapGet_cons, mapGet_cons, ih]

/-- A registration whose slot exists, added to an empty pending set and applied at once. -/
theorem add_apply_obs (host : Host) (f t : Str) (m : StrModule) (strId H : Nat) (s : State)
    (hset : s.g_customStreamingFiles = [])
    (hres : resolveSlot host s.host f = some (m, strId))
    (hrpf : extensionOf host f ≠ some "rpf".toList) (hg : globalIdx strId m ≠ NO_SLOT)
    (hreg : host.registerHandle f = H) (hov : overrideHandle host f = H)
    (hstack : s.g_handleStack (globalIdx strId m) ≠ [] ∨ s.host.handle (globalIdx strId m) = 0) :
    ∃ a, CfxCollection_AddStreamingFileByTag t f s = some a ∧
      (LoadStreamingFiles host LoadType.AfterSession a).g_customStreamingFiles = [] ∧
      (LoadStreamingFiles host LoadType.AfterSession a).host.slot = s.host.slot ∧
      (LoadStreamingFiles host LoadType.AfterSession a).g_customStreamingFilesByTag =
        mapSet t (mapGet s.g_customStreamingFilesByTag t [] ++ [f])
          s.g_customStreamingFilesByTag ∧
      (LoadStreamingFiles host LoadType.AfterSession a).host.handle (globalIdx strId m) = H ∧
      (LoadStreamingFiles host LoadType.AfterSession a).g_handleStack (globalIdx strId m) =
        H :: s.g_handleStack (globalIdx strId m) := by
  obtain ⟨afterSlash, _, h1, _⟩ := resolveSlot_some host s.host f m strId hres
  have hslash : '/' ∈ f := by
    by_contra hc
    rw [afterLast_none '/' f hc] at h1
    exact absurd h1 (by simp)
  obtain ⟨a, ha, a1, a2, a3, a4, _⟩ := AddStreamingFileByTag_obs t f s hslash
  have hseta : a.g_customStreamingFiles = [(f, t)] := by
    rw [a1, hset]
    rfl
  obtain ⟨o1, o2, o3, o4, o5⟩ := LoadStreamingFiles_single host f t m strId H a hseta
    (by rw [a3]; exact hres) hrpf hg hreg hov (by rw [a3, a4]; exact hstack)
  exact ⟨a, ha, o1, by rw [o2, a3], by rw [o3, a2], o4, by rw [o5, a4]⟩

/-- The removal of a tag that lists one file whose slot exists. -/
theorem remove_single_obs (host : Host) (f t : Str) (m : StrModule) (strId : Nat) (s : State)
    (hfiles : mapGet s.g_customStreamingFilesByTag t [] = [f])
    (hres : resolveSlot host s.host f = some (m, strId)) :
    ∃ s', CfxCollection_RemoveStreamingTag host t s = some s' ∧
      s'.host.slot = s.host.slot ∧
      s'.g_customStreamingFilesByTag = mapErase s.g_customStreamingFilesByTag t ∧
      s'.g_handleStack (globalIdx strId m) =
        eraseHandle (removeHandle host f) (s.g_handleStack (globalIdx strId m)) ∧
      s'.host.handle (globalIdx strId m) =
        (eraseHandle (removeHandle host f) (s.g_handleStack (globalIdx strId m))).headD 0 ∧
      (eraseHandle (removeHandle host f) (s.g_handleStack (globalIdx strId m)) = [] →
        (m, toInt32 strId) ∈ s'.g_pendingRemovals) := by
  obtain ⟨b, hb⟩ := removeStreamingFile_of_resolve host f (s.emit Event.updateAllocatorValue)
    (m, strId) hres
  have h1 : removeStreamingFiles host (mapGet s.g_customStreamingFilesByTag t [])
      (s.emit Event.updateAllocatorValue) =
      some (removeFromSlot host f b m strId (s.emit Event.updateAllocatorValue)) := by
    rw [hfiles]
    simp only [removeStreamingFiles, hb]
  refine ⟨_, RemoveStreamingTag_eq host t s _ h1, ?_, ?_, ?_, ?_, ?_⟩
  · exact removeFromSlot_slot _ _ _ _ _ _
  · show mapErase (removeFromSlot host f b m strId
      (s.emit Event.updateAllocatorValue)).g_customStreamingFilesByTag t = _
    rw [removeFromSlot_byTag]
    rfl
  · show (removeFromSlot host f b m strId (s.emit Event.updateAllocatorValue)).g_handleStack _ = _
    rw [removeFromSlot_handleStack, Function.update_same]
    rfl
  · show (removeFromSlot host f b m strId (s.emit Event.updateAllocatorValue)).host.handle _ = _
    rw [removeFromSlot_handle, Function.update_same]
    rfl
  · intro he
    show _ ∈ (removeFromSlot host f b m strId (s.emit Event.updateAllocatorValue)).g_pendingRemovals
    rw [removeFromSlot_pending]
    have he2 : eraseHandle (removeHandle host f)
        ((s.emit Event.updateAllocatorValue).g_handleStack (globalIdx strId m)) = [] := he
    rw [if_pos he2]
    exact mem_setInsert_self _ _ _

theorem demoHost_noFault : NoFault demoHost :=
  fun _ _ _ => ⟨rfl, rfl⟩

theorem MountFile_isSome (host : Host) (hok : NoFault host) (m : Mounter) (e : DataFileEntry)
    (s : State) : ∃ r, MountFile host m e s = some r := by
  have h := (hok m e s.host).1
  obtain ⟨a, ha⟩ := Option.isSome_iff_exists.mp h
  unfold MountFile
  cases m
  case pseudo =>
    by_cases hn : e.name = "RELOAD_MAP_STORE".toList
    · exact ⟨_, if_pos hn⟩
    · exact ⟨_, if_neg hn⟩
  all_goals exact ⟨_, by rw [ha]; rfl⟩

theorem UnmountFile_isSome (host : Host) (hok : NoFault host) (m : Mounter) (e : DataFileEntry)
    (s : State) : ∃ r, UnmountFile host m e s = some r := by
  have h := (hok m e s.host).2
  obtain ⟨a, ha⟩ := Option.isSome_iff_exists.mp h
  unfold UnmountFile
  cases m
  case pseudo =>
    by_cases hn : e.name = "RELOAD_MAP_STORE".toList
    · exact ⟨_, if_pos hn⟩
    · exact ⟨_, if_neg hn⟩
  case cache => exact ⟨_, rfl⟩
  all_goals exact ⟨_, by rw [ha]; rfl⟩

theorem HandleDataFile_mount_isSome (host : Host) (hok : NoFault host) (op : Str)
    (df : Str × Str) (s : State) : ∃ s', HandleDataFile host (mountFn host) op df s = some s' := by
  unfold HandleDataFile
  split
  · exact ⟨_, rfl⟩
  · rename_i mounter _
    obtain ⟨r, hr⟩ := MountFile_isSome host hok mounter
      ⟨df.2, LookupDataFileType host df.1⟩
      ((s.emit (Event.handleDataFile op df.1 df.2)).emit
        (Event.mountFile mounter ⟨df.2, LookupDataFileType host df.1⟩))
    exact ⟨r.2, by simp only [mountFn, hr]⟩

theorem HandleDataFile_unmount_isSome (host : Host) (hok : NoFault host) (op : Str)
    (df : Str × Str) (s : State) :
    ∃ s', HandleDataFile host (unmountFn host) op df s = some s' := by
  unfold HandleDataFile
  split
  · exact ⟨_, rfl⟩
  · rename_i mounter _
    obtain ⟨r, hr⟩ := UnmountFile_isSome host hok mounter
      ⟨df.2, LookupDataFileType host df.1⟩
      ((s.emit (Event.handleDataFile op df.1 df.2)).emit
        (Event.unmountFile mounter ⟨df.2, LookupDataFileType host df.1⟩))
    exact ⟨r.2, by simp only [unmountFn, hr]⟩

theorem HandleDataFileList_mount_isSome (host : Host) (hok : NoFault host) (op : Str)
    (l : List (Str × Str)) (s : State) :
    ∃ s', HandleDataFileList host (mountFn host) op l s = some s' := by
  induction l generalizing s with
  | nil => exact ⟨s, rfl⟩
  | cons df rest ih =>
    obtain ⟨s1, h1⟩ := HandleDataFile_mount_isSome host hok op df s
    obtain ⟨s2, h2⟩ := ih s1
    exact ⟨s2, by simp only [HandleDataFileList, h1, h2]⟩

theorem HandleDataFileList_unmount_isSome (host : Host) (hok : NoFault host) (op : Str)
    (l : List (Str × Str)) (s : State) :
    ∃ s', HandleDataFileList host (unmountFn host) op l s = some s' := by
  induction l generalizing s with
  | nil => exact ⟨s, rfl⟩
  | cons df rest ih =>
    obtain ⟨s1, h1⟩ := HandleDataFile_unmount_isSome host hok op df s
    obtain ⟨s2, h2⟩ := ih s1
    exact ⟨s2, by simp only [HandleDataFileList, h1, h2]⟩

theorem HandleDataFileListWithTypes_isSome (host : Host) (hok : NoFault host)
    (types : List Int) (op : Str) (l : List (Str × Str)) (s : State) :
    ∃ r, HandleDataFileListWithTypes host (unmountFn host) types op l s = some r := by
  induction l generalizing s with
  | nil => exact ⟨_, rfl⟩
  | cons df rest ih =>
    simp only [HandleDataFileListWithTypes]
    split
    · obtain ⟨s1, h1⟩ := HandleDataFile_unmount_isSome host hok op df s
      obtain ⟨r, hr⟩ := ih s1
      exact ⟨r, by simp only [h1, hr]⟩
    · obtain ⟨r, hr⟩ := ih s
      exact ⟨(df :: r.1, r.2), by simp only [hr]⟩

theorem mountGtxdFiles_isSome (host : Host) (hok : NoFault host) (l : List Str) (s : State)
    (hg : l = [] ∨ (LookupDataFileMounter host "GTXD_PARENTING_DATA".toList).isSome = true) :
    ∃ s', mountGtxdFiles host l s = some s' := by
  induction l generalizing s with
  | nil => exact ⟨s, rfl⟩
  | cons file rest ih =>
    have hm : (LookupDataFileMounter host "GTXD_PARENTING_DATA".toList).isSome = true := by
      rcases hg with h | h
      · exact absurd h (by simp)
      · exact h
    obtain ⟨mounter, hmo⟩ := Option.isSome_iff_exists.mp hm
    obtain ⟨r, hr⟩ := MountFile_isSome host hok mounter
      ⟨file, LookupDataFileType host "GTXD_PARENTING_DATA".toList⟩
      (s.emit (Event.mountFile mounter ⟨file, LookupDataFileType host "GTXD_PARENTING_DATA".toList⟩))
    obtain ⟨s2, h2⟩ := ih r.2 (Or.inr hm)
    exact ⟨s2, by simp only [mountGtxdFiles, hmo, mountFn, hr, h2]⟩

theorem ReloadMapStore_isSome (host : Host) (hok : NoFault host) (s : State)
    (hg : GtxdMountable host s) : ∃ s', ReloadMapStore host s = some s' := by
  unfold ReloadMapStore
  split
  · exact ⟨_, rfl⟩
  · obtain ⟨e1, _, h1⟩ := reloadCollisions_frame host s
    have hgt : (reloadCollisions host s).g_gtxdFiles = s.g_gtxdFiles := by rw [h1]
    obtain ⟨s5, h5⟩ := mountGtxdFiles_isSome host hok (reloadCollisions host s).g_gtxdFiles
      (reloadCollisions host s) (by rw [hgt]; exact hg)
    rw [h5]
    exact ⟨_, rfl⟩

/-- Without mounter faults and with mountable gtxd files `LoadDataFiles` completes. -/
theorem LoadDataFiles_isSome (host : Host) (hok : NoFault host) (s : State)
    (hg : GtxdMountable host s) : ∃ s', LoadDataFiles host s = some s' := by
  unfold LoadDataFiles
  dsimp only
  obtain ⟨s2, h2⟩ := HandleDataFileList_mount_isSome host hok "loading".toList
    (stable_sort (fun left right => decide (dfSort host left < dfSort host right)) s.g_dataFiles)
    { s with g_dataFiles :=
        stable_sort (fun left right => decide (dfSort host left < dfSort host right)) s.g_dataFiles }
  rw [h2]
  dsimp only
  obtain ⟨_, _, hs2⟩ := HandleDataFileList_mount host _ _ _ s2 h2
  have hgt : s2.g_gtxdFiles = s.g_gtxdFiles := by rw [hs2]
  by_cases hr : s2.g_reloadMapStore = true
  · obtain ⟨s4, h4⟩ := ReloadMapStore_isSome host hok
      { s2 with g_loadedDataFiles := s2.g_loadedDataFiles ++ s2.g_dataFiles, g_dataFiles := [] }
      (by
        rcases hg with h | h
        · exact Or.inl (by show s2.g_gtxdFiles = []; rw [hgt]; exact h)
        · exact Or.inr h)
    rw [if_pos hr, h4]
    dsimp only
    by_cases hp : s4.g_pedsToRegister ≠ []
    · exact ⟨_, if_pos hp⟩
    · exact ⟨_, if_neg hp⟩
  · rw [if_neg hr]
    dsimp only
    by_cases hp : s2.g_pedsToRegister ≠ []
    · exact ⟨_, if_pos hp⟩
    · exact ⟨_, if_neg hp⟩

/-- Without mounter faults `UnloadDataFilesOfTypes` completes. -/
theorem UnloadDataFilesOfTypes_isSome (host : Host) (hok : NoFault host) (types : List Int)
    (s : State) : ∃ s', UnloadDataFilesOfTypes host types s = some s' := by
  unfold UnloadDataFilesOfTypes
  obtain ⟨r, hr⟩ := HandleDataFileListWithTypes_isSome host hok types "pre-unloading".toList
    s.g_loadedDataFiles s
  rw [hr]
  exact ⟨_, rfl⟩

theorem HandleDataFileList_unmount_frame (host : Host) (op : Str) (l : List (Str × Str))
    (s s' : State) (h : HandleDataFileList host (unmountFn host) op l s = some s') :
    s' = { s with loadedCollisions := s'.loadedCollisions, host := s'.host, trace := s'.trace } := by
  induction l generalizing s with
  | nil =>
    simp only [HandleDataFileList] at h
    injection h with h
    subst h
    rfl
  | cons df rest ih =>
    simp only [HandleDataFileList] at h
    split at h
    · exact absurd h (by simp)
    · rename_i s1 h1
      obtain ⟨_, _, hs1⟩ := HandleDataFile_unmount host op df s s1 h1
      have h2 := ih s1 h
      rw [h2, hs1]

theorem UnloadDataFiles_isSome (host : Host) (hok : NoFault host) (s : State) :
    ∃ s', UnloadDataFiles host s = some s' ∧
      s'.g_customStreamingFilesByTag = s.g_customStreamingFilesByTag := by
  unfold UnloadDataFiles
  by_cases hl : s.g_loadedDataFiles ≠ []
  · rw [if_pos hl]
    obtain ⟨s1, h1⟩ := HandleDataFileList_unmount_isSome host hok "unloading".toList
      s.g_loadedDataFiles s
    rw [h1]
    have hf := HandleDataFileList_unmount_frame host _ _ s s1 h1
    exact ⟨_, rfl, by show s1.g_customStreamingFilesByTag = _; rw [hf]⟩
  · rw [if_neg hl]
    exact ⟨_, rfl, rfl⟩

theorem mem_mapGet {β : Type} (m : List (Str × List β)) (k : Str) (x : β)
    (h : x ∈ mapGet m k []) : ∃ kv ∈ m, x ∈ kv.2 := by
  induction m with
  | nil => simp [mapGet] at h
  | cons kv rest ih =>
    rw [mapGet_cons] at h
    by_cases hk : kv.1 = k
    · rw [if_pos hk] at h
      exact ⟨kv, List.mem_cons_self _ _, h⟩
    · rw [if_neg hk] at h
      obtain ⟨kv2, hm, hx⟩ := ih h
      exact ⟨kv2, List.mem_cons_of_mem _ hm, hx⟩

theorem removeStreamingFiles_byTag (host : Host) (files : List Str) (s s' : State)
    (h : removeStreamingFiles host files s = some s') :
    s'.g_customStreamingFilesByTag = s.g_customStreamingFilesByTag := by
  induction files generalizing s with
  | nil =>
    simp only [removeStreamingFiles] at h
    injection h with h
    subst h
    rfl
  | cons f rest ih =>
    simp only [removeStreamingFiles] at h
    split at h
    · exact absurd h (by simp)
    · rename_i s1 h1
      rw [ih s1 h]
      rcases removeStreamingFile_cases host f s s1 h1 with ⟨heq, _⟩ | ⟨b, m, strId, _, heq⟩
      · rw [heq]
      · rw [heq, removeFromSlot_byTag]

/-- When every listed file has a `/`, removing a tag completes and keeps that property. -/
theorem RemoveStreamingTag_isSome (host : Host) (tag : Str) (s : State)
    (hs : ListedFilesHaveSlash s) :
    ∃ s', CfxCollection_RemoveStreamingTag host tag s = some s' ∧ ListedFilesHaveSlash s' := by
  have hfiles : ∀ f ∈ mapGet s.g_customStreamingFilesByTag tag [], '/' ∈ f := by
    intro f hf
    obtain ⟨kv, hkv, hfk⟩ := mem_mapGet _ _ _ hf
    exact hs kv hkv f hfk
  obtain ⟨s1, h1⟩ := removeStreamingFiles_isSome host _ (s.emit Event.updateAllocatorValue) hfiles
  refine ⟨_, RemoveStreamingTag_eq host tag s s1 h1, ?_⟩
  intro kv hkv f hf
  have hkv2 : kv ∈ mapErase s1.g_customStreamingFilesByTag tag := hkv
  unfold mapErase at hkv2
  have hkv3 := (List.mem_filter.mp hkv2).1
  rw [removeStreamingFiles_byTag host _ _ s1 h1] at hkv3
  exact hs kv hkv3 f hf

theorem removeAllTags_isSome (host : Host) (tags : List Str) (s : State)
    (hs : ListedFilesHaveSlash s) : ∃ s', removeAllTags host tags s = some s' := by
  induction tags generalizing s with
  | nil => exact ⟨s, rfl⟩
  | cons t rest ih =>
    obtain ⟨s1, h1, hs1⟩ := RemoveStreamingTag_isSome host t s hs
    obtain ⟨s2, h2⟩ := ih s1 hs1
    exact ⟨s2, by simp only [removeAllTags, h1, h2]⟩

/-- Without mounter faults, and with a `/` in every listed file, the shutdown handler completes. -/
theorem OnShutdownSession_isSome (host : Host) (hok : NoFault host) (s : State)
    (hs : ListedFilesHaveSlash s) : ∃ s', OnShutdownSession host s = some s' := by
  obtain ⟨s2, h2, hb2⟩ := UnloadDataFiles_isSome host hok
    { SafelyDrainStreamer s with g_lockReload := true, g_unloadingCfx := true }
  have hs2 : ListedFilesHaveSlash s2 := by
    intro kv hkv f hf
    rw [hb2] at hkv
    exact hs kv hkv f hf
  obtain ⟨s3, h3⟩ := removeAllTags_isSome host
    (s2.g_customStreamingFilesByTag.foldl (fun set kv => setInsert strLt kv.1 set) []) s2 hs2
  have hu : shutdownUnregister host s = some s3 := by
    unfold shutdownUnregister
    dsimp only
    rw [h2]
    exact h3
  unfold OnShutdownSession
  rw [hu]
  exact ⟨_, rfl⟩

/-! ## The claims -/

/-- C5: two entries of the non-priority category are dispatched by `LoadDataFiles`, and appended
to `g_loadedDataFiles`, in the relative order in which they were enqueued: the call completes when
no mounter faults, and whenever it completes the non-priority entries of the dispatched (and
appended) sequence are the non-priority entries of the pending list, in the same order. -/
theorem C5_nonpriority_order_kept (host : Host) (s : State) :
    (NoFault host → GtxdMountable host s → ∃ s', LoadDataFiles host s = some s') ∧
    ∀ s', LoadDataFiles host s = some s' →
      ∃ d, dispatched s'.trace = dispatched s.trace ++ d ∧
        s'.g_loadedDataFiles = s.g_loadedDataFiles ++ d ∧
        d.filter (fun x => !isPriority host x) =
          s.g_dataFiles.filter (fun x => !isPriority host x) := by
  refine ⟨fun hok hg => LoadDataFiles_isSome host hok s hg, ?_⟩
  intro s' h
  obtain ⟨evs, hd, ht, hl, _⟩ := LoadDataFiles_spec host s s' h
  refine ⟨_, ?_, hl, ?_⟩
  · rw [ht, dispatched_append, hd]
  · rw [stable_sort_dfSort]
    simp [List.filter_append, List.filter_filter]

/-- C5, at the demo load list: the call completes and the three ordinary entries keep their order. -/
theorem C5_nonpriority_order_kept_witness :
    NoFault demoHost ∧ GtxdMountable demoHost demoLoadState ∧
    LoadDataFiles demoHost demoLoadState = some demoLoaded ∧
    demoLoadState.g_dataFiles.filter (fun x => !isPriority demoHost x) =
      [("ab".toList, "first.meta".toList), ("abc".toList, "second.meta".toList),
       ("ab".toList, "third.meta".toList)] ∧
    ∃ d, dispatched demoLoaded.trace = dispatched demoLoadState.trace ++ d ∧
      demoLoaded.g_loadedDataFiles = demoLoadState.g_loadedDataFiles ++ d ∧
      d.filter (fun x => !isPriority demoHost x) =
        demoLoadState.g_dataFiles.filter (fun x => !isPriority demoHost x) :=
  ⟨demoHost_noFault, Or.inl rfl, isSome_eq_some_getD _ _ (by decide!), by decide!,
    (C5_nonpriority_order_kept demoHost demoLoadState).2 demoLoaded
      (isSome_eq_some_getD _ _ (by decide!))⟩

/-- C6: `LoadDataFiles` dispatches the entries of the priority category (key 0 of `dfSort`, which
the types `VEHICLE_LAYOUTS_FILE` and `HANDLING_FILE` have) before all others, each category in
insertion order: the call completes when no mounter faults, and whenever it completes the dispatch
order is the stable partition of the pending list. -/
theorem C6_dispatch_is_stable_partition (host : Host) (s : State) :
    (NoFault host → GtxdMountable host s → ∃ s', LoadDataFiles host s = some s') ∧
    (∀ s', LoadDataFiles host s = some s' →
      dispatched s'.trace = dispatched s.trace ++
        (s.g_dataFiles.filter (isPriority host) ++
          s.g_dataFiles.filter (fun x => !isPriority host x))) ∧
    (∀ path, isPriority host ("VEHICLE_LAYOUTS_FILE".toList, path) = true) ∧
    (∀ path, isPriority host ("HANDLING_FILE".toList, path) = true) := by
  refine ⟨fun hok hg => LoadDataFiles_isSome host hok s hg, ?_, ?_, ?_⟩
  · intro s' h
    obtain ⟨evs, hd, ht, _, _⟩ := LoadDataFiles_spec host s s' h
    rw [ht, dispatched_append, hd, stable_sort_dfSort]
  · intro path
    simp [isPriority, dfSort]
  · intro path
    simp [isPriority, dfSort]

/-- C6, at the demo load list: the handling file and the layouts file are dispatched first. -/
theorem C6_dispatch_is_stable_partition_witness :
    NoFault demoHost ∧ GtxdMountable demoHost demoLoadState ∧
    LoadDataFiles demoHost demoLoadState = some demoLoaded ∧
    dispatched demoLoaded.trace =
      [("HANDLING_FILE".toList, "handling.meta".toList),
       ("VEHICLE_LAYOUTS_FILE".toList, "layouts.meta".toList),
       ("ab".toList, "first.meta".toList),
       ("abc".toList, "second.meta".toList),
       ("ab".toList, "third.meta".toList)] :=
  ⟨demoHost_noFault, Or.inl rfl, isSome_eq_some_getD _ _ (by decide!),
    (((C6_dispatch_is_stable_partition demoHost demoLoadState).2.1) demoLoaded
      (isSome_eq_some_getD _ _ (by decide!))).trans (by decide!)⟩

/-- C7: `UnloadDataFilesOfTypes(T)` completes when no mounter faults, and whenever it completes it
leaves `g_loadedDataFiles` equal to the original list without the entries whose type code is in
`T`, the others in their original order, and every entry `UnmountFile` is called for comes from an
entry of the list whose type code is in `T`. -/
theorem C7_unload_of_types (host : Host) (types : List Int) (s : State) :
    (NoFault host → ∃ s', UnloadDataFilesOfTypes host types s = some s') ∧
    ∀ s', UnloadDataFilesOfTypes host types s = some s' →
      s'.g_loadedDataFiles =
        s.g_loadedDataFiles.filter (fun df => decide (LookupDataFileType host df.1 ∉ types)) ∧
      ∃ evs, s'.trace = s.trace ++ evs ∧
        ∀ entry ∈ unmounted evs, ∃ df ∈ s.g_loadedDataFiles,
          LookupDataFileType host df.1 ∈ types ∧
            entry = ⟨df.2, LookupDataFileType host df.1⟩ := by
  refine ⟨fun hok => UnloadDataFilesOfTypes_isSome host hok types s, ?_⟩
  intro s' h
  unfold UnloadDataFilesOfTypes at h
  split at h
  · exact absurd h (by simp)
  · rename_i r hr
    injection h with h
    subst h
    obtain ⟨h1, evs, ht, hu, _⟩ := HandleDataFileListWithTypes_unmount host types _ _ s r hr
    exact ⟨h1, evs, ht, hu⟩

/-- C7, at `T = {7}` on a loaded list with entries of type codes 7, 9, 7: only the entry of type 9
is left and `UnmountFile` was called for the two entries of type 7 only. -/
theorem C7_unload_of_types_witness :
    NoFault demoHost ∧
    UnloadDataFilesOfTypes demoHost [7] demoUnloadState = some demoUnloaded ∧
    demoUnloadState.g_loadedDataFiles.map (fun df => LookupDataFileType demoHost df.1) =
      [7, 9, 7] ∧
    demoUnloaded.g_loadedDataFiles = [("abc".toList, "y.meta".toList)] ∧
    unmounted demoUnloaded.trace = [⟨"x.meta".toList, 7⟩, ⟨"z.meta".toList, 7⟩] ∧
    demoUnloaded.g_loadedDataFiles =
      demoUnloadState.g_loadedDataFiles.filter
        (fun df => decide (LookupDataFileType demoHost df.1 ∉ [7])) ∧
    ∃ evs, demoUnloaded.trace = demoUnloadState.trace ++ evs ∧
      ∀ entry ∈ unmounted evs, ∃ df ∈ demoUnloadState.g_loadedDataFiles,
        LookupDataFileType demoHost df.1 ∈ [7] ∧
          entry = ⟨df.2, LookupDataFileType demoHost df.1⟩ :=
  ⟨demoHost_noFault, isSome_eq_some_getD _ _ (by decide!), by decide!, by decide!, by decide!,
    (C7_unload_of_types demoHost [7] demoUnloadState).2 demoUnloaded
      (isSome_eq_some_getD _ _ (by decide!))⟩

/-- C10, refuted as stated: on the demo host the entry of type `abc` has a mounter whose
`MountFile` returns false and the type `zzzzzzz` has no mounter, yet after `LoadDataFiles` both
entries are in `g_loadedDataFiles`, and a later `UnloadDataFiles` calls `UnmountFile` for the first. -/
theorem C10_counterexample :
    LookupDataFileMounter demoHost "abc".toList = some (Mounter.host 9) ∧
    (MountFile demoHost (Mounter.host 9) ⟨"bad.meta".toList, 9⟩ demoFailState).map (fun r => r.1) =
      some false ∧
    LookupDataFileMounter demoHost "zzzzzzz".toList = none ∧
    (LoadDataFiles demoHost demoFailState).map (fun s => s.g_loadedDataFiles) =
      some [("abc".toList, "bad.meta".toList), ("zzzzzzz".toList, "unknown.meta".toList)] ∧
    ((LoadDataFiles demoHost demoFailState).bind (UnloadDataFiles demoHost)).map
        (fun s => unmounted s.trace) = some [⟨"bad.meta".toList, 9⟩] := by
  decide!

/-- C10, amended: `LoadDataFiles` completes when no mounter faults, and whenever it completes the
pending list is empty and `g_loadedDataFiles` has gained every pending entry, in dispatch order,
whatever its mounter returned and also when it has no mounter; every pending entry was dispatched
once. -/
theorem C10_all_pending_become_loaded (host : Host) (s : State) :
    (NoFault host → GtxdMountable host s → ∃ s', LoadDataFiles host s = some s') ∧
    ∀ s', LoadDataFiles host s = some s' →
      s'.g_dataFiles = [] ∧
      ∃ gained, s'.g_loadedDataFiles = s.g_loadedDataFiles ++ gained ∧
        dispatched s'.trace = dispatched s.trace ++ gained ∧
        gained.Perm s.g_dataFiles := by
  refine ⟨fun hok hg => LoadDataFiles_isSome host hok s hg, ?_⟩
  intro s' h
  obtain ⟨evs, hd, ht, hl, hdf⟩ := LoadDataFiles_spec host s s' h
  refine ⟨hdf, _, hl, ?_, ?_⟩
  · rw [ht, dispatched_append, hd]
  · rw [stable_sort_dfSort]
    exact List.filter_append_perm _ _

/-- C10 amended, at the failing pending list: the call completes and both entries are loaded. -/
theorem C10_all_pending_become_loaded_witness :
    NoFault demoHost ∧ GtxdMountable demoHost demoFailState ∧
    LoadDataFiles demoHost demoFailState = some demoFailLoaded ∧
    demoFailLoaded.g_dataFiles = [] ∧
    ∃ gained, demoFailLoaded.g_loadedDataFiles = demoFailState.g_loadedDataFiles ++ gained ∧
      dispatched demoFailLoaded.trace = dispatched demoFailState.trace ++ gained ∧
      gained.Perm demoFailState.g_dataFiles :=
  ⟨demoHost_noFault, Or.inl rfl, isSome_eq_some_getD _ _ (by decide!),
    (C10_all_pending_become_loaded demoHost demoFailState).2 demoFailLoaded
      (isSome_eq_some_getD _ _ (by decide!))⟩

/-- C8: with the reload flag set, a frame tick under a positive load-lock counter changes nothing
(the flag stays set, no registration is applied); a tick with the counter at 0 and no shutdown lock
runs the two passes of `LoadStreamingFiles` and clears the flag, and all ticks after it change
nothing. The flag is the one `CfxCollection_AddStreamingFileByTag` sets, which leaves the counter
alone. -/
theorem C8_reload_flag_consumed_once (host : Host) (s : State)
    (hflag : s.g_reloadStreamingFiles = true) :
    (0 < s.g_lockedStreamingFiles → ∀ n, (OnMainGameFrame host)^[n] s = s) ∧
    (s.g_lockedStreamingFiles = 0 → s.g_lockReload = false →
      OnMainGameFrame host s =
        { LoadStreamingFiles host LoadType.AfterSession
            (LoadStreamingFiles host LoadType.AfterSessionEarlyStage s) with
          g_reloadStreamingFiles := false } ∧
      ∀ n, (OnMainGameFrame host)^[n + 1] s = OnMainGameFrame host s) ∧
    (∀ tag file s0 s1, CfxCollection_AddStreamingFileByTag tag file s0 = some s1 →
      s1.g_reloadStreamingFiles = true ∧
      s1.g_lockedStreamingFiles = s0.g_lockedStreamingFiles ∧
      s1.g_lockReload = s0.g_lockReload) := by
  refine ⟨?_, ?_, ?_⟩
  · intro hpos n
    have hstep : OnMainGameFrame host s = s := by
      unfold OnMainGameFrame
      rw [if_neg]
      intro hc
      omega
    induction n with
    | zero => rfl
    | succ n ih => rw [Function.iterate_succ_apply, hstep, ih]
  · intro h0 hl
    have hstep : OnMainGameFrame host s =
        { LoadStreamingFiles host LoadType.AfterSession
            (LoadStreamingFiles host LoadType.AfterSessionEarlyStage s) with
          g_reloadStreamingFiles := false } := by
      unfold OnMainGameFrame
      rw [if_pos ⟨hflag, h0, hl⟩]
    refine ⟨hstep, ?_⟩
    have hidle : OnMainGameFrame host (OnMainGameFrame host s) = OnMainGameFrame host s := by
      rw [hstep]
      unfold OnMainGameFrame
      rw [if_neg]
      simp
    intro n
    induction n with
    | zero => rfl
    | succ n ih => rw [Function.iterate_succ_apply', ih, hidle]
  · intro tag file s0 s1 h
    unfold CfxCollection_AddStreamingFileByTag at h
    split at h
    · exact absurd h (by simp)
    · injection h with h
      subst h
      split <;> simp [State.emit]

/-- C8, after `AddStreamingFileByTag("pack1", "a/foo.ytd")`: locked twice the ticks do nothing,
unlocked the first tick applies the registration and clears the flag. -/
theorem C8_reload_flag_consumed_once_witness :
    (demoAdded 2).g_reloadStreamingFiles = true ∧
    (OnMainGameFrame demoHost (demoAdded 2)).g_customStreamingFiles =
      [("a/foo.ytd".toList, "pack1".toList)] ∧
    (OnMainGameFrame demoHost (demoAdded 0)).g_customStreamingFiles = [] ∧
    (OnMainGameFrame demoHost (demoAdded 0)).g_handleStack 104 = [demoEntry "a/foo.ytd".toList] ∧
    (OnMainGameFrame demoHost (demoAdded 0)).g_reloadStreamingFiles = false ∧
    (∀ n, (OnMainGameFrame demoHost)^[n] (demoAdded 2) = demoAdded 2) ∧
    (∀ n, (OnMainGameFrame demoHost)^[n + 1] (demoAdded 0) = OnMainGameFrame demoHost (demoAdded 0)) :=
  ⟨by decide!, by decide!, by decide!, by decide!, by decide!,
    (C8_reload_flag_consumed_once demoHost (demoAdded 2) (by decide!)).1 (by decide!),
    (((C8_reload_flag_consumed_once demoHost (demoAdded 0) (by decide!)).2.1)
      (by decide!) (by decide!)).2⟩

/-- C3, refuted as stated: `pack1` already has `a/foo.ytd` pending; adding `b/bar.ytd` under the
same tag and backing the tag out at once leaves the registration set empty, not as it was before
the add. -/
theorem C3_counterexample :
    (demoAdded 0).g_customStreamingFiles = [("a/foo.ytd".toList, "pack1".toList)] ∧
    CfxCollection_AddStreamingFileByTag "pack1".toList "b/bar.ytd".toList (demoAdded 0) =
      some demoAddedTwice ∧
    (CfxCollection_BackoutStreamingTag "pack1".toList demoAddedTwice).g_customStreamingFiles = [] ∧
    (CfxCollection_BackoutStreamingTag "pack1".toList demoAddedTwice).g_customStreamingFiles ≠
      (demoAdded 0).g_customStreamingFiles :=
  ⟨by decide!, isSome_eq_some_getD _ _ (by decide!), by decide!, by decide!⟩

/-- C3, amended: when the tag has no registration in the registration set before the add (neither
the new file nor a file already listed under the tag), `CfxCollection_AddStreamingFileByTag` of a
path with a `/` followed at once by `CfxCollection_BackoutStreamingTag` leaves the registration
set, the own-index set and the handle stacks as they were before the add. -/
theorem C3_add_then_backout (tag file : Str) (s : State) (hslash : '/' ∈ file)
    (hfresh : ∀ name ∈ file :: mapGet s.g_customStreamingFilesByTag tag [],
      (name, tag) ∉ s.g_customStreamingFiles) :
    ∃ s1, CfxCollection_AddStreamingFileByTag tag file s = some s1 ∧
      (CfxCollection_BackoutStreamingTag tag s1).g_customStreamingFiles =
        s.g_customStreamingFiles ∧
      (CfxCollection_BackoutStreamingTag tag s1).g_ourIndexes = s.g_ourIndexes ∧
      (CfxCollection_BackoutStreamingTag tag s1).g_handleStack = s.g_handleStack := by
  obtain ⟨b, hb⟩ := afterLast_isSome '/' file hslash
  have hset :
      ((mapGet s.g_customStreamingFilesByTag tag [] ++ [file]).foldl
        (fun set n => setErase (n, tag) set)
        (setInsert pairLt (file, tag) s.g_customStreamingFiles)) = s.g_customStreamingFiles := by
    rw [foldl_setErase, setInsert_filter]
    · rw [List.filter_eq_self]
      intro y hy
      simp only [List.all_eq_true, decide_eq_true_eq]
      intro n hn hyn
      subst hyn
      have hn2 : n ∈ file :: mapGet s.g_customStreamingFilesByTag tag [] := by
        rcases List.mem_append.mp hn with h1 | h2
        · exact List.mem_cons_of_mem _ h1
        · simp only [List.mem_singleton] at h2
          subst h2
          exact List.mem_cons_self _ _
      exact hfresh n hn2 hy
    · simp
  refine ⟨_, by simp only [CfxCollection_AddStreamingFileByTag, hb]; rfl, ?_, ?_, ?_⟩
  · unfold CfxCollection_BackoutStreamingTag
    simp only [backout_fold, State.emit]
    split <;> simp [mapGet_mapSet, hset]
  · unfold CfxCollection_BackoutStreamingTag
    simp only [backout_fold, State.emit]
    split <;> rfl
  · unfold CfxCollection_BackoutStreamingTag
    simp only [backout_fold, State.emit]
    split <;> rfl

/-- C3 amended, at a fresh process: `pack1` gets `a/foo.ytd` and is backed out. -/
theorem C3_add_then_backout_witness :
    '/' ∈ "a/foo.ytd".toList ∧
    ∃ s1, CfxCollection_AddStreamingFileByTag "pack1".toList "a/foo.ytd".toList
        (initState emptyHostState) = some s1 ∧
      (CfxCollection_BackoutStreamingTag "pack1".toList s1).g_customStreamingFiles =
        (initState emptyHostState).g_customStreamingFiles ∧
      (CfxCollection_BackoutStreamingTag "pack1".toList s1).g_ourIndexes =
        (initState emptyHostState).g_ourIndexes ∧
      (CfxCollection_BackoutStreamingTag "pack1".toList s1).g_handleStack =
        (initState emptyHostState).g_handleStack :=
  ⟨by decide, C3_add_then_backout "pack1".toList "a/foo.ytd".toList (initState emptyHostState)
    (by decide) (by decide!)⟩

/-- C4: the shutdown handler completes when no mounter faults and every listed file has a `/`, and
whenever it completes the host calls it issues after its first part (which issues no `RemoveSlot`)
are a phase A without any `RemoveSlot`, holding both `ReleaseObject` calls of every slot of
`g_pendingRemovals`, followed by a phase B that consists of `RemoveSlot` calls for pending slots
only: no `RemoveSlot` comes before a release. -/
theorem C4_release_before_remove (host : Host) (s : State) :
    (NoFault host → ListedFilesHaveSlash s → ∃ s', OnShutdownSession host s = some s') ∧
    ∀ s', OnShutdownSession host s = some s' →
      ∃ s3 phaseA phaseB, shutdownUnregister host s = some s3 ∧
        (∃ pre, s3.trace = s.trace ++ pre ∧ ∀ e ∈ pre, e.isRemoveSlot = false) ∧
        s'.trace = s3.trace ++ phaseA ++ phaseB ∧
        (∀ e ∈ phaseA, e.isRemoveSlot = false) ∧
        (∀ p ∈ s3.g_pendingRemovals,
          Event.releaseObjectFlags (globalIdxInt p.2 p.1) 0xF1 ∈ phaseA ∧
          Event.releaseObject (globalIdxInt p.2 p.1) ∈ phaseA) ∧
        (∀ e ∈ phaseB, ∃ p ∈ s3.g_pendingRemovals, e = Event.removeSlot p.1 p.2) := by
  refine ⟨fun hok hs => OnShutdownSession_isSome host hok s hs, ?_⟩
  intro s' h
  obtain ⟨s3, h3, ht⟩ := OnShutdownSession_trace host s s' h
  refine ⟨s3, _, _, h3, shutdownUnregister_trace host s s3 h3, ht, ?_, ?_, ?_⟩
  · intro e he
    obtain ⟨p, _, hp⟩ := List.mem_flatMap.mp he
    unfold releaseEvents at hp
    generalize isModule (host.getStreamingModule "ytyp".toList) p.1 = b at hp
    cases b <;> simp at hp <;> (try rcases hp with hp | hp | hp | hp) <;>
      first
        | rfl
        | (subst hp; rfl)
  · intro p hp
    constructor
    · refine List.mem_flatMap.mpr ⟨p, hp, ?_⟩
      simp [releaseEvents]
    · refine List.mem_flatMap.mpr ⟨p, hp, ?_⟩
      simp [releaseEvents]
  · intro e he
    obtain ⟨p, hp, hpe⟩ := List.mem_flatMap.mp he
    unfold removeEvents at hpe
    split at hpe
    · simp only [List.mem_singleton] at hpe
      exact ⟨p, hp, hpe⟩
    · simp at hpe

/-- C4, at the demo session: three slots become pending, all three are released, then the texture
slot and the map types slot are removed (the static bounds slot is not). -/
theorem C4_release_before_remove_witness :
    NoFault demoHost ∧ ListedFilesHaveSlash demoSession ∧
    OnShutdownSession demoHost demoSession = some demoShutdown ∧
    demoUnregistered.g_pendingRemovals = [(⟨1, 100⟩, 4), (⟨2, 200⟩, 53), (⟨4, 400⟩, 56)] ∧
    demoShutdown.trace.drop demoUnregistered.trace.length =
      [Event.releaseObjectFlags 104 0xF1, Event.releaseObject 104,
       Event.releaseObjectFlags 253 0xF1, Event.releaseObject 253,
       Event.clearTypesFlags ⟨4, 400⟩ 56, Event.releaseObjectFlags 456 0xF1,
       Event.releaseObject 456, Event.freeArchetypes 56,
       Event.removeSlot ⟨1, 100⟩ 4, Event.removeSlot ⟨4, 400⟩ 56] ∧
    ∃ s3 phaseA phaseB, shutdownUnregister demoHost demoSession = some s3 ∧
      (∃ pre, s3.trace = demoSession.trace ++ pre ∧ ∀ e ∈ pre, e.isRemoveSlot = false) ∧
      demoShutdown.trace = s3.trace ++ phaseA ++ phaseB ∧
      (∀ e ∈ phaseA, e.isRemoveSlot = false) ∧
      (∀ p ∈ s3.g_pendingRemovals,
        Event.releaseObjectFlags (globalIdxInt p.2 p.1) 0xF1 ∈ phaseA ∧
        Event.releaseObject (globalIdxInt p.2 p.1) ∈ phaseA) ∧
      (∀ e ∈ phaseB, ∃ p ∈ s3.g_pendingRemovals, e = Event.removeSlot p.1 p.2) :=
  ⟨demoHost_noFault, by decide!, isSome_eq_some_getD _ _ (by decide!), by decide!, by decide!,
    (C4_release_before_remove demoHost demoSession).2 demoShutdown
      (isSome_eq_some_getD _ _ (by decide!))⟩

/-- C2, refuted as stated: the file `a/foo.ytd` is registered under `t1` and again under `t2`,
with an override of `t3` in between. The stack of slot 103 is then `[56237, 19118, 56237, 777]`,
the front entry pushed by the registration of `t2`, and 56237 is the handle that the registrations
of `t2` push. Removing `t1` erases both entries 56237: the override of `t2` is gone from the stack
and the live handle is the one of `t3`, while `a/foo.ytd` is still listed under `t2`. -/
theorem C2_counterexample :
    "t1".toList ≠ "t2".toList ∧
    demoShared.g_handleStack 103 = [56237, 19118, 56237, 777] ∧
    tagHandles demoHost demoShared "t2".toList = [56237, 56237] ∧
    demoShared.g_customStreamingFilesByTag =
      [("t1".toList, ["a/foo.ytd".toList]), ("t2".toList, ["a/foo.ytd".toList]),
       ("t3".toList, ["b/foo.ytd".toList])] ∧
    CfxCollection_RemoveStreamingTag demoHost "t1".toList demoShared = some demoSharedRemoved ∧
    demoSharedRemoved.g_handleStack 103 = [19118, 777] ∧
    demoSharedRemoved.host.handle 103 = 19118 ∧
    mapGet demoSharedRemoved.g_customStreamingFilesByTag "t2".toList [] = ["a/foo.ytd".toList] ∧
    (demoShared.g_handleStack 103).filter (pushedBy demoHost demoShared "t2".toList) =
      [56237, 56237] ∧
    (demoSharedRemoved.g_handleStack 103).filter (pushedBy demoHost demoShared "t2".toList) =
      [] :=
  ⟨by decide, by decide!, by decide!, by decide!, isSome_eq_some_getD _ _ (by decide!),
    by decide!, by decide!, by decide!, by decide!, by decide!⟩

/-- C2, amended: for tags `T1 ≠ T2`, when the handle that the removal looks for is, for no file
listed under `T1`, a handle that a registration of `T2` pushes (and the files of `T1` have a `/`,
as every added file has), `CfxCollection_RemoveStreamingTag(T1)` completes, leaves the files
listed under `T2` and so the handles of `T2` as they were, and leaves in every handle stack the
entries that the registrations of `T2` pushed as they were, in the same order. -/
theorem C2_remove_keeps_other_tag (host : Host) (T1 T2 : Str) (s : State) (hne : T1 ≠ T2)
    (hslash : ∀ f ∈ mapGet s.g_customStreamingFilesByTag T1 [], '/' ∈ f)
    (hdisj : ∀ f ∈ mapGet s.g_customStreamingFilesByTag T1 [],
      removeHandle host f ∉ tagHandles host s T2) :
    ∃ s', CfxCollection_RemoveStreamingTag host T1 s = some s' ∧
      mapGet s'.g_customStreamingFilesByTag T2 [] = mapGet s.g_customStreamingFilesByTag T2 [] ∧
      tagHandles host s' T2 = tagHandles host s T2 ∧
      ∀ i, (s'.g_handleStack i).filter (pushedBy host s T2) =
        (s.g_handleStack i).filter (pushedBy host s T2) := by
  obtain ⟨s1, h1⟩ := removeStreamingFiles_isSome host _ (s.emit Event.updateAllocatorValue) hslash
  have hf := removeStreamingFiles_filter host (pushedBy host s T2) _ _ s1 h1
    (by
      intro f hf
      simp only [pushedBy, decide_eq_false_iff_not]
      exact hdisj f hf)
  have hby : mapGet (mapErase s1.g_customStreamingFilesByTag T1) T2 [] =
      mapGet s.g_customStreamingFilesByTag T2 [] := by
    rw [mapGet_mapErase_ne T1 T2 [] _ (Ne.symm hne), removeStreamingFiles_byTag host _ _ s1 h1]
    rfl
  refine ⟨_, RemoveStreamingTag_eq host T1 s s1 h1, hby, ?_, hf.2⟩
  unfold tagHandles
  exact congrArg (fun l => List.flatMap l (fun f => [overrideHandle host f, host.registerHandle f]))
    hby

/-- C2 amended, at the state of the counterexample and the tags `t3` and `t2`, which share no
file: removing `t3` keeps both entries 56237 that the registrations of `t2` push. -/
theorem C2_remove_keeps_other_tag_witness :
    "t3".toList ≠ "t2".toList ∧
    (demoShared.g_handleStack 103).filter (pushedBy demoHost demoShared "t2".toList) =
      [56237, 56237] ∧
    ((CfxCollection_RemoveStreamingTag demoHost "t3".toList demoShared).map
      (fun s => s.g_handleStack 103)) = some [56237, 56237, 777] ∧
    ∃ s', CfxCollection_RemoveStreamingTag demoHost "t3".toList demoShared = some s' ∧
      mapGet s'.g_customStreamingFilesByTag "t2".toList [] =
        mapGet demoShared.g_customStreamingFilesByTag "t2".toList [] ∧
      tagHandles demoHost s' "t2".toList = tagHandles demoHost demoShared "t2".toList ∧
      ∀ i, (s'.g_handleStack i).filter (pushedBy demoHost demoShared "t2".toList) =
        (demoShared.g_handleStack i).filter (pushedBy demoHost demoShared "t2".toList) :=
  ⟨by decide, by decide!, by decide!,
    C2_remove_keeps_other_tag demoHost "t3".toList "t2".toList demoShared (by decide)
      (by decide!) (by decide!)⟩

theorem LookupDataFileType_absent (host : Host) (type : Str)
    (habs : ∀ entry ∈ host.dataFileTypes, entry.1 ≠ host.hashRageString (to_upper_copy type)) :
    LookupDataFileType host type = -1 := by
  unfold LookupDataFileType
  have h : host.dataFileTypes.find?
      (fun entry => decide (entry.1 = host.hashRageString (to_upper_copy type))) = none := by
    rw [List.find?_eq_none]
    intro entry he
    simpa using habs entry he
  rw [h]

/-- C11: for a type string that is not one of the two pseudo types and whose upper-cased hash is not
in the type table, `LookupDataFileType` returns -1, `LookupDataFileMounter` returns the null pointer
without reading `g_dataFileMounters`, and `HandleDataFile` returns normally whatever the operation
`fn` is: the state is the one before with the first log line added, so `fn` was not called and no
`MountFile` or `UnmountFile` took place. -/
theorem C11_unknown_type_skipped (host : Host) (type : Str)
    (hp1 : type ≠ "CFX_PSEUDO_ENTRY".toList) (hp2 : type ≠ "CFX_PSEUDO_CACHE".toList)
    (habs : ∀ entry ∈ host.dataFileTypes, entry.1 ≠ host.hashRageString (to_upper_copy type)) :
    LookupDataFileType host type = -1 ∧
    LookupDataFileMounter host type = none ∧
    mounterTableRead host type = none ∧
    ∀ (fn : Mounter → DataFileEntry → State → Option (Bool × State)) (op file : Str) (s : State),
      HandleDataFile host fn op (type, file) s =
        some (s.emit (Event.handleDataFile op type file)) := by
  have ht := LookupDataFileType_absent host type habs
  have hm : LookupDataFileMounter host type = none := by
    unfold LookupDataFileMounter
    rw [if_neg hp1, if_neg hp2, ht]
    rfl
  refine ⟨ht, hm, ?_, ?_⟩
  · unfold mounterTableRead
    rw [if_neg hp1, if_neg hp2, ht]
    rfl
  · intro fn op file s
    unfold HandleDataFile
    dsimp only
    rw [hm]

/-- C11, on the demo host: the type `zzzzzzz` is not in the type table; even an operation that
always faults is not reached. -/
theorem C11_unknown_type_skipped_witness :
    LookupDataFileType demoHost "zzzzzzz".toList = -1 ∧
    LookupDataFileMounter demoHost "zzzzzzz".toList = none ∧
    mounterTableRead demoHost "zzzzzzz".toList = none ∧
    HandleDataFile demoHost (fun _ _ _ => none) "loading".toList
        ("zzzzzzz".toList, "unknown.meta".toList) (initState emptyHostState) =
      some ((initState emptyHostState).emit
        (Event.handleDataFile "loading".toList "zzzzzzz".toList "unknown.meta".toList)) :=
  have h := C11_unknown_type_skipped demoHost "zzzzzzz".toList (by decide) (by decide) (by decide)
  ⟨h.1, h.2.1, h.2.2.1, h.2.2.2 _ _ _ _⟩

/-- C12, refuted as stated: for the type `GTXD_PARENTING_DATA` the path goes to `g_gtxdFiles` and
the pending list `g_dataFiles` stays as it was, here empty. -/
theorem C12_counterexample :
    (AddDataFileToLoadList demoHost false false "GTXD_PARENTING_DATA".toList "x.meta".toList
      (initState emptyHostState)).map (fun s => (s.g_dataFiles, s.g_gtxdFiles)) =
      some ([], ["x.meta".toList]) ∧
    (AddDataFileToLoadList demoHost false false "GTXD_PARENTING_DATA".toList "x.meta".toList
      (initState emptyHostState)).map (fun s => s.g_dataFiles) ≠
      some ((initState emptyHostState).g_dataFiles ++
        [("GTXD_PARENTING_DATA".toList, "x.meta".toList)]) := by
  decide

/-- C12, amended: for a type other than `GTXD_PARENTING_DATA`, when the session is not active (the
game is not loaded, or it is being killed), `AddDataFileToLoadList(type, path)` returns with
`(type, path)` appended at the end of `g_dataFiles`, the loaded list unchanged, and nothing else
changed either. -/
theorem C12_enqueue_when_inactive (host : Host) (gameLoaded gameKilled : Bool) (type path : Str)
    (s : State) (htype : type ≠ "GTXD_PARENTING_DATA".toList)
    (hinactive : sessionActive gameLoaded gameKilled = false) :
    ∃ s', AddDataFileToLoadList host gameLoaded gameKilled type path s = some s' ∧
      s'.g_dataFiles = s.g_dataFiles ++ [(type, path)] ∧
      s'.g_loadedDataFiles = s.g_loadedDataFiles ∧
      s' = { s with g_dataFiles := s'.g_dataFiles } := by
  refine ⟨{ s with g_dataFiles := s.g_dataFiles ++ [(type, path)] }, ?_, rfl, rfl, rfl⟩
  unfold AddDataFileToLoadList
  rw [if_neg htype]
  dsimp only
  have hn : ¬ (gameLoaded = true ∧ gameKilled = false) := by
    intro h
    simp [sessionActive, h.1, h.2] at hinactive
  rw [if_neg hn]

/-- C12 amended, on the demo load list while the game is being killed: the new entry is last. -/
theorem C12_enqueue_when_inactive_witness :
    ∃ s', AddDataFileToLoadList demoHost true true "ab".toList "late.meta".toList demoLoadState =
        some s' ∧
      s'.g_dataFiles = demoLoadState.g_dataFiles ++ [("ab".toList, "late.meta".toList)] ∧
      s'.g_loadedDataFiles = demoLoadState.g_loadedDataFiles ∧
      s' = { demoLoadState with g_dataFiles := s'.g_dataFiles } :=
  C12_enqueue_when_inactive demoHost true true "ab".toList "late.meta".toList demoLoadState
    (by decide) (by decide)

/-! ## The pending set of `LoadStreamingFiles` -/

theorem pushOverride_pending (host : Host) (file tag : Str) (m : StrModule) (strId : Nat)
    (s : State) (x : List (Str × Str)) :
    pushOverride host file tag m strId { s with g_customStreamingFiles := x } =
      { pushOverride host file tag m strId s with g_customStreamingFiles := x } := by
  unfold pushOverride
  dsimp only
  split <;> rfl

theorem registerNew_pending (host : Host) (file tag baseName : Str) (s : State)
    (x : List (Str × Str)) :
    registerNew host file tag baseName { s with g_customStreamingFiles := x } =
      { registerNew host file tag baseName s with g_customStreamingFiles := x } := by
  unfold registerNew
  dsimp only [State.emit]
  split
  · split <;> rfl
  · rfl

theorem applyToSlot_pending (host : Host) (file tag baseName : Str) (m : StrModule) (strId : Nat)
    (s : State) (x : List (Str × Str)) :
    applyToSlot host file tag baseName m strId { s with g_customStreamingFiles := x } =
      { applyToSlot host file tag baseName m strId s with g_customStreamingFiles := x } := by
  unfold applyToSlot
  dsimp only
  split
  · exact pushOverride_pending host file tag m strId
      { s with
        g_ourIndexes := Function.update s.g_ourIndexes (globalIdx strId m) true
        g_pendingRemovals := setErase (m, toInt32 strId) s.g_pendingRemovals } x
  · exact registerNew_pending host file tag baseName
      { s with
        g_ourIndexes := Function.update s.g_ourIndexes (globalIdx strId m) true
        g_pendingRemovals := setErase (m, toInt32 strId) s.g_pendingRemovals } x

theorem applyToModule_pending (host : Host) (file tag baseName ext : Str) (m : StrModule)
    (s : State) (x : List (Str × Str)) :
    applyToModule host file tag baseName ext m { s with g_customStreamingFiles := x } =
      { applyToModule host file tag baseName ext m s with g_customStreamingFiles := x } := by
  unfold applyToModule
  dsimp only
  split
  · split
    · exact applyToSlot_pending host file tag baseName m _
        { s with
          host := (FindSlotFromHashKey host s.host m
            (substr0 baseName (find_last_of '.' baseName))).2
          newGfx := s.newGfx ++
            [((FindSlotFromHashKey host s.host m
                (substr0 baseName (find_last_of '.' baseName))).1,
              substr0 baseName (find_last_of '.' baseName))] } x
    · exact applyToSlot_pending host file tag baseName m _
        { s with
          host := (FindSlotFromHashKey host s.host m
            (substr0 baseName (find_last_of '.' baseName))).2 } x
  · exact applyToSlot_pending host file tag baseName m _ s x

theorem applyRegistration_pending (host : Host) (file tag baseName ext : Str) (s : State)
    (x : List (Str × Str)) :
    applyRegistration host file tag baseName ext { s with g_customStreamingFiles := x } =
      { applyRegistration host file tag baseName ext s with g_customStreamingFiles := x } := by
  unfold applyRegistration
  cases hm : host.getStreamingModule ext with
  | none =>
    dsimp only
    split <;> rfl
  | some m =>
    dsimp only
    rw [applyToModule_pending]
    split <;> rfl

theorem loadStreamingFile_pending (host : Host) (loadType : LoadType) (reg : Str × Str)
    (s : State) (x : List (Str × Str)) :
    loadStreamingFile host loadType reg { s with g_customStreamingFiles := x } =
      ((loadStreamingFile host loadType reg s).1,
        { (loadStreamingFile host loadType reg s).2 with g_customStreamingFiles := x }) := by
  unfold loadStreamingFile
  dsimp only
  split
  · rfl
  · cases h1 : afterLast '/' reg.1 with
    | none => rfl
    | some afterSlash =>
      dsimp only
      cases h2 : afterLast '.' (GetBaseName host afterSlash) with
      | none => rfl
      | some ext =>
        dsimp only
        split
        · rfl
        · split
          · rfl
          · rw [applyRegistration_pending]

theorem loadStreamingLoop_pending (host : Host) (loadType : LoadType) (l : List (Str × Str))
    (s : State) (x : List (Str × Str)) :
    loadStreamingLoop host loadType l { s with g_customStreamingFiles := x } =
      ((loadStreamingLoop host loadType l s).1,
        { (loadStreamingLoop host loadType l s).2 with g_customStreamingFiles := x }) := by
  induction l generalizing s with
  | nil => rfl
  | cons reg rest ih =>
    simp only [loadStreamingLoop]
    rw [loadStreamingFile_pending]
    dsimp only
    rw [ih]

/-- The function `LoadStreamingFiles` in one record: the loop result, the kept registrations as the
pending set and one `initGfxTexture` call for every new `gfx` slot. -/
theorem LoadStreamingFiles_eq (host : Host) (loadType : LoadType) (s : State) :
    LoadStreamingFiles host loadType s =
      { (loadStreamingLoop host loadType s.g_customStreamingFiles { s with newGfx := [] }).2 with
        g_customStreamingFiles :=
          (loadStreamingLoop host loadType s.g_customStreamingFiles { s with newGfx := [] }).1
        trace :=
          (loadStreamingLoop host loadType s.g_customStreamingFiles
            { s with newGfx := [] }).2.trace ++
          (loadStreamingLoop host loadType s.g_customStreamingFiles
            { s with newGfx := [] }).2.newGfx.map (fun g => Event.initGfxTexture g.1 g.2)
        newGfx := [] } := by
  unfold LoadStreamingFiles
  simp only [foldl_emit (fun (g : Nat × Str) => Event.initGfxTexture g.1 g.2)]

/-- Registrations whose iteration leaves the state alone can be taken out of the list the loop runs
over: the final state is the same and the other registrations fare the same. -/
theorem loadStreamingLoop_filter (host : Host) (loadType : LoadType) (P : Str × Str → Bool)
    (hP : ∀ reg st, P reg = true → (loadStreamingFile host loadType reg st).2 = st)
    (l : List (Str × Str)) (s : State) :
    (loadStreamingLoop host loadType l s).2 =
      (loadStreamingLoop host loadType (l.filter (fun reg => !P reg)) s).2 ∧
    (loadStreamingLoop host loadType l s).1.filter (fun reg => !P reg) =
      (loadStreamingLoop host loadType (l.filter (fun reg => !P reg)) s).1 := by
  induction l generalizing s with
  | nil => exact ⟨rfl, rfl⟩
  | cons reg rest ih =>
    cases hp : P reg with
    | true =>
      have h1 := hP reg s hp
      simp only [loadStreamingLoop, List.filter_cons, hp, Bool.not_true, h1]
      obtain ⟨i1, i2⟩ := ih s
      refine ⟨i1, ?_⟩
      split
      · simp [List.filter_cons, hp, i2]
      · exact i2
    | false =>
      simp only [loadStreamingLoop, List.filter_cons, hp, Bool.not_false, if_true]
      obtain ⟨i1, i2⟩ := ih (loadStreamingFile host loadType reg s).2
      refine ⟨i1, ?_⟩
      split
      · simp [List.filter_cons, hp, i2]
      · exact i2

/-- What the loop keeps of the registrations whose iteration does not depend on the state. -/
theorem loadStreamingLoop_kept (host : Host) (loadType : LoadType) (P : Str × Str → Bool)
    (b : Bool) (hP : ∀ reg st, P reg = true → (loadStreamingFile host loadType reg st).1 = b)
    (l : List (Str × Str)) (s : State) :
    (loadStreamingLoop host loadType l s).1.filter P = if b then l.filter P else [] := by
  induction l generalizing s with
  | nil => cases b <;> rfl
  | cons reg rest ih =>
    have i := ih (loadStreamingFile host loadType reg s).2
    cases hp : P reg with
    | true =>
      have h1 := hP reg s hp
      simp only [loadStreamingLoop, h1]
      cases b with
      | true => simp [List.filter_cons, hp, i]
      | false => simpa using i
    | false =>
      simp only [loadStreamingLoop]
      split
      · simp [List.filter_cons, hp, i]
      · simp [List.filter_cons, hp, i]

/-- Registrations whose iteration leaves the state alone do not show in the result of
`LoadStreamingFiles`: but for the pending set, the state is the one the function gives when they
are not pending at all. -/
theorem LoadStreamingFiles_filter (host : Host) (loadType : LoadType) (P : Str × Str → Bool)
    (hP : ∀ reg st, P reg = true → (loadStreamingFile host loadType reg st).2 = st) (s : State) :
    LoadStreamingFiles host loadType s =
      { LoadStreamingFiles host loadType
          { s with g_customStreamingFiles := s.g_customStreamingFiles.filter (fun reg => !P reg) } with
        g_customStreamingFiles := (LoadStreamingFiles host loadType s).g_customStreamingFiles } ∧
    (LoadStreamingFiles host loadType s).g_customStreamingFiles.filter (fun reg => !P reg) =
      (LoadStreamingFiles host loadType
        { s with g_customStreamingFiles :=
          s.g_customStreamingFiles.filter (fun reg => !P reg) }).g_customStreamingFiles := by
  obtain ⟨f1, f2⟩ := loadStreamingLoop_filter host loadType P hP s.g_customStreamingFiles
    { s with newGfx := [] }
  have h0 := loadStreamingLoop_pending host loadType
    (s.g_customStreamingFiles.filter (fun reg => !P reg)) { s with newGfx := [] }
    (s.g_customStreamingFiles.filter (fun reg => !P reg))
  have e1 := LoadStreamingFiles_eq host loadType s
  have e2 := LoadStreamingFiles_eq host loadType
    { s with g_customStreamingFiles := s.g_customStreamingFiles.filter (fun reg => !P reg) }
  dsimp only at e2 h0
  rw [h0] at e2
  dsimp only at e2
  rw [e1, e2]
  dsimp only
  rw [← f1]
  exact ⟨rfl, f2⟩

theorem loadStreamingFile_blocked (host : Host) (loadType : LoadType)
    (hearly : earlyPhase loadType = true) (reg : Str × Str) (st : State)
    (hb : blockedEarly reg = true) : loadStreamingFile host loadType reg st = (true, st) := by
  unfold loadStreamingFile
  dsimp only
  rw [if_pos]
  constructor
  · simpa [earlyPhase] using hearly
  · simpa [blockedEarly, isModTag] using hb

theorem loadStreamingFile_malformed (host : Host) (loadType : LoadType) (reg : Str × Str)
    (st : State) (he : eligible loadType reg = true) (hm : malformed host reg = true) :
    loadStreamingFile host loadType reg st = (false, st) := by
  unfold loadStreamingFile
  dsimp only
  rw [if_neg]
  · cases h1 : afterLast '/' reg.1 with
    | none => rfl
    | some afterSlash =>
      dsimp only
      cases h2 : afterLast '.' (GetBaseName host afterSlash) with
      | none => rfl
      | some ext =>
        dsimp only
        have hx : ext = "rpf".toList := by
          simpa [malformed, extensionOf, h1, h2] using hm
        rw [if_pos hx]
  · intro hc
    have : earlyPhase loadType = true ∧ blockedEarly reg = true := by
      constructor
      · simpa [earlyPhase] using hc.1
      · simpa [blockedEarly, isModTag] using hc.2
    simp [eligible, this.1, this.2] at he

/-- C13: in the two early phases `LoadStreamingFiles` passes over every registration whose tag is
not mod-style and every registration whose file contains `cache:/`: the iteration of the loop for
it keeps it and returns the state it got, it is still in `g_customStreamingFiles` afterwards, and
the state after the call (handle stacks, `g_ourIndexes`, the host resource table and all the rest
but the pending set) is the state the call gives when these registrations are not pending. -/
theorem C13_early_phases_skip (host : Host) (loadType : LoadType) (s : State)
    (hearly : earlyPhase loadType = true) :
    (∀ reg st, blockedEarly reg = true → loadStreamingFile host loadType reg st = (true, st)) ∧
    (∀ reg ∈ s.g_customStreamingFiles, blockedEarly reg = true →
      reg ∈ (LoadStreamingFiles host loadType s).g_customStreamingFiles) ∧
    LoadStreamingFiles host loadType s =
      { LoadStreamingFiles host loadType
          { s with g_customStreamingFiles :=
            s.g_customStreamingFiles.filter (fun reg => !blockedEarly reg) } with
        g_customStreamingFiles := (LoadStreamingFiles host loadType s).g_customStreamingFiles } := by
  have hb := loadStreamingFile_blocked host loadType hearly
  refine ⟨hb, ?_, ?_⟩
  · intro reg hmem hreg
    have hk := loadStreamingLoop_kept host loadType blockedEarly true
      (fun r st hr => by rw [hb r st hr]) s.g_customStreamingFiles { s with newGfx := [] }
    rw [LoadStreamingFiles_eq]
    dsimp only
    have hin : reg ∈ s.g_customStreamingFiles.filter blockedEarly :=
      List.mem_filter.mpr ⟨hmem, hreg⟩
    rw [if_pos rfl] at hk
    rw [← hk] at hin
    exact (List.mem_filter.mp hin).1
  · exact (LoadStreamingFiles_filter host loadType blockedEarly
      (fun r st hr => by rw [hb r st hr]) s).1

/-- C13, before the map load on the demo host: the registration of the tag `pack1` and the one on
`cache:/` stay pending, and all that happened is the registration of `c/baz.ytd`. -/
theorem C13_early_phases_skip_witness :
    earlyPhase LoadType.BeforeMapLoad = true ∧
    demoEarly.g_customStreamingFiles =
      [("a/foo.ytd".toList, "pack1".toList), ("c/baz.ytd".toList, "mod_x".toList),
       ("cache:/b/bar.ytd".toList, "mod_x".toList)] ∧
    (LoadStreamingFiles demoHost LoadType.BeforeMapLoad demoEarly).g_customStreamingFiles =
      [("a/foo.ytd".toList, "pack1".toList), ("cache:/b/bar.ytd".toList, "mod_x".toList)] ∧
    (LoadStreamingFiles demoHost LoadType.BeforeMapLoad demoEarly).trace =
      demoEarly.trace ++
        [Event.registerRawStreamingFile "c/baz.ytd".toList "baz.ytd".toList,
         Event.invalidateEntry 63108] ∧
    (∀ reg ∈ demoEarly.g_customStreamingFiles, blockedEarly reg = true →
      reg ∈ (LoadStreamingFiles demoHost LoadType.BeforeMapLoad demoEarly).g_customStreamingFiles) ∧
    LoadStreamingFiles demoHost LoadType.BeforeMapLoad demoEarly =
      { LoadStreamingFiles demoHost LoadType.BeforeMapLoad
          { demoEarly with g_customStreamingFiles :=
            demoEarly.g_customStreamingFiles.filter (fun reg => !blockedEarly reg) } with
        g_customStreamingFiles :=
          (LoadStreamingFiles demoHost LoadType.BeforeMapLoad demoEarly).g_customStreamingFiles } :=
  ⟨by decide, by decide!, by decide!, by decide!,
    (C13_early_phases_skip demoHost LoadType.BeforeMapLoad demoEarly (by decide)).2.1,
    (C13_early_phases_skip demoHost LoadType.BeforeMapLoad demoEarly (by decide)).2.2⟩

/-- C14: a pending registration that is eligible in the phase and whose base name has no extension,
or the extension `rpf`, is dropped by `LoadStreamingFiles`: the iteration of the loop for it erases
it and returns the state it got, it is not in `g_customStreamingFiles` afterwards, and the state
after the call (handle stacks, `g_ourIndexes`, `g_pendingRemovals`, the host resource table and all
the rest) is the state the call gives when these registrations are not pending. The function is
total: nothing surfaces to the caller. -/
theorem C14_malformed_dropped (host : Host) (loadType : LoadType) (s : State) :
    (∀ reg st, eligible loadType reg = true → malformed host reg = true →
      loadStreamingFile host loadType reg st = (false, st)) ∧
    (∀ reg, eligible loadType reg = true → malformed host reg = true →
      reg ∉ (LoadStreamingFiles host loadType s).g_customStreamingFiles) ∧
    LoadStreamingFiles host loadType s =
      LoadStreamingFiles host loadType
        { s with g_customStreamingFiles :=
          (s.g_customStreamingFiles.filter
            (fun reg => !(eligible loadType reg && malformed host reg))) } := by
  have hm : ∀ reg st, (eligible loadType reg && malformed host reg) = true →
      loadStreamingFile host loadType reg st = (false, st) := by
    intro reg st h
    rw [Bool.and_eq_true] at h
    exact loadStreamingFile_malformed host loadType reg st h.1 h.2
  have hk := loadStreamingLoop_kept host loadType
    (fun reg => eligible loadType reg && malformed host reg) false
    (fun r st hr => by rw [hm r st hr]) s.g_customStreamingFiles { s with newGfx := [] }
  have hpend : (LoadStreamingFiles host loadType s).g_customStreamingFiles =
      (loadStreamingLoop host loadType s.g_customStreamingFiles { s with newGfx := [] }).1 := by
    rw [LoadStreamingFiles_eq]
  rw [← hpend] at hk
  have hnone : ∀ reg ∈ (LoadStreamingFiles host loadType s).g_customStreamingFiles,
      (eligible loadType reg && malformed host reg) = false := by
    intro reg hmem
    cases hc : (eligible loadType reg && malformed host reg) with
    | false => rfl
    | true =>
      have : reg ∈ (LoadStreamingFiles host loadType s).g_customStreamingFiles.filter
          (fun reg => eligible loadType reg && malformed host reg) :=
        List.mem_filter.mpr ⟨hmem, hc⟩
      rw [hk] at this
      simp at this
  refine ⟨fun reg st he hma => loadStreamingFile_malformed host loadType reg st he hma, ?_, ?_⟩
  · intro reg he hma hmem
    have := hnone reg hmem
    simp [he, hma] at this
  · obtain ⟨f1, f2⟩ := LoadStreamingFiles_filter host loadType
      (fun reg => eligible loadType reg && malformed host reg)
      (fun r st hr => by rw [hm r st hr]) s
    have hself : (LoadStreamingFiles host loadType s).g_customStreamingFiles.filter
        (fun reg => !(eligible loadType reg && malformed host reg)) =
        (LoadStreamingFiles host loadType s).g_customStreamingFiles := by
      rw [List.filter_eq_self]
      intro reg hmem
      rw [hnone reg hmem]
      rfl
    rw [hself] at f2
    rw [f1, f2]

/-- C14, on the demo host after the session start: the file without extension and the container
are gone from the pending set, and all that happened is the registration of `a/foo.ytd`. -/
theorem C14_malformed_dropped_witness :
    demoMalformed.g_customStreamingFiles =
      [("a/foo.ytd".toList, "pack1".toList), ("a/pack.rpf".toList, "pack1".toList),
       ("a/readme".toList, "pack1".toList)] ∧
    (LoadStreamingFiles demoHost LoadType.AfterSession demoMalformed).g_customStreamingFiles = [] ∧
    (LoadStreamingFiles demoHost LoadType.AfterSession demoMalformed).trace =
      demoMalformed.trace ++
        [Event.registerRawStreamingFile "a/foo.ytd".toList "foo.ytd".toList,
         Event.invalidateEntry 56237] ∧
    ("a/readme".toList, "pack1".toList) ∉
      (LoadStreamingFiles demoHost LoadType.AfterSession demoMalformed).g_customStreamingFiles ∧
    ("a/pack.rpf".toList, "pack1".toList) ∉
      (LoadStreamingFiles demoHost LoadType.AfterSession demoMalformed).g_customStreamingFiles :=
  ⟨by decide!, by decide!, by decide!,
    (C14_malformed_dropped demoHost LoadType.AfterSession demoMalformed).2.1 _ (by decide)
      (by decide),
    (C14_malformed_dropped demoHost LoadType.AfterSession demoMalformed).2.1 _ (by decide)
      (by decide)⟩

/-! ## The tag tables at session shutdown -/

theorem mem_of_mem_setInsert {α : Type} [DecidableEq α] (lt : α → α → Bool) (x y : α)
    (l : List α) (h : y ∈ setInsert lt x l) : y = x ∨ y ∈ l := by
  induction l with
  | nil =>
    simp only [setInsert, List.mem_singleton] at h
    exact Or.inl h
  | cons z zs ih =>
    simp only [setInsert] at h
    by_cases h1 : x = z
    · rw [if_pos h1] at h
      exact Or.inr h
    · rw [if_neg h1] at h
      by_cases h2 : lt x z = true
      · rw [if_pos h2] at h
        rcases List.mem_cons.mp h with h3 | h3
        · exact Or.inl h3
        · exact Or.inr h3
      · rw [if_neg h2] at h
        rcases List.mem_cons.mp h with h3 | h3
        · exact Or.inr (by rw [h3]; exact List.mem_cons_self _ _)
        · rcases ih h3 with h4 | h4
          · exact Or.inl h4
          · exact Or.inr (List.mem_cons_of_mem _ h4)

/-- The set `tags` of the shutdown handler holds the keys of the per-tag table and nothing else. -/
theorem mem_tagSet {β : Type} (m : List (Str × β)) (init : List Str) (x : Str) :
    x ∈ m.foldl (fun set kv => setInsert strLt kv.1 set) init ↔
      x ∈ init ∨ x ∈ m.map (fun kv => kv.1) := by
  induction m generalizing init with
  | nil => simp
  | cons kv rest ih =>
    rw [List.foldl_cons, ih]
    constructor
    · rintro (h | h)
      · rcases mem_of_mem_setInsert strLt kv.1 x init h with h1 | h1
        · exact Or.inr (by rw [h1, List.map_cons]; exact List.mem_cons_self _ _)
        · exact Or.inl h1
      · exact Or.inr (by simp only [List.map_cons]; exact List.mem_cons_of_mem _ h)
    · rintro (h | h)
      · exact Or.inl (mem_setInsert_of_mem strLt kv.1 x init h)
      · simp only [List.map_cons] at h
        rcases List.mem_cons.mp h with h1 | h1
        · exact Or.inl (by rw [h1]; exact mem_setInsert_self strLt kv.1 init)
        · exact Or.inr h1

theorem removeFromSlot_manifest (host : Host) (file baseName : Str) (m : StrModule)
    (strId : Nat) (s : State) :
    (removeFromSlot host file baseName m strId s).g_manifestNames = s.g_manifestNames := by
  unfold removeFromSlot
  dsimp only
  split <;> rfl

theorem removeStreamingFiles_manifest (host : Host) (files : List Str) (s s' : State)
    (h : removeStreamingFiles host files s = some s') :
    s'.g_manifestNames = s.g_manifestNames := by
  induction files generalizing s with
  | nil =>
    simp only [removeStreamingFiles] at h
    injection h with h
    subst h
    rfl
  | cons f rest ih =>
    simp only [removeStreamingFiles] at h
    split at h
    · exact absurd h (by simp)
    · rename_i s1 h1
      rw [ih s1 h]
      rcases removeStreamingFile_cases host f s s1 h1 with ⟨heq, _⟩ | ⟨b, m, strId, _, heq⟩
      · rw [heq]
      · rw [heq, removeFromSlot_manifest]

theorem RemoveStreamingTag_tables (host : Host) (tag : Str) (s s' : State)
    (h : CfxCollection_RemoveStreamingTag host tag s = some s') :
    s'.g_customStreamingFilesByTag = mapErase s.g_customStreamingFilesByTag tag ∧
    s'.g_manifestNames = mapErase s.g_manifestNames tag := by
  unfold CfxCollection_RemoveStreamingTag at h
  dsimp only at h
  split at h
  · exact absurd h (by simp)
  · rename_i s1 h1
    injection h with h
    subst h
    dsimp only
    rw [removeStreamingFiles_byTag host _ _ s1 h1, removeStreamingFiles_manifest host _ _ s1 h1]
    exact ⟨rfl, rfl⟩

theorem removeAllTags_tables (host : Host) (tags : List Str) (s s' : State)
    (h : removeAllTags host tags s = some s') :
    s'.g_customStreamingFilesByTag =
      s.g_customStreamingFilesByTag.filter (fun kv => decide (kv.1 ∉ tags)) ∧
    s'.g_manifestNames = s.g_manifestNames.filter (fun kv => decide (kv.1 ∉ tags)) := by
  induction tags generalizing s with
  | nil =>
    simp only [removeAllTags] at h
    injection h with h
    subst h
    simp
  | cons t rest ih =>
    simp only [removeAllTags] at h
    split at h
    · exact absurd h (by simp)
    · rename_i s1 h1
      obtain ⟨t1, t2⟩ := RemoveStreamingTag_tables host t s s1 h1
      obtain ⟨i1, i2⟩ := ih s1 h
      rw [i1, i2, t1, t2]
      unfold mapErase
      simp only [List.filter_filter]
      constructor
      · apply List.filter_congr
        intro kv _
        by_cases hk : kv.1 = t <;> simp [hk]
      · apply List.filter_congr
        intro kv _
        by_cases hk : kv.1 = t <;> simp [hk]

theorem UnloadDataFiles_tables (host : Host) (s s' : State) (h : UnloadDataFiles host s = some s') :
    s'.g_customStreamingFilesByTag = s.g_customStreamingFilesByTag ∧
    s'.g_manifestNames = s.g_manifestNames := by
  unfold UnloadDataFiles at h
  split at h
  · split at h
    · exact absurd h (by simp)
    · rename_i s1 h1
      injection h with h
      subst h
      have hf := HandleDataFileList_unmount_frame host _ _ s s1 h1
      constructor
      · show s1.g_customStreamingFilesByTag = _
        rw [hf]
      · show s1.g_manifestNames = _
        rw [hf]
  · injection h with h
    subst h
    exact ⟨rfl, rfl⟩

/-- What the shutdown handler leaves of the tables. -/
theorem OnShutdownSession_tables (host : Host) (s s' : State)
    (h : OnShutdownSession host s = some s') :
    s'.g_pendingRemovals = [] ∧ s'.g_unloadingCfx = false ∧
    s'.g_customStreamingFilesByTag = [] ∧
    s'.g_manifestNames = s.g_manifestNames.filter
      (fun kv => decide (kv.1 ∉ s.g_customStreamingFilesByTag.map (fun e => e.1))) := by
  unfold OnShutdownSession at h
  split at h
  · exact absurd h (by simp)
  · rename_i s3 h3
    injection h with h
    subst h
    dsimp only
    rw [foldl_removePending, foldl_releasePending]
    dsimp only
    unfold shutdownUnregister at h3
    dsimp only at h3
    split at h3
    · exact absurd h3 (by simp)
    · rename_i s2 h2
      obtain ⟨u1, u2⟩ := UnloadDataFiles_tables host _ s2 h2
      obtain ⟨r1, r2⟩ := removeAllTags_tables host _ s2 s3 h3
      have u1b : s2.g_customStreamingFilesByTag = s.g_customStreamingFilesByTag := u1
      have u2b : s2.g_manifestNames = s.g_manifestNames := u2
      refine ⟨rfl, rfl, ?_, ?_⟩
      · rw [r1, List.filter_eq_nil_iff]
        intro kv hkv
        have : kv.1 ∈ s2.g_customStreamingFilesByTag.foldl
            (fun set kv => setInsert strLt kv.1 set) [] :=
          (mem_tagSet _ [] kv.1).mpr (Or.inr (List.mem_map.mpr ⟨kv, hkv, rfl⟩))
        simpa using this
      · rw [r2, u2b]
        apply List.filter_congr
        intro kv _
        have hiff := mem_tagSet s2.g_customStreamingFilesByTag [] kv.1
        rw [u1b] at hiff
        simp only [List.not_mem_nil, false_or] at hiff
        show decide _ = decide _
        rw [decide_eq_decide, u1b]
        exact not_congr hiff

/-! ## The claims on registration and teardown -/

/-- C15, evaluated: the test `baseName.find(".ymf") == baseName.length() - 4` is not the test for a
base name that ends with `.ymf`. For the base name `abc` both sides are `2^64 - 1` (no occurrence,
and `3 - 4` in `size_t`), so `stream/abc` is recorded in `g_manifestNames`; for `a.ymf.ymf` the
first occurrence is at 1 and not at 5, so the file is not recorded. A file `b.ymf` is recorded. -/
theorem C15_manifest_test_misfires :
    isManifestFile "stream/abc".toList = false ∧
    (CfxCollection_AddStreamingFileByTag "pack1".toList "stream/abc".toList
      (initState emptyHostState)).map (fun s => s.g_manifestNames) =
      some [("pack1".toList, "stream/abc".toList)] ∧
    isManifestFile "stream/a.ymf.ymf".toList = true ∧
    (CfxCollection_AddStreamingFileByTag "pack1".toList "stream/a.ymf.ymf".toList
      (initState emptyHostState)).map (fun s => s.g_manifestNames) = some [] ∧
    isManifestFile "stream/b.ymf".toList = true ∧
    (CfxCollection_AddStreamingFileByTag "pack1".toList "stream/b.ymf".toList
      (initState emptyHostState)).map (fun s => s.g_manifestNames) =
      some [("pack1".toList, "stream/b.ymf".toList)] := by
  decide

/-- C16, refuted as stated: when the texture `foo`, a real asset with handle 777, was overridden,
the handle stack of its slot is `[777]` after the shutdown handler, not empty; and a slot whose
registration was applied and then backed out is still in `g_ourIndexes` after the handler, its
handle stack still holding the handle of the file. -/
theorem C16_counterexample :
    demoOverridden.g_handleStack 103 = [56237, 777] ∧
    (OnShutdownSession demoHost demoOverridden).map (fun s => s.g_handleStack 103) =
      some [777] ∧
    (OnShutdownSession demoHost demoBackedOut).map
      (fun s => (s.g_ourIndexes 104, s.g_handleStack 104)) = some (true, [56237]) := by
  decide!

/-- C16, amended: the shutdown handler completes when no mounter faults and every listed file has a
`/`, and whenever it completes `g_pendingRemovals` and the per-tag table
`g_customStreamingFilesByTag` are empty, `g_manifestNames` has lost every entry under a tag of the
per-tag table (so it is empty when every manifest tag has a file list) and `g_unloadingCfx` is
false. -/
theorem C16_shutdown_clears_tables (host : Host) (s : State) :
    (NoFault host → ListedFilesHaveSlash s → ∃ s', OnShutdownSession host s = some s') ∧
    ∀ s', OnShutdownSession host s = some s' →
      s'.g_pendingRemovals = [] ∧
      s'.g_customStreamingFilesByTag = [] ∧
      s'.g_manifestNames = s.g_manifestNames.filter
        (fun kv => decide (kv.1 ∉ s.g_customStreamingFilesByTag.map (fun e => e.1))) ∧
      ((∀ tag ∈ manifestTags s, tag ∈ s.g_customStreamingFilesByTag.map (fun e => e.1)) →
        s'.g_manifestNames = []) ∧
      s'.g_unloadingCfx = false := by
  refine ⟨fun hok hs => OnShutdownSession_isSome host hok s hs, ?_⟩
  intro s' h
  obtain ⟨t1, t2, t3, t4⟩ := OnShutdownSession_tables host s s' h
  refine ⟨t1, t3, t4, ?_, t2⟩
  intro hall
  rw [t4, List.filter_eq_nil_iff]
  intro kv hkv
  have := hall kv.1 (List.mem_map.mpr ⟨kv, hkv, rfl⟩)
  simpa using this

/-- C16 amended, at the demo override: the handler completes and the tables are empty. -/
theorem C16_shutdown_clears_tables_witness :
    NoFault demoHost ∧ ListedFilesHaveSlash demoOverridden ∧
    demoOverridden.g_customStreamingFilesByTag =
      [("pack1".toList, ["a/foo.ytd".toList])] ∧
    OnShutdownSession demoHost demoOverridden = some demoOverriddenShutdown ∧
    demoOverriddenShutdown.g_pendingRemovals = [] ∧
    demoOverriddenShutdown.g_customStreamingFilesByTag = [] ∧
    demoOverriddenShutdown.g_manifestNames = [] ∧
    demoOverriddenShutdown.g_unloadingCfx = false :=
  have h := (C16_shutdown_clears_tables demoHost demoOverridden).2 demoOverriddenShutdown
    (isSome_eq_some_getD _ _ (by decide!))
  ⟨demoHost_noFault, by decide!, by decide!, isSome_eq_some_getD _ _ (by decide!),
    h.1, h.2.1, h.2.2.2.1 (by decide!), h.2.2.2.2⟩

/-- C17, evaluated: the result of `std::remove` is not used and nothing is erased. With
`(ab, x.meta)` as the only pending entry and the last loaded entry, both lists are the same after
`RemoveDataFileFromLoadList(ab, x.meta)`, although the file was unmounted; with another entry
behind it, the pending list keeps its length and ends with a pair of empty strings. -/
theorem C17_remove_leaves_entry :
    (RemoveDataFileFromLoadList demoHost true "ab".toList "x.meta".toList demoRemoveState).map
      (fun s => (s.g_dataFiles, s.g_loadedDataFiles, unmounted s.trace)) =
      some ([("ab".toList, "x.meta".toList)],
        [("abc".toList, "y.meta".toList), ("ab".toList, "x.meta".toList)],
        [⟨"x.meta".toList, 7⟩]) ∧
    (RemoveDataFileFromLoadList demoHost false "ab".toList "x.meta".toList
      { initState emptyHostState with
        g_dataFiles := [("ab".toList, "x.meta".toList), ("abc".toList, "y.meta".toList)] }).map
      (fun s => s.g_dataFiles) = some [("abc".toList, "y.meta".toList), ([], [])] := by
  decide!

/-- C18, evaluated: the lambda of `UnloadDataFiles` has no `__try`, so a fault raised by
`UnmountFile` on a `DLC_ITYP_REQUEST` entry reaches `SafeCall` and ends the process: the result is
`none`, the entry behind it is not unmounted and the list is not cleared. The same entry removed
with `RemoveDataFileFromLoadList`, whose lambda has the filter, does return. -/
theorem C18_unload_fault_is_fatal :
    LookupDataFileMounter faultHost "DLC_ITYP_REQUEST".toList = some Mounter.proxyDlcItyp ∧
    LookupDataFileType faultHost "DLC_ITYP_REQUEST".toList = 174 ∧
    FilterUnmountOperation ⟨"dlc/a.ityp".toList, 174⟩ = true ∧
    UnmountFile faultHost Mounter.proxyDlcItyp ⟨"dlc/a.ityp".toList, 174⟩ demoItypLoaded = none ∧
    UnloadDataFiles faultHost demoItypLoaded = none ∧
    (RemoveDataFileFromLoadList faultHost true "DLC_ITYP_REQUEST".toList "dlc/a.ityp".toList
      demoItypLoaded).isSome = true :=
  ⟨by decide!, by decide!, by decide!, Option.isNone_iff_eq_none.mp (by decide!),
    Option.isNone_iff_eq_none.mp (by decide!), by decide!⟩

/-- C19, evaluated: `CfxCollection_AddStreamingFileByTag` claims the base name `foo.ytd`, and
`CfxCollection_BackoutStreamingTag` erases the listed name `a/foo.ytd` from the claimed base names,
which is not in the set: the base name stays claimed after the backout. The manifest multimap and
the per-tag table have no entry of the tag. -/
theorem C19_backout_leaves_base_name :
    (initState emptyHostState).g_customStreamingFileRefs = [] ∧
    (demoAdded 0).g_customStreamingFileRefs = ["foo.ytd".toList] ∧
    (CfxCollection_BackoutStreamingTag "pack1".toList (demoAdded 0)).g_customStreamingFileRefs =
      ["foo.ytd".toList] ∧
    (CfxCollection_BackoutStreamingTag "pack1".toList (demoAdded 0)).g_manifestNames = [] ∧
    (CfxCollection_BackoutStreamingTag "pack1".toList (demoAdded 0)).g_customStreamingFilesByTag =
      [] := by
  decide!

theorem applyToSlot_push (host : Host) (file tag baseName : Str) (m : StrModule) (strId : Nat)
    (s : State) (hid : strId ≠ NO_SLOT) (hc : s.host.handle (globalIdx strId m) ≠ 0) :
    (applyToSlot host file tag baseName m strId s).g_handleStack (globalIdx strId m) =
      (if s.g_handleStack (globalIdx strId m) = [] then
        [overrideHandle host file, s.host.handle (globalIdx strId m)]
      else overrideHandle host file :: s.g_handleStack (globalIdx strId m)) ∧
    (applyToSlot host file tag baseName m strId s).host.handle (globalIdx strId m) =
      overrideHandle host file ∧
    (applyToSlot host file tag baseName m strId s).g_handlesToTag (overrideHandle host file) =
      tag := by
  unfold applyToSlot
  dsimp only
  rw [if_pos hc]
  unfold pushOverride
  rw [if_pos hid]
  cases hl : s.g_handleStack (globalIdx strId m) with
  | nil => simp [hl]
  | cons a l => simp [hl]

/-- C20: when the `AfterSession` pass of `LoadStreamingFiles` comes to a registration `(f, t)`
whose file resolves to a slot with a live handle `c` that is not zero, the registration leaves the
pending set and, with `h` the handle computed for the file: the handle stack of the slot becomes
`[h, c]` when it was empty and `h` in front of the previous stack otherwise, the live handle of the
slot becomes `h`, and `g_handlesToTag` maps `h` to `t`. -/
theorem C20_override_on_live_slot (host : Host) (f t : Str) (m : StrModule) (strId : Nat)
    (s : State) (hres : resolveSlot host s.host f = some (m, strId))
    (hrpf : extensionOf host f ≠ some "rpf".toList)
    (hc : s.host.handle (globalIdx strId m) ≠ 0) :
    (loadStreamingFile host LoadType.AfterSession (f, t) s).1 = false ∧
    (loadStreamingFile host LoadType.AfterSession (f, t) s).2.g_handleStack (globalIdx strId m) =
      (if s.g_handleStack (globalIdx strId m) = [] then
        [overrideHandle host f, s.host.handle (globalIdx strId m)]
      else overrideHandle host f :: s.g_handleStack (globalIdx strId m)) ∧
    (loadStreamingFile host LoadType.AfterSession (f, t) s).2.host.handle (globalIdx strId m) =
      overrideHandle host f ∧
    (loadStreamingFile host LoadType.AfterSession (f, t) s).2.g_handlesToTag
      (overrideHandle host f) = t := by
  obtain ⟨afterSlash, ext, h1, h2, h3, h4, h5⟩ := resolveSlot_some host s.host f m strId hres
  have hext : ext ≠ "rpf".toList := by
    intro he
    apply hrpf
    simp only [extensionOf, h1, Option.some_bind, h2, he]
  obtain ⟨o1, o2, o3⟩ := applyToSlot_push host f t (GetBaseName host afterSlash) m strId s h5 hc
  have hfound : ¬ FindSlot s.host m (substr0 (GetBaseName host afterSlash)
      (find_last_of '.' (GetBaseName host afterSlash))) = NO_SLOT := by
    rw [h4]
    exact h5
  have hload : loadStreamingFile host LoadType.AfterSession (f, t) s =
      (false, applyRegistration host f t (GetBaseName host afterSlash) ext s) := by
    unfold loadStreamingFile
    simp only [h1, h2, if_neg hext]
    simp
  have happ : applyToModule host f t (GetBaseName host afterSlash) ext m s =
      applyToSlot host f t (GetBaseName host afterSlash) m strId s := by
    unfold applyToModule
    dsimp only
    rw [if_neg hfound, h4]
  rw [hload]
  unfold applyRegistration
  rw [h3]
  dsimp only
  rw [happ]
  split <;> exact ⟨rfl, o1, o2, o3⟩

/-- C20, on the demo host: the texture `foo` is a real asset with handle 777 and an empty stack, so
the override by `a/foo.ytd` (handle 56237) gives the stack `[56237, 777]`; the next override, by
`b/foo.ytd` (handle 19118), goes in front of it. -/
theorem C20_override_on_live_slot_witness :
    (initState assetHostState).host.handle 103 = 777 ∧
    (initState assetHostState).g_handleStack 103 = [] ∧
    (loadStreamingFile demoHost LoadType.AfterSession ("a/foo.ytd".toList, "t1".toList)
      (initState assetHostState)).2.g_handleStack 103 = [56237, 777] ∧
    (loadStreamingFile demoHost LoadType.AfterSession ("a/foo.ytd".toList, "t1".toList)
      (initState assetHostState)).2.host.handle 103 = 56237 ∧
    (loadStreamingFile demoHost LoadType.AfterSession ("a/foo.ytd".toList, "t1".toList)
      (initState assetHostState)).2.g_handlesToTag 56237 = "t1".toList ∧
    demoOverridden.g_handleStack 103 = [56237, 777] ∧
    (loadStreamingFile demoHost LoadType.AfterSession ("b/foo.ytd".toList, "t3".toList)
      demoOverridden).2.g_handleStack 103 = [19118, 56237, 777] ∧
    (loadStreamingFile demoHost LoadType.AfterSession ("b/foo.ytd".toList, "t3".toList)
      demoOverridden).2.host.handle 103 = 19118 :=
  have h1 := C20_override_on_live_slot demoHost "a/foo.ytd".toList "t1".toList ⟨1, 100⟩ 3
    (initState assetHostState) (by decide!) (by decide!) (by decide!)
  have h2 := C20_override_on_live_slot demoHost "b/foo.ytd".toList "t3".toList ⟨1, 100⟩ 3
    demoOverridden (by decide!) (by decide!) (by decide!)
  ⟨by decide!, by decide!, h1.2.1.trans (by decide!), h1.2.2.1.trans (by decide!), h1.2.2.2,
    by decide!, h2.2.1.trans (by decide!), h2.2.2.1.trans (by decide!)⟩

/-! ## The erase loop on a handle stack -/

theorem eraseScan_not_mem (idx : Nat) (l : List Nat) (h : idx ∉ l) :
    eraseScan idx l = (l, false) := by
  suffices hn : ∀ n (l : List Nat), l.length ≤ n → idx ∉ l → eraseScan idx l = (l, false) from
    hn l.length l (Nat.le_refl _) h
  intro n
  induction n with
  | zero =>
    intro l hl _
    cases l with
    | nil => rfl
    | cons x xs => simp at hl
  | succ n ih =>
    intro l hl hmem
    match l, hl, hmem with
    | [], _, _ => rfl
    | [x], _, hmem =>
      have hx : x ≠ idx := fun e => hmem (by simp [e])
      simp [eraseScan, hx]
    | x :: y :: ys, hl, hmem =>
      simp only [List.length_cons] at hl
      have hx : x ≠ idx := fun e => hmem (by simp [e])
      have hrest : idx ∉ y :: ys := fun e => hmem (List.mem_cons_of_mem _ e)
      have := ih (y :: ys) (by simp only [List.length_cons]; omega) hrest
      simp only [eraseScan, if_neg hx, this]

theorem eraseRuns_not_mem (idx : Nat) (n : Nat) (l : List Nat) (h : idx ∉ l) :
    eraseRuns idx n l = l := by
  cases n with
  | zero => rfl
  | succ n => simp only [eraseRuns, eraseScan_not_mem idx l h]

theorem not_mem_of_count_eq_zero (idx : Nat) (l : List Nat) (h : l.count idx = 0) : idx ∉ l :=
  List.count_eq_zero.mp h

theorem filter_ne_of_not_mem (idx : Nat) (l : List Nat) (h : idx ∉ l) :
    l.filter (fun x => decide (x ≠ idx)) = l := by
  rw [List.filter_eq_self]
  intro a ha
  have : a ≠ idx := fun e => h (e ▸ ha)
  simpa using this

/-- One scan over a stack that holds the handle once takes out that entry and nothing else. -/
theorem eraseScan_count_one (idx : Nat) (l : List Nat) (h : l.count idx = 1) :
    (eraseScan idx l).1 = l.filter (fun x => decide (x ≠ idx)) := by
  suffices hn : ∀ n (l : List Nat), l.length ≤ n → l.count idx = 1 →
      (eraseScan idx l).1 = l.filter (fun x => decide (x ≠ idx)) from
    hn l.length l (Nat.le_refl _) h
  intro n
  induction n with
  | zero =>
    intro l hl hc
    cases l with
    | nil => simp at hc
    | cons x xs => simp at hl
  | succ n ih =>
    intro l hl hc
    match l, hl, hc with
    | [], _, hc => simp at hc
    | [x], _, hc =>
      by_cases hx : x = idx
      · simp [eraseScan, hx]
      · simp [List.count_cons, hx] at hc
    | x :: y :: ys, hl, hc =>
      simp only [List.length_cons] at hl
      by_cases hx : x = idx
      · have hc0 : (y :: ys).count idx = 0 := by
          rw [List.count_cons] at hc
          simp only [hx, beq_self_eq_true, if_true] at hc
          omega
        have hnm := not_mem_of_count_eq_zero idx _ hc0
        have hy : y ≠ idx := fun e => hnm (by simp [e])
        have hys : idx ∉ ys := fun e => hnm (List.mem_cons_of_mem _ e)
        simp only [eraseScan, if_pos hx, eraseScan_not_mem idx ys hys]
        rw [List.filter_cons]
        simp only [hx, ne_eq, not_true_eq_false, decide_False, Bool.false_eq_true, if_false]
        rw [filter_ne_of_not_mem idx _ hnm]
      · have hc1 : (y :: ys).count idx = 1 := by
          rw [List.count_cons] at hc
          have : (x == idx) = false := by simpa using hx
          simpa [this] using hc
        have := ih (y :: ys) (by simp only [List.length_cons]; omega) hc1
        have e : List.filter (fun x => decide (x ≠ idx)) (x :: y :: ys) =
            x :: List.filter (fun x => decide (x ≠ idx)) (y :: ys) := by
          rw [List.filter_cons]
          simp [hx]
        simp only [eraseScan, if_neg hx, this, e]

/-- The erase loop on a stack that holds the handle once: that entry goes, the others stay in
their order. -/
theorem eraseHandle_count_one (idx : Nat) (l : List Nat) (h : l.count idx = 1) :
    eraseHandle idx l = l.filter (fun x => decide (x ≠ idx)) := by
  have hne : l ≠ [] := by
    intro e
    simp [e] at h
  unfold eraseHandle
  cases hl : l.length with
  | zero => exact absurd (List.eq_nil_of_length_eq_zero hl) hne
  | succ n =>
    have h1 := eraseScan_count_one idx l h
    have hnm : idx ∉ l.filter (fun x => decide (x ≠ idx)) := by
      intro hm
      have := (List.mem_filter.mp hm).2
      simp at this
    simp only [eraseRuns]
    cases hsc : eraseScan idx l with
    | mk r b =>
      rw [hsc] at h1
      dsimp only at h1
      subst h1
      cases b with
      | false => rfl
      | true => exact eraseRuns_not_mem idx n _ hnm

theorem length_filter_ne_of_count_one (idx : Nat) (l : List Nat) (h : l.count idx = 1) :
    (l.filter (fun x => decide (x ≠ idx))).length + 1 = l.length := by
  induction l with
  | nil => simp at h
  | cons x xs ih =>
    by_cases hx : x = idx
    · have hc0 : xs.count idx = 0 := by
        rw [List.count_cons] at h
        simp only [hx, beq_self_eq_true, if_true] at h
        omega
      have hnm := not_mem_of_count_eq_zero idx _ hc0
      rw [List.filter_cons]
      simp only [hx, ne_eq, not_true_eq_false, decide_False, Bool.false_eq_true, if_false]
      rw [filter_ne_of_not_mem idx _ hnm]
      rfl
    · have hc1 : xs.count idx = 1 := by
        rw [List.count_cons] at h
        have : (x == idx) = false := by simpa using hx
        simpa [this] using h
      have := ih hc1
      have e : List.filter (fun x => decide (x ≠ idx)) (x :: xs) =
          x :: List.filter (fun x => decide (x ≠ idx)) xs := by
        rw [List.filter_cons]
        simp [hx]
      rw [e, List.length_cons, List.length_cons, this]

/-! ## The claims on tag removal -/

/-- C21, refuted as stated: the texture `foo` carries the overrides of `t1`, `t3` and `t2`. After
`CfxCollection_RemoveStreamingTag("t1")` its handle stack is `[19118, 777]`, not empty, and the
override of `t3` is the live handle, yet the slot is no longer in `g_ourIndexes`, where it was
before. -/
theorem C21_counterexample :
    demoShared.g_ourIndexes 103 = true ∧
    CfxCollection_RemoveStreamingTag demoHost "t1".toList demoShared = some demoSharedRemoved ∧
    demoSharedRemoved.g_handleStack 103 = [19118, 777] ∧
    demoSharedRemoved.host.handle 103 = 19118 ∧
    demoSharedRemoved.g_ourIndexes 103 = false :=
  ⟨by decide!, isSome_eq_some_getD _ _ (by decide!), by decide!, by decide!, by decide!⟩

/-- C21, amended: for a file of the removed tag that resolves to a slot,
`CfxCollection_RemoveStreamingTag` takes the slot out of `g_ourIndexes` whatever is left on its
handle stack; when the stack is still non-empty after the removal of the registration, the live
handle of the slot is the new front of the stack and `g_pendingRemovals` is as before. -/
theorem C21_remove_unmarks_slot (host : Host) (file : Str) (m : StrModule) (strId : Nat)
    (s : State) (hres : resolveSlot host s.host file = some (m, strId)) :
    ∃ s', removeStreamingFile host file s = some s' ∧
      s'.g_ourIndexes (globalIdx strId m) = false ∧
      (s'.g_handleStack (globalIdx strId m) ≠ [] →
        (s'.g_handleStack (globalIdx strId m)).head? = some (s'.host.handle (globalIdx strId m)) ∧
        s'.g_pendingRemovals = s.g_pendingRemovals) := by
  obtain ⟨b, hb⟩ := removeStreamingFile_of_resolve host file s (m, strId) hres
  refine ⟨_, hb, ?_, ?_⟩
  · rw [removeFromSlot_ourIndexes, Function.update_same]
  · rw [removeFromSlot_handleStack, removeFromSlot_handle, removeFromSlot_pending,
      Function.update_same, Function.update_same]
    intro hne
    rw [if_neg hne]
    refine ⟨?_, rfl⟩
    cases hl : eraseHandle (removeHandle host file) (s.g_handleStack (globalIdx strId m)) with
    | nil => exact absurd hl hne
    | cons a l => rfl

/-- C21 amended, at the demo override of the real asset `foo`: after the removal of `a/foo.ytd`
the stack is `[777]`, the live handle is 777, nothing is pending and the slot is not ours. -/
theorem C21_remove_unmarks_slot_witness :
    resolveSlot demoHost demoOverridden.host "a/foo.ytd".toList = some (⟨1, 100⟩, 3) ∧
    demoOverridden.g_handleStack 103 = [56237, 777] ∧
    demoOverridden.g_ourIndexes 103 = true ∧
    (removeStreamingFile demoHost "a/foo.ytd".toList demoOverridden).map
      (fun s => (s.g_handleStack 103, s.host.handle 103, s.g_ourIndexes 103)) =
      some ([777], 777, false) ∧
    ∃ s', removeStreamingFile demoHost "a/foo.ytd".toList demoOverridden = some s' ∧
      s'.g_ourIndexes (globalIdx 3 ⟨1, 100⟩) = false ∧
      (s'.g_handleStack (globalIdx 3 ⟨1, 100⟩) ≠ [] →
        (s'.g_handleStack (globalIdx 3 ⟨1, 100⟩)).head? =
          some (s'.host.handle (globalIdx 3 ⟨1, 100⟩)) ∧
        s'.g_pendingRemovals = demoOverridden.g_pendingRemovals) :=
  ⟨by decide!, by decide!, by decide!, by decide!,
    C21_remove_unmarks_slot demoHost "a/foo.ytd".toList ⟨1, 100⟩ 3 demoOverridden (by decide!)⟩

/-- C22, refuted as stated: the tag `t1` has the one file `a/foo.ytd`, whose handle 56237 stands
twice in the stack of its slot (the same file is registered under `t2`). Removing `t1` takes both
entries out: the stack goes from four entries to two. -/
theorem C22_counterexample :
    mapGet demoShared.g_customStreamingFilesByTag "t1".toList [] = ["a/foo.ytd".toList] ∧
    removeHandle demoHost "a/foo.ytd".toList = 56237 ∧
    demoShared.g_handleStack 103 = [56237, 19118, 56237, 777] ∧
    CfxCollection_RemoveStreamingTag demoHost "t1".toList demoShared = some demoSharedRemoved ∧
    demoSharedRemoved.g_handleStack 103 = [19118, 777] ∧
    (demoSharedRemoved.g_handleStack 103).length + 1 ≠ (demoShared.g_handleStack 103).length :=
  ⟨by decide!, by decide!, by decide!, isSome_eq_some_getD _ _ (by decide!), by decide!,
    by decide!⟩

/-- C22, amended: for a file of the removed tag that resolves to a slot whose handle stack holds
the handle of the file exactly once, `CfxCollection_RemoveStreamingTag` takes exactly that entry
out: the stack is the old one without it, the other entries in their order, one entry shorter;
the stacks of the other slots are as before. -/
theorem C22_remove_single_entry (host : Host) (file : Str) (m : StrModule) (strId : Nat)
    (s : State) (hres : resolveSlot host s.host file = some (m, strId))
    (hone : (s.g_handleStack (globalIdx strId m)).count (removeHandle host file) = 1) :
    ∃ s', removeStreamingFile host file s = some s' ∧
      s'.g_handleStack (globalIdx strId m) =
        (s.g_handleStack (globalIdx strId m)).filter
          (fun x => decide (x ≠ removeHandle host file)) ∧
      (s'.g_handleStack (globalIdx strId m)).length + 1 =
        (s.g_handleStack (globalIdx strId m)).length ∧
      ∀ i, i ≠ globalIdx strId m → s'.g_handleStack i = s.g_handleStack i := by
  obtain ⟨b, hb⟩ := removeStreamingFile_of_resolve host file s (m, strId) hres
  refine ⟨_, hb, ?_, ?_, ?_⟩
  · rw [removeFromSlot_handleStack, Function.update_same, eraseHandle_count_one _ _ hone]
  · rw [removeFromSlot_handleStack, Function.update_same, eraseHandle_count_one _ _ hone]
    exact length_filter_ne_of_count_one _ _ hone
  · intro i hi
    rw [removeFromSlot_handleStack, Function.update_noteq hi]

/-- C22 amended, at the demo override of the real asset `foo`: the stack `[56237, 777]` holds the
handle of `a/foo.ytd` once and is `[777]` after the removal. -/
theorem C22_remove_single_entry_witness :
    demoOverridden.g_handleStack 103 = [56237, 777] ∧
    removeHandle demoHost "a/foo.ytd".toList = 56237 ∧
    ∃ s', removeStreamingFile demoHost "a/foo.ytd".toList demoOverridden = some s' ∧
      s'.g_handleStack (globalIdx 3 ⟨1, 100⟩) =
        (demoOverridden.g_handleStack (globalIdx 3 ⟨1, 100⟩)).filter
          (fun x => decide (x ≠ removeHandle demoHost "a/foo.ytd".toList)) ∧
      (s'.g_handleStack (globalIdx 3 ⟨1, 100⟩)).length + 1 =
        (demoOverridden.g_handleStack (globalIdx 3 ⟨1, 100⟩)).length ∧
      ∀ i, i ≠ globalIdx 3 ⟨1, 100⟩ → s'.g_handleStack i = demoOverridden.g_handleStack i :=
  ⟨by decide!, by decide!,
    C22_remove_single_entry demoHost "a/foo.ytd".toList ⟨1, 100⟩ 3 demoOverridden (by decide!)
      (by decide!)⟩

/-! ## What an apply pass leaves alone -/

theorem applyToSlot_frame (host : Host) (file tag baseName : Str) (m : StrModule) (strId : Nat)
    (s : State) :
    applyToSlot host file tag baseName m strId s =
      { s with
        g_ourIndexes := (applyToSlot host file tag baseName m strId s).g_ourIndexes
        g_pendingRemovals := (applyToSlot host file tag baseName m strId s).g_pendingRemovals
        g_handleStack := (applyToSlot host file tag baseName m strId s).g_handleStack
        g_handlesToTag := (applyToSlot host file tag baseName m strId s).g_handlesToTag
        host := (applyToSlot host file tag baseName m strId s).host
        trace := (applyToSlot host file tag baseName m strId s).trace } := by
  unfold applyToSlot
  dsimp only
  split
  · unfold pushOverride
    dsimp only
    split <;> rfl
  · unfold registerNew
    dsimp only [State.emit]
    split
    · split <;> rfl
    · rfl

theorem applyToModule_frame (host : Host) (file tag baseName ext : Str) (m : StrModule)
    (s : State) :
    applyToModule host file tag baseName ext m s =
      { s with
        g_ourIndexes := (applyToModule host file tag baseName ext m s).g_ourIndexes
        g_pendingRemovals := (applyToModule host file tag baseName ext m s).g_pendingRemovals
        g_handleStack := (applyToModule host file tag baseName ext m s).g_handleStack
        g_handlesToTag := (applyToModule host file tag baseName ext m s).g_handlesToTag
        newGfx := (applyToModule host file tag baseName ext m s).newGfx
        host := (applyToModule host file tag baseName ext m s).host
        trace := (applyToModule host file tag baseName ext m s).trace } := by
  unfold applyToModule
  dsimp only
  split
  · split
    · rw [applyToSlot_frame]
    · rw [applyToSlot_frame]
  · rw [applyToSlot_frame]

theorem applyRegistration_frame (host : Host) (file tag baseName ext : Str) (s : State) :
    applyRegistration host file tag baseName ext s =
      { s with
        g_ourIndexes := (applyRegistration host file tag baseName ext s).g_ourIndexes
        g_pendingRemovals := (applyRegistration host file tag baseName ext s).g_pendingRemovals
        g_handleStack := (applyRegistration host file tag baseName ext s).g_handleStack
        g_handlesToTag := (applyRegistration host file tag baseName ext s).g_handlesToTag
        g_pedsToRegister := (applyRegistration host file tag baseName ext s).g_pedsToRegister
        newGfx := (applyRegistration host file tag baseName ext s).newGfx
        host := (applyRegistration host file tag baseName ext s).host
        trace := (applyRegistration host file tag baseName ext s).trace } := by
  unfold applyRegistration
  cases hm : host.getStreamingModule ext with
  | none =>
    dsimp only
    split <;> rfl
  | some m =>
    dsimp only
    split <;> rw [applyToModule_frame]

theorem loadStreamingFile_frame (host : Host) (loadType : LoadType) (reg : Str × Str)
    (s : State) :
    (loadStreamingFile host loadType reg s).2 =
      { s with
        g_ourIndexes := (loadStreamingFile host loadType reg s).2.g_ourIndexes
        g_pendingRemovals := (loadStreamingFile host loadType reg s).2.g_pendingRemovals
        g_handleStack := (loadStreamingFile host loadType reg s).2.g_handleStack
        g_handlesToTag := (loadStreamingFile host loadType reg s).2.g_handlesToTag
        g_pedsToRegister := (loadStreamingFile host loadType reg s).2.g_pedsToRegister
        newGfx := (loadStreamingFile host loadType reg s).2.newGfx
        host := (loadStreamingFile host loadType reg s).2.host
        trace := (loadStreamingFile host loadType reg s).2.trace } := by
  unfold loadStreamingFile
  dsimp only
  split
  · rfl
  · cases h1 : afterLast '/' reg.1 with
    | none => rfl
    | some afterSlash =>
      dsimp only
      cases h2 : afterLast '.' (GetBaseName host afterSlash) with
      | none => rfl
      | some ext =>
        dsimp only
        split
        · rfl
        · split
          · rfl
          · dsimp only
            rw [applyRegistration_frame]

theorem loadStreamingLoop_frame (host : Host) (loadType : LoadType) (l : List (Str × Str))
    (s : State) :
    (loadStreamingLoop host loadType l s).2 =
      { s with
        g_ourIndexes := (loadStreamingLoop host loadType l s).2.g_ourIndexes
        g_pendingRemovals := (loadStreamingLoop host loadType l s).2.g_pendingRemovals
        g_handleStack := (loadStreamingLoop host loadType l s).2.g_handleStack
        g_handlesToTag := (loadStreamingLoop host loadType l s).2.g_handlesToTag
        g_pedsToRegister := (loadStreamingLoop host loadType l s).2.g_pedsToRegister
        newGfx := (loadStreamingLoop host loadType l s).2.newGfx
        host := (loadStreamingLoop host loadType l s).2.host
        trace := (loadStreamingLoop host loadType l s).2.trace } := by
  induction l generalizing s with
  | nil => rfl
  | cons reg rest ih =>
    simp only [loadStreamingLoop]
    rw [ih, loadStreamingFile_frame]

/-- The fields `LoadStreamingFiles` can change; all other globals are as before. -/
theorem LoadStreamingFiles_frame (host : Host) (loadType : LoadType) (s : State) :
    LoadStreamingFiles host loadType s =
      { s with
        g_customStreamingFiles := (LoadStreamingFiles host loadType s).g_customStreamingFiles
        g_ourIndexes := (LoadStreamingFiles host loadType s).g_ourIndexes
        g_pendingRemovals := (LoadStreamingFiles host loadType s).g_pendingRemovals
        g_handleStack := (LoadStreamingFiles host loadType s).g_handleStack
        g_handlesToTag := (LoadStreamingFiles host loadType s).g_handlesToTag
        g_pedsToRegister := (LoadStreamingFiles host loadType s).g_pedsToRegister
        newGfx := (LoadStreamingFiles host loadType s).newGfx
        host := (LoadStreamingFiles host loadType s).host
        trace := (LoadStreamingFiles host loadType s).trace } := by
  have f := loadStreamingLoop_frame host loadType s.g_customStreamingFiles { s with newGfx := [] }
  rw [LoadStreamingFiles_eq]
  generalize loadStreamingLoop host loadType s.g_customStreamingFiles { s with newGfx := [] } = r
    at f
  rw [f]

/-! ## The phases of `LoadStreamingFiles` -/

theorem loadStreamingFile_afterSession (host : Host) (reg : Str × Str) (st : State) :
    (loadStreamingFile host LoadType.AfterSession reg st).1 = false ∧
    (malformed host reg = true → (loadStreamingFile host LoadType.AfterSession reg st).2 = st) ∧
    (malformed host reg = false → ∃ baseName ext,
      (loadStreamingFile host LoadType.AfterSession reg st).2 =
        applyRegistration host reg.1 reg.2 baseName ext st) := by
  unfold loadStreamingFile
  dsimp only
  rw [if_neg (by simp)]
  cases h1 : afterLast '/' reg.1 with
  | none =>
    refine ⟨rfl, fun _ => rfl, ?_⟩
    intro hm
    simp [malformed, extensionOf, h1] at hm
  | some afterSlash =>
    dsimp only
    cases h2 : afterLast '.' (GetBaseName host afterSlash) with
    | none =>
      refine ⟨rfl, fun _ => rfl, ?_⟩
      intro hm
      simp [malformed, extensionOf, h1, h2] at hm
    | some ext =>
      dsimp only
      by_cases hx : ext = "rpf".toList
      · rw [if_pos hx]
        refine ⟨rfl, fun _ => rfl, ?_⟩
        intro hm
        simp [malformed, extensionOf, h1, h2, hx] at hm
      · rw [if_neg hx, if_neg (by simp)]
        refine ⟨rfl, ?_, fun _ => ⟨_, _, rfl⟩⟩
        intro hm
        have : ext = "rpf".toList := by simpa [malformed, extensionOf, h1, h2] using hm
        exact absurd this hx

theorem loadStreamingFile_deferred (host : Host) (loadType : LoadType)
    (hlt : loadType = LoadType.BeforeSession ∨ loadType = LoadType.BeforeMapLoad)
    (reg : Str × Str) (hk : deferredKind host reg = true) (st : State) :
    loadStreamingFile host loadType reg st = (true, st) := by
  unfold loadStreamingFile
  dsimp only
  split
  · rfl
  · cases h1 : afterLast '/' reg.1 with
    | none => simp [deferredKind, extensionOf, h1] at hk
    | some afterSlash =>
      dsimp only
      cases h2 : afterLast '.' (GetBaseName host afterSlash) with
      | none => simp [deferredKind, extensionOf, h1, h2] at hk
      | some ext =>
        dsimp only
        have hext : ext = "ymap".toList ∨ ext = "ytyp".toList ∨ ext = "ybn".toList := by
          simpa [deferredKind, extensionOf, h1, h2] using hk
        have hx : ext ≠ "rpf".toList := by
          rcases hext with h | h | h <;> (rw [h]; decide)
        rw [if_neg hx, if_pos]
        refine ⟨?_, hext⟩
        rcases hlt with h | h <;> (rw [h]; exact ⟨by decide, by decide⟩)

/-- C28: after `LoadStreamingFiles(AfterSession)` the pending set is empty whatever it held: the
iteration of every registration erases it, and either leaves the state alone (the registration is
malformed) or applies it. A pass with `BeforeSession` or `BeforeMapLoad` passes over every
registration whose base name has the extension `ymap`, `ytyp` or `ybn`: the iteration keeps it and
returns the state it got, and it is still pending after the pass. -/
theorem C28_after_session_consumes (host : Host) (s : State) :
    (LoadStreamingFiles host LoadType.AfterSession s).g_customStreamingFiles = [] ∧
    (∀ reg st,
      (loadStreamingFile host LoadType.AfterSession reg st).1 = false ∧
      (malformed host reg = true →
        (loadStreamingFile host LoadType.AfterSession reg st).2 = st) ∧
      (malformed host reg = false → ∃ baseName ext,
        (loadStreamingFile host LoadType.AfterSession reg st).2 =
          applyRegistration host reg.1 reg.2 baseName ext st)) ∧
    (∀ loadType, loadType = LoadType.BeforeSession ∨ loadType = LoadType.BeforeMapLoad →
      ∀ reg, deferredKind host reg = true →
        (∀ st, loadStreamingFile host loadType reg st = (true, st)) ∧
        (reg ∈ s.g_customStreamingFiles →
          reg ∈ (LoadStreamingFiles host loadType s).g_customStreamingFiles)) := by
  refine ⟨?_, fun reg st => loadStreamingFile_afterSession host reg st, ?_⟩
  · have hk := loadStreamingLoop_kept host LoadType.AfterSession (fun _ => true) false
      (fun r st _ => (loadStreamingFile_afterSession host r st).1)
      s.g_customStreamingFiles { s with newGfx := [] }
    rw [LoadStreamingFiles_eq]
    dsimp only
    simpa using hk
  · intro loadType hlt reg hreg
    refine ⟨fun st => loadStreamingFile_deferred host loadType hlt reg hreg st, ?_⟩
    intro hmem
    have hk := loadStreamingLoop_kept host loadType (deferredKind host) true
      (fun r st hr => by rw [loadStreamingFile_deferred host loadType hlt r hr st])
      s.g_customStreamingFiles { s with newGfx := [] }
    rw [LoadStreamingFiles_eq]
    dsimp only
    have hin : reg ∈ s.g_customStreamingFiles.filter (deferredKind host) :=
      List.mem_filter.mpr ⟨hmem, hreg⟩
    rw [if_pos rfl] at hk
    rw [← hk] at hin
    exact (List.mem_filter.mp hin).1

/-- C28, on the demo host with a texture, static bounds and map types pending: the pass before
the session applies the texture and keeps the other two, the pass after the session leaves
nothing pending. -/
theorem C28_after_session_consumes_witness :
    demoPending.g_customStreamingFiles =
      [("a/foo.ytd".toList, "pack1".toList), ("b/bar.ybn".toList, "pack1".toList),
       ("c/x.ytyp".toList, "pack2".toList)] ∧
    (LoadStreamingFiles demoHost LoadType.BeforeSession demoPending).g_customStreamingFiles =
      [("b/bar.ybn".toList, "pack1".toList), ("c/x.ytyp".toList, "pack2".toList)] ∧
    (LoadStreamingFiles demoHost LoadType.AfterSession demoPending).g_customStreamingFiles = [] ∧
    (("b/bar.ybn".toList, "pack1".toList) ∈ demoPending.g_customStreamingFiles →
      ("b/bar.ybn".toList, "pack1".toList) ∈
        (LoadStreamingFiles demoHost LoadType.BeforeSession demoPending).g_customStreamingFiles) :=
  ⟨by decide!, by decide!, (C28_after_session_consumes demoHost demoPending).1,
    ((C28_after_session_consumes demoHost demoPending).2.2 LoadType.BeforeSession (Or.inl rfl)
      ("b/bar.ybn".toList, "pack1".toList) (by decide)).2⟩

/-! ## What a tag removal leaves alone -/

theorem removeFromSlot_frame (host : Host) (file baseName : Str) (m : StrModule) (strId : Nat)
    (s : State) :
    removeFromSlot host file baseName m strId s =
      { s with
        g_ourIndexes := (removeFromSlot host file baseName m strId s).g_ourIndexes
        g_handleStack := (removeFromSlot host file baseName m strId s).g_handleStack
        g_pendingRemovals := (removeFromSlot host file baseName m strId s).g_pendingRemovals
        g_customStreamingFileRefs :=
          (removeFromSlot host file baseName m strId s).g_customStreamingFileRefs
        host := (removeFromSlot host file baseName m strId s).host } := by
  unfold removeFromSlot
  dsimp only
  split <;> rfl

theorem removeStreamingFiles_frame (host : Host) (files : List Str) (s s' : State)
    (h : removeStreamingFiles host files s = some s') :
    s' = { s with
      g_ourIndexes := s'.g_ourIndexes
      g_handleStack := s'.g_handleStack
      g_pendingRemovals := s'.g_pendingRemovals
      g_customStreamingFileRefs := s'.g_customStreamingFileRefs
      host := s'.host } := by
  induction files generalizing s with
  | nil =>
    simp only [removeStreamingFiles] at h
    injection h with h
    subst h
    rfl
  | cons f rest ih =>
    simp only [removeStreamingFiles] at h
    split at h
    · exact absurd h (by simp)
    · rename_i s1 h1
      have h2 := ih s1 h
      rcases removeStreamingFile_cases host f s s1 h1 with ⟨heq, _⟩ | ⟨b, m, strId, _, heq⟩
      · rw [h2, heq]
      · rw [h2, heq, removeFromSlot_frame]

/-- The fields `CfxCollection_RemoveStreamingTag` can change; all other globals are as before. -/
theorem RemoveStreamingTag_frame (host : Host) (tag : Str) (s s' : State)
    (h : CfxCollection_RemoveStreamingTag host tag s = some s') :
    s' = { s with
      g_customStreamingFiles := s'.g_customStreamingFiles
      g_customStreamingFilesByTag := s'.g_customStreamingFilesByTag
      g_manifestNames := s'.g_manifestNames
      g_ourIndexes := s'.g_ourIndexes
      g_handleStack := s'.g_handleStack
      g_pendingRemovals := s'.g_pendingRemovals
      g_customStreamingFileRefs := s'.g_customStreamingFileRefs
      host := s'.host
      trace := s'.trace } := by
  unfold CfxCollection_RemoveStreamingTag at h
  dsimp only at h
  split at h
  · exact absurd h (by simp)
  · rename_i s1 h1
    injection h with h
    subst h
    have hf := removeStreamingFiles_frame host _ _ s1 h1
    dsimp only
    rw [hf]
    rfl

theorem removeAllTags_frame (host : Host) (tags : List Str) (s s' : State)
    (h : removeAllTags host tags s = some s') :
    s' = { s with
      g_customStreamingFiles := s'.g_customStreamingFiles
      g_customStreamingFilesByTag := s'.g_customStreamingFilesByTag
      g_manifestNames := s'.g_manifestNames
      g_ourIndexes := s'.g_ourIndexes
      g_handleStack := s'.g_handleStack
      g_pendingRemovals := s'.g_pendingRemovals
      g_customStreamingFileRefs := s'.g_customStreamingFileRefs
      host := s'.host
      trace := s'.trace } := by
  induction tags generalizing s with
  | nil =>
    simp only [removeAllTags] at h
    injection h with h
    subst h
    rfl
  | cons t rest ih =>
    simp only [removeAllTags] at h
    split at h
    · exact absurd h (by simp)
    · rename_i s1 h1
      rw [ih s1 h, RemoveStreamingTag_frame host t s s1 h1]

theorem OnShutdownSession_lockReload (host : Host) (s s' : State)
    (h : OnShutdownSession host s = some s') : s'.g_lockReload = true := by
  unfold OnShutdownSession at h
  split at h
  · exact absurd h (by simp)
  · rename_i s3 h3
    injection h with h
    subst h
    dsimp only
    rw [foldl_removePending, foldl_releasePending]
    dsimp only
    unfold shutdownUnregister at h3
    dsimp only at h3
    split at h3
    · exact absurd h3 (by simp)
    · rename_i s2 h2
      rw [removeAllTags_frame host _ s2 s3 h3]
      dsimp only
      unfold UnloadDataFiles at h2
      split at h2
      · split at h2
        · exact absurd h2 (by simp)
        · rename_i s1 h1
          injection h2 with h2
          subst h2
          dsimp only
          rw [HandleDataFileList_unmount_frame host _ _ _ s1 h1]
      · injection h2 with h2
        subst h2
        rfl

/-- C27: while `g_lockReload` is true the handler of `OnMainGameFrame` returns the state it got,
whatever the reload flag and the load-lock counter are, 0 included: no pass of
`LoadStreamingFiles` runs and `g_reloadStreamingFiles` is not cleared. The shutdown handler leaves
`g_lockReload` true, and the handler of `OnInitFunctionStart` for `INIT_SESSION` clears it. -/
theorem C27_tick_idle_while_locked (host : Host) (s : State) :
    (s.g_lockReload = true → OnMainGameFrame host s = s) ∧
    (s.g_lockReload = true →
      OnMainGameFrame host { s with g_reloadStreamingFiles := true, g_lockedStreamingFiles := 0 } =
        { s with g_reloadStreamingFiles := true, g_lockedStreamingFiles := 0 }) ∧
    (∀ s', OnShutdownSession host s = some s' → s'.g_lockReload = true) ∧
    (OnInitFunctionStart host true s).g_lockReload = false ∧
    (OnInitFunctionStart host false s).g_lockReload = s.g_lockReload := by
  refine ⟨?_, ?_, fun s' h => OnShutdownSession_lockReload host s s' h, ?_, rfl⟩
  · intro hl
    unfold OnMainGameFrame
    rw [if_neg]
    intro hc
    rw [hl] at hc
    exact absurd hc.2.2 (by simp)
  · intro hl
    unfold OnMainGameFrame
    rw [if_neg]
    intro hc
    have : s.g_lockReload = false := hc.2.2
    rw [hl] at this
    exact absurd this (by simp)
  · unfold OnInitFunctionStart
    rw [if_pos rfl, LoadStreamingFiles_frame]

/-- C27, on the demo session after its shutdown, with the reload flag set and the load-lock
counter at 0: the tick does nothing. -/
theorem C27_tick_idle_while_locked_witness :
    OnShutdownSession demoHost demoSession = some demoShutdown ∧
    demoShutdown.g_lockReload = true ∧
    OnMainGameFrame demoHost
        { demoShutdown with g_reloadStreamingFiles := true, g_lockedStreamingFiles := 0 } =
      { demoShutdown with g_reloadStreamingFiles := true, g_lockedStreamingFiles := 0 } ∧
    (OnInitFunctionStart demoHost true demoShutdown).g_lockReload = false :=
  have h := C27_tick_idle_while_locked demoHost demoShutdown
  have hl : demoShutdown.g_lockReload = true :=
    (C27_tick_idle_while_locked demoHost demoSession).2.2.1 demoShutdown
      (isSome_eq_some_getD _ _ (by decide!))
  ⟨isSome_eq_some_getD _ _ (by decide!), hl, h.2.1 hl, h.2.2.2.1⟩

/-! ## The two loops of the shutdown handler -/

theorem removeEvents_eq (host : Host) (p : StrModule × Int) :
    removeEvents host p =
      if keptAllocated host p = true then [] else [Event.removeSlot p.1 p.2] := by
  unfold removeEvents keptAllocated
  generalize isModule (host.getStreamingModule "ynv".toList) p.1 = a
  generalize isModule (host.getStreamingModule "ybn".toList) p.1 = b
  cases a <;> cases b <;> rfl

theorem flatMap_removeEvents (host : Host) (l : List (StrModule × Int)) :
    l.flatMap (removeEvents host) =
      (l.filter (fun p => !keptAllocated host p)).map (fun p => Event.removeSlot p.1 p.2) := by
  induction l with
  | nil => rfl
  | cons p rest ih =>
    rw [List.flatMap_cons, ih, removeEvents_eq, List.filter_cons]
    cases hk : keptAllocated host p <;> simp

theorem removeSlot_injective :
    Function.Injective (fun p : StrModule × Int => Event.removeSlot p.1 p.2) := by
  intro p q h
  simp only [Event.removeSlot.injEq] at h
  exact Prod.ext h.1 h.2

theorem timesIn_cons {α : Type} [DecidableEq α] (a x : α) (l : List α) :
    timesIn a (x :: l) = (if x = a then 1 else 0) + timesIn a l := by
  unfold timesIn
  rw [List.filter_cons]
  by_cases h : x = a
  · simp [h]
    omega
  · simp [h]

theorem timesIn_map_injective {α β : Type} [DecidableEq α] [DecidableEq β] (f : α → β)
    (hf : Function.Injective f) (a : α) (l : List α) :
    timesIn (f a) (l.map f) = timesIn a l := by
  induction l with
  | nil => rfl
  | cons x rest ih =>
    rw [List.map_cons, timesIn_cons, timesIn_cons, ih]
    by_cases h : x = a
    · simp [h]
    · have : f x ≠ f a := fun e => h (hf e)
      simp [h, this]

theorem timesIn_filter {α : Type} [DecidableEq α] (q : α → Bool) (a : α) (l : List α) :
    timesIn a (l.filter q) = if q a = true then timesIn a l else 0 := by
  induction l with
  | nil => simp [timesIn]
  | cons x rest ih =>
    rw [List.filter_cons]
    by_cases hq : q x = true
    · rw [if_pos hq, timesIn_cons, timesIn_cons, ih]
      by_cases h : x = a
      · subst h
        simp [hq]
      · simp [h]
    · rw [if_neg hq, ih, timesIn_cons]
      by_cases h : x = a
      · subst h
        simp [hq]
      · simp [h]

theorem timesIn_eq_zero {α : Type} [DecidableEq α] (a : α) (l : List α) (h : a ∉ l) :
    timesIn a l = 0 := by
  induction l with
  | nil => rfl
  | cons x rest ih =>
    rw [timesIn_cons, ih (fun hm => h (List.mem_cons_of_mem _ hm))]
    have : x ≠ a := fun e => h (by rw [e]; exact List.mem_cons_self _ _)
    simp [this]

theorem timesIn_nodup {α : Type} [DecidableEq α] (a : α) (l : List α) (hnd : l.Nodup)
    (h : a ∈ l) : timesIn a l = 1 := by
  induction l with
  | nil => simp at h
  | cons x rest ih =>
    rw [timesIn_cons]
    have hnd2 := List.nodup_cons.mp hnd
    rcases List.mem_cons.mp h with hx | hx
    · subst hx
      rw [timesIn_eq_zero _ _ hnd2.1]
      simp
    · have : x ≠ a := fun e => hnd2.1 (e ▸ hx)
      rw [ih hnd2.2 hx]
      simp [this]

theorem releaseEvents_count (host : Host) (p : StrModule × Int) :
    timesIn (Event.releaseObjectFlags (globalIdxInt p.2 p.1) 0xF1) (releaseEvents host p) = 1 ∧
    timesIn (Event.releaseObject (globalIdxInt p.2 p.1)) (releaseEvents host p) = 1 ∧
    ∀ e ∈ releaseEvents host p, e.isRemoveSlot = false := by
  unfold releaseEvents
  generalize isModule (host.getStreamingModule "ytyp".toList) p.1 = b
  cases b
  · refine ⟨by simp [timesIn_cons, timesIn], by simp [timesIn_cons, timesIn], ?_⟩
    intro e he
    simp at he
    rcases he with he | he <;> (subst he; rfl)
  · refine ⟨by simp [timesIn_cons, timesIn], by simp [timesIn_cons, timesIn], ?_⟩
    intro e he
    simp at he
    rcases he with he | he | he | he <;> (subst he; rfl)

/-- C25: the shutdown handler completes when no mounter faults and every listed file has a `/`,
and whenever it completes its two loops over `g_pendingRemovals` do this. The first loop runs, for
every pending slot in set order, one block of host calls that holds `ReleaseObject(index, 0xF1)`
once and `ReleaseObject(index)` once and no `RemoveSlot`. The second loop is one `RemoveSlot` call
for every pending slot that is not of the nav-mesh store or the static-bounds store, in set order,
and nothing else: `RemoveSlot(module, idx)` is called as often as the pair is in the set (once,
the set having no duplicates) when the module is neither of the two, and never otherwise. -/
theorem C25_remove_slot_per_pending (host : Host) (s : State) :
    (NoFault host → ListedFilesHaveSlash s → ∃ s', OnShutdownSession host s = some s') ∧
    ∀ s', OnShutdownSession host s = some s' →
      ∃ s3 phaseA phaseB, shutdownUnregister host s = some s3 ∧
        s'.trace = s3.trace ++ phaseA ++ phaseB ∧
        phaseA = s3.g_pendingRemovals.flatMap (releaseEvents host) ∧
        (∀ p, timesIn (Event.releaseObjectFlags (globalIdxInt p.2 p.1) 0xF1)
            (releaseEvents host p) = 1 ∧
          timesIn (Event.releaseObject (globalIdxInt p.2 p.1)) (releaseEvents host p) = 1 ∧
          ∀ e ∈ releaseEvents host p, e.isRemoveSlot = false) ∧
        phaseB = (s3.g_pendingRemovals.filter (fun p => !keptAllocated host p)).map
          (fun p => Event.removeSlot p.1 p.2) ∧
        (∀ p, timesIn (Event.removeSlot p.1 p.2) phaseB =
          if keptAllocated host p = true then 0 else timesIn p s3.g_pendingRemovals) ∧
        (s3.g_pendingRemovals.Nodup → ∀ p ∈ s3.g_pendingRemovals, keptAllocated host p = false →
          timesIn (Event.removeSlot p.1 p.2) phaseB = 1) := by
  refine ⟨fun hok hs => OnShutdownSession_isSome host hok s hs, ?_⟩
  intro s' h
  obtain ⟨s3, h3, ht⟩ := OnShutdownSession_trace host s s' h
  have hcount : ∀ p, timesIn (Event.removeSlot p.1 p.2)
      ((s3.g_pendingRemovals.filter (fun p => !keptAllocated host p)).map
        (fun p => Event.removeSlot p.1 p.2)) =
      if keptAllocated host p = true then 0 else timesIn p s3.g_pendingRemovals := by
    intro p
    have hinj := timesIn_map_injective
      (fun p : StrModule × Int => Event.removeSlot p.1 p.2) removeSlot_injective p
      (s3.g_pendingRemovals.filter (fun p => !keptAllocated host p))
    rw [hinj, timesIn_filter]
    cases hk : keptAllocated host p <;> simp
  refine ⟨s3, _, _, h3, ?_, rfl, fun p => releaseEvents_count host p, rfl, hcount, ?_⟩
  · rw [ht, flatMap_removeEvents]
  · intro hnd p hp hk
    rw [hcount p, hk, if_neg (by simp)]
    exact timesIn_nodup p _ hnd hp

/-- C25, at the demo session: of the three pending slots the one of the static-bounds store is
released like the others and gets no `RemoveSlot`. -/
theorem C25_remove_slot_per_pending_witness :
    NoFault demoHost ∧ ListedFilesHaveSlash demoSession ∧
    OnShutdownSession demoHost demoSession = some demoShutdown ∧
    demoUnregistered.g_pendingRemovals = [(⟨1, 100⟩, 4), (⟨2, 200⟩, 53), (⟨4, 400⟩, 56)] ∧
    demoUnregistered.g_pendingRemovals.map (keptAllocated demoHost) = [false, true, false] ∧
    ∃ s3 phaseA phaseB, shutdownUnregister demoHost demoSession = some s3 ∧
      demoShutdown.trace = s3.trace ++ phaseA ++ phaseB ∧
      phaseA = s3.g_pendingRemovals.flatMap (releaseEvents demoHost) ∧
      (∀ p, timesIn (Event.releaseObjectFlags (globalIdxInt p.2 p.1) 0xF1)
          (releaseEvents demoHost p) = 1 ∧
        timesIn (Event.releaseObject (globalIdxInt p.2 p.1)) (releaseEvents demoHost p) = 1 ∧
        ∀ e ∈ releaseEvents demoHost p, e.isRemoveSlot = false) ∧
      phaseB = (s3.g_pendingRemovals.filter (fun p => !keptAllocated demoHost p)).map
        (fun p => Event.removeSlot p.1 p.2) ∧
      (∀ p, timesIn (Event.removeSlot p.1 p.2) phaseB =
        if keptAllocated demoHost p = true then 0 else timesIn p s3.g_pendingRemovals) ∧
      (s3.g_pendingRemovals.Nodup → ∀ p ∈ s3.g_pendingRemovals,
        keptAllocated demoHost p = false → timesIn (Event.removeSlot p.1 p.2) phaseB = 1) :=
  ⟨demoHost_noFault, by decide!, isSome_eq_some_getD _ _ (by decide!), by decide!, by decide!,
    (C25_remove_slot_per_pending demoHost demoSession).2 demoShutdown
      (isSome_eq_some_getD _ _ (by decide!))⟩

/-! ## The request loop of `ReloadMapStore` -/

theorem reloadBatch_eq (batch : List (Str × Nat)) (s : State) :
    reloadBatch batch s = { s with trace := s.trace ++ batchEvents batch } := by
  simp only [reloadBatch, foldl_emit, batchEvents]
  simp [State.emit]

theorem foldl_reloadBatch (bs : List (List (Str × Nat))) (s : State) :
    bs.foldl (fun st batch => reloadBatch batch st) s =
      { s with trace := s.trace ++ bs.flatMap batchEvents } := by
  induction bs generalizing s with
  | nil => simp
  | cons b bs ih =>
    rw [List.foldl_cons, ih, reloadBatch_eq]
    simp

theorem batches_cons4 {α : Type} (a b c d : α) (rest : List α) :
    batches (a :: b :: c :: d :: rest) = [a, b, c, d] :: batches rest := by
  rw [batches]

/-- The batches are the list cut into consecutive pieces of four, the last piece shorter when the
length is not a multiple of four. -/
theorem batches_spec {α : Type} (l : List α) :
    (batches l).flatten = l ∧ (∀ b ∈ batches l, 0 < b.length ∧ b.length ≤ 4) ∧
    (batches l).length = (l.length + 3) / 4 := by
  suffices hn : ∀ n (l : List α), l.length ≤ n →
      (batches l).flatten = l ∧ (∀ b ∈ batches l, 0 < b.length ∧ b.length ≤ 4) ∧
      (batches l).length = (l.length + 3) / 4 from hn l.length l (Nat.le_refl _)
  intro n
  induction n using Nat.strong_induction_on with
  | _ n ih =>
    intro l hl
    match l, hl with
    | [], _ => exact ⟨rfl, by simp [batches], by simp [batches]⟩
    | [a], _ => exact ⟨rfl, by simp [batches], by simp [batches]⟩
    | [a, b], _ => exact ⟨rfl, by simp [batches], by simp [batches]⟩
    | [a, b, c], _ => exact ⟨rfl, by simp [batches], by simp [batches]⟩
    | a :: b :: c :: d :: rest, hl =>
      simp only [List.length_cons] at hl
      obtain ⟨i1, i2, i3⟩ := ih rest.length (by omega) rest (Nat.le_refl _)
      rw [batches_cons4]
      refine ⟨?_, ?_, ?_⟩
      · rw [List.flatten_cons, i1]
        rfl
      · intro x hx
        rcases List.mem_cons.mp hx with hx | hx
        · subst hx
          exact ⟨by simp, by simp⟩
        · exact i2 x hx
      · simp only [List.length_cons, i3]
        omega

theorem outstanding_append (a b : List Event) :
    outstanding (a ++ b) = outstanding a + outstanding b := by
  induction a with
  | nil => simp [outstanding]
  | cons e rest ih =>
    cases e <;> simp [outstanding, ih] <;> omega

theorem outstanding_take_requests (b : List (Str × Nat)) (k : Nat) :
    0 ≤ outstanding ((b.map (fun f => Event.requestObject f.2 0)).take k) ∧
    outstanding ((b.map (fun f => Event.requestObject f.2 0)).take k) ≤ b.length := by
  induction b generalizing k with
  | nil => simp [outstanding]
  | cons f rest ih =>
    cases k with
    | zero =>
      simp only [List.take_zero, outstanding, List.length_cons]
      constructor
      · omega
      · push_cast
        omega
    | succ k =>
      have := ih k
      simp only [List.map_cons, List.take_succ_cons, outstanding, List.length_cons]
      constructor
      · omega
      · push_cast
        omega

theorem outstanding_requests (b : List (Str × Nat)) :
    outstanding (b.map (fun f => Event.requestObject f.2 0)) = b.length := by
  induction b with
  | nil => rfl
  | cons f rest ih =>
    simp only [List.map_cons, outstanding, ih, List.length_cons]
    push_cast
    rfl

theorem outstanding_take_releases (b : List (Str × Nat)) (k : Nat) :
    -(b.length : Int) ≤ outstanding ((b.map (fun f => Event.releaseObject f.2)).take k) ∧
    outstanding ((b.map (fun f => Event.releaseObject f.2)).take k) ≤ 0 := by
  induction b generalizing k with
  | nil => simp [outstanding]
  | cons f rest ih =>
    cases k with
    | zero =>
      simp only [List.take_zero, outstanding, List.length_cons]
      constructor
      · push_cast
        omega
      · omega
    | succ k =>
      have := ih k
      simp only [List.map_cons, List.take_succ_cons, outstanding, List.length_cons]
      constructor
      · push_cast
        omega
      · omega

theorem outstanding_releases (b : List (Str × Nat)) :
    outstanding (b.map (fun f => Event.releaseObject f.2)) = -(b.length : Int) := by
  induction b with
  | nil => rfl
  | cons f rest ih =>
    simp only [List.map_cons, outstanding, ih, List.length_cons]
    push_cast
    omega

theorem outstanding_batchEvents (b : List (Str × Nat)) : outstanding (batchEvents b) = 0 := by
  unfold batchEvents
  rw [outstanding_append, outstanding_requests]
  simp only [outstanding, outstanding_releases]
  omega

/-- Within one batch the number of outstanding requests is never above the size of the batch. -/
theorem outstanding_take_batchEvents (b : List (Str × Nat)) (k : Nat) :
    0 ≤ outstanding ((batchEvents b).take k) ∧
    outstanding ((batchEvents b).take k) ≤ b.length := by
  unfold batchEvents
  rw [List.take_append_eq_append_take, outstanding_append]
  by_cases hk : k ≤ (b.map (fun f => Event.requestObject f.2 0)).length
  · have h0 : k - (b.map (fun f => Event.requestObject f.2 0)).length = 0 := by omega
    rw [h0]
    have := outstanding_take_requests b k
    simp only [List.take_zero, outstanding]
    omega
  · have hfull : (b.map (fun f => Event.requestObject f.2 0)).take k =
        b.map (fun f => Event.requestObject f.2 0) :=
      List.take_of_length_le (by omega)
    rw [hfull, outstanding_requests]
    cases hj : k - (b.map (fun f => Event.requestObject f.2 0)).length with
    | zero => omega
    | succ j =>
      have := outstanding_take_releases b j
      simp only [List.take_succ_cons, outstanding]
      omega

theorem outstanding_take_flatMap (bs : List (List (Str × Nat)))
    (hbs : ∀ b ∈ bs, b.length ≤ 4) (k : Nat) :
    0 ≤ outstanding ((bs.flatMap batchEvents).take k) ∧
    outstanding ((bs.flatMap batchEvents).take k) ≤ 4 := by
  induction bs generalizing k with
  | nil => simp [outstanding]
  | cons b rest ih =>
    have hb : b.length ≤ 4 := hbs b (List.mem_cons_self _ _)
    have hrest := ih (fun x hx => hbs x (List.mem_cons_of_mem _ hx))
    rw [List.flatMap_cons, List.take_append_eq_append_take, outstanding_append]
    by_cases hk : k ≤ (batchEvents b).length
    · have h0 : k - (batchEvents b).length = 0 := by omega
      rw [h0]
      have := outstanding_take_batchEvents b k
      simp only [List.take_zero, outstanding]
      omega
    · rw [List.take_of_length_le (by omega), outstanding_batchEvents]
      have := hrest (k - (batchEvents b).length)
      omega

theorem requested_append (a b : List Event) : requested (a ++ b) = requested a ++ requested b := by
  simp [requested]

theorem released_append (a b : List Event) : released (a ++ b) = released a ++ released b := by
  simp [released]

theorem timesIn_append {α : Type} [DecidableEq α] (a : α) (l l' : List α) :
    timesIn a (l ++ l') = timesIn a l + timesIn a l' := by
  simp [timesIn]

theorem requested_map (b : List (Str × Nat)) :
    requested (b.map (fun f => Event.requestObject f.2 0)) = b.map (fun f => f.2) ∧
    requested (b.map (fun f => Event.releaseObject f.2)) = [] ∧
    released (b.map (fun f => Event.requestObject f.2 0)) = [] ∧
    released (b.map (fun f => Event.releaseObject f.2)) = b.map (fun f => f.2) := by
  induction b with
  | nil => exact ⟨rfl, rfl, rfl, rfl⟩
  | cons f rest ih =>
    obtain ⟨i1, i2, i3, i4⟩ := ih
    unfold requested released at *
    simp [List.filterMap_cons, i1, i2, i3, i4]

theorem timesIn_loadObjectsNow_map (b : List (Str × Nat)) :
    timesIn Event.loadObjectsNow (b.map (fun f => Event.requestObject f.2 0)) = 0 ∧
    timesIn Event.loadObjectsNow (b.map (fun f => Event.releaseObject f.2)) = 0 := by
  constructor
  · apply timesIn_eq_zero
    intro h
    obtain ⟨f, _, hf⟩ := List.mem_map.mp h
    exact absurd hf (by simp)
  · apply timesIn_eq_zero
    intro h
    obtain ⟨f, _, hf⟩ := List.mem_map.mp h
    exact absurd hf (by simp)

theorem batchEvents_calls (b : List (Str × Nat)) :
    requested (batchEvents b) = b.map (fun f => f.2) ∧
    released (batchEvents b) = b.map (fun f => f.2) ∧
    timesIn Event.loadObjectsNow (batchEvents b) = 1 := by
  obtain ⟨r1, r2, r3, r4⟩ := requested_map b
  obtain ⟨t1, t2⟩ := timesIn_loadObjectsNow_map b
  have e : batchEvents b = b.map (fun f => Event.requestObject f.2 0) ++
      ([Event.loadObjectsNow] ++ b.map (fun f => Event.releaseObject f.2)) := rfl
  rw [e]
  refine ⟨?_, ?_, ?_⟩
  · rw [requested_append, requested_append, r1, r2]
    simp [requested]
  · rw [released_append, released_append, r3, r4]
    simp [released]
  · rw [timesIn_append, timesIn_append, t1, t2]
    rfl

theorem flatMap_batchEvents_calls (bs : List (List (Str × Nat))) :
    requested (bs.flatMap batchEvents) = bs.flatten.map (fun f => f.2) ∧
    released (bs.flatMap batchEvents) = bs.flatten.map (fun f => f.2) ∧
    timesIn Event.loadObjectsNow (bs.flatMap batchEvents) = bs.length := by
  induction bs with
  | nil => exact ⟨rfl, rfl, rfl⟩
  | cons b rest ih =>
    obtain ⟨i1, i2, i3⟩ := ih
    obtain ⟨b1, b2, b3⟩ := batchEvents_calls b
    rw [List.flatMap_cons, requested_append, released_append, timesIn_append, i1, i2, i3, b1, b2,
      b3, List.flatten_cons, List.map_append, List.length_cons]
    exact ⟨rfl, rfl, by omega⟩

theorem reloadCollisions_trace (host : Host) (s : State) :
    ∃ tail, (∀ e ∈ tail, e.isStreamerCall = false) ∧
      reloadCollisions host s =
        { s with
          loadedCollisions := []
          trace := s.trace ++ (batches (collisionFiles host s)).flatMap batchEvents ++ tail } := by
  unfold reloadCollisions
  dsimp only
  rw [foldl_reloadBatch]
  cases hb : host.buildAbove2189
  · refine ⟨[Event.onReloadMapStore, Event.reloadMapStoreNative, Event.clearContentCache],
      ?_, ?_⟩
    · intro e he
      simp at he
      rcases he with he | he | he <;> (subst he; rfl)
    · simp [State.emit]
  · refine ⟨[Event.onReloadMapStore, Event.disableContentGroup 0xBCC89179,
      Event.onReloadMapStore, Event.enableContentGroup 0xBCC89179, Event.clearContentCache],
      ?_, ?_⟩
    · intro e he
      simp at he
      rcases he with he | he | he | he | he <;> (subst he; rfl)
    · simp [State.emit]

theorem mountGtxdFiles_quiet (host : Host) (l : List Str) (s s' : State)
    (h : mountGtxdFiles host l s = some s') :
    ∃ evs, (∀ e ∈ evs, e.isStreamerCall = false) ∧ s'.trace = s.trace ++ evs := by
  induction l generalizing s with
  | nil =>
    simp only [mountGtxdFiles] at h
    injection h with h
    subst h
    exact ⟨[], by simp, by simp⟩
  | cons file rest ih =>
    simp only [mountGtxdFiles] at h
    split at h
    · exact absurd h (by simp)
    · rename_i mounter _
      split at h
      · exact absurd h (by simp)
      · rename_i r hr
        obtain ⟨evs, hq, hs⟩ := ih r.2 h
        have hf := MountFile_frame host _ _ _ r hr
        refine ⟨Event.mountFile mounter
            ⟨file, LookupDataFileType host "GTXD_PARENTING_DATA".toList⟩ :: evs, ?_, ?_⟩
        · intro e he
          rcases List.mem_cons.mp he with he | he
          · subst he
            rfl
          · exact hq e he
        · rw [hs, hf]
          simp [State.emit]

/-- C26: `ReloadMapStore` with its flag set completes when no mounter faults and the gtxd files
are mountable, and whenever it completes the host calls it adds to the trace start with the calls
of the request loop: for each consecutive group of at most four of the selected collision files,
in list order, `RequestObject` for each file, one `LoadObjectsNow`, `ReleaseObject` for each file;
what follows holds none of these three calls. The groups put together are the list, the requested
and the released indexes are those of the selected files in list order (each once),
`LoadObjectsNow` is called `ceil(n/4)` times, and at every point of the loop between 0 and 4
requests are outstanding. -/
theorem C26_reload_in_batches_of_four (host : Host) (s : State)
    (hflag : s.g_reloadMapStore = true) :
    (NoFault host → GtxdMountable host s → ∃ s', ReloadMapStore host s = some s') ∧
    ∀ s', ReloadMapStore host s = some s' →
      ∃ tail, s'.trace =
          s.trace ++ (batches (collisionFiles host s)).flatMap batchEvents ++ tail ∧
        (∀ e ∈ tail, e.isStreamerCall = false) ∧
        (batches (collisionFiles host s)).flatten = collisionFiles host s ∧
        (∀ b ∈ batches (collisionFiles host s), 0 < b.length ∧ b.length ≤ 4) ∧
        requested ((batches (collisionFiles host s)).flatMap batchEvents) =
          (collisionFiles host s).map (fun f => f.2) ∧
        released ((batches (collisionFiles host s)).flatMap batchEvents) =
          (collisionFiles host s).map (fun f => f.2) ∧
        timesIn Event.loadObjectsNow ((batches (collisionFiles host s)).flatMap batchEvents) =
          ((collisionFiles host s).length + 3) / 4 ∧
        ∀ k, 0 ≤ outstanding (((batches (collisionFiles host s)).flatMap batchEvents).take k) ∧
          outstanding (((batches (collisionFiles host s)).flatMap batchEvents).take k) ≤ 4 := by
  refine ⟨fun hok hg => ReloadMapStore_isSome host hok s hg, ?_⟩
  intro s' h
  obtain ⟨b1, b2, b3⟩ := batches_spec (collisionFiles host s)
  obtain ⟨c1, c2, c3⟩ := flatMap_batchEvents_calls (batches (collisionFiles host s))
  unfold ReloadMapStore at h
  rw [if_neg (by simp [hflag])] at h
  split at h
  · exact absurd h (by simp)
  · rename_i s5 h5
    injection h with h
    subst h
    obtain ⟨t1, hq1, h1⟩ := reloadCollisions_trace host s
    obtain ⟨t2, hq2, h2⟩ := mountGtxdFiles_quiet host _ _ s5 h5
    refine ⟨t1 ++ t2, ?_, ?_, b1, b2, ?_, ?_, ?_, ?_⟩
    · show s5.trace = _
      rw [h2, h1]
      simp
    · intro e he
      rcases List.mem_append.mp he with he | he
      · exact hq1 e he
      · exact hq2 e he
    · rw [c1, b1]
    · rw [c2, b1]
    · rw [c3, b3]
    · exact fun k => outstanding_take_flatMap _ (fun b hb => (b2 b hb).2) k

/-- C26, with six collision files selected: they are requested in a group of four and a group of
two, with `LoadObjectsNow` called twice. -/
theorem C26_reload_in_batches_of_four_witness :
    NoFault collisionHost ∧ GtxdMountable collisionHost demoCollisions ∧
    (collisionFiles collisionHost demoCollisions).map (fun f => f.2) =
      [205, 206, 207, 208, 209, 210] ∧
    ReloadMapStore collisionHost demoCollisions = some demoCollisionsReloaded ∧
    demoCollisionsReloaded.trace.take 14 =
      [Event.requestObject 205 0, Event.requestObject 206 0, Event.requestObject 207 0,
       Event.requestObject 208 0, Event.loadObjectsNow,
       Event.releaseObject 205, Event.releaseObject 206, Event.releaseObject 207,
       Event.releaseObject 208,
       Event.requestObject 209 0, Event.requestObject 210 0, Event.loadObjectsNow,
       Event.releaseObject 209, Event.releaseObject 210] ∧
    ∃ tail, demoCollisionsReloaded.trace =
        demoCollisions.trace ++
          (batches (collisionFiles collisionHost demoCollisions)).flatMap batchEvents ++ tail ∧
      (∀ e ∈ tail, e.isStreamerCall = false) ∧
      (batches (collisionFiles collisionHost demoCollisions)).flatten =
        collisionFiles collisionHost demoCollisions ∧
      (∀ b ∈ batches (collisionFiles collisionHost demoCollisions), 0 < b.length ∧ b.length ≤ 4) ∧
      requested ((batches (collisionFiles collisionHost demoCollisions)).flatMap batchEvents) =
        (collisionFiles collisionHost demoCollisions).map (fun f => f.2) ∧
      released ((batches (collisionFiles collisionHost demoCollisions)).flatMap batchEvents) =
        (collisionFiles collisionHost demoCollisions).map (fun f => f.2) ∧
      timesIn Event.loadObjectsNow
          ((batches (collisionFiles collisionHost demoCollisions)).flatMap batchEvents) =
        ((collisionFiles collisionHost demoCollisions).length + 3) / 4 ∧
      ∀ k, 0 ≤ outstanding
            (((batches (collisionFiles collisionHost demoCollisions)).flatMap batchEvents).take k) ∧
        outstanding
            (((batches (collisionFiles collisionHost demoCollisions)).flatMap batchEvents).take k) ≤
          4 :=
  ⟨fun _ _ _ => ⟨rfl, rfl⟩, Or.inr (by decide!), by decide!,
    isSome_eq_some_getD _ _ (by decide!), by decide!,
    (C26_reload_in_batches_of_four collisionHost demoCollisions rfl).2 demoCollisionsReloaded
      (isSome_eq_some_getD _ _ (by decide!))⟩

/-! ## Front = currently active -/

/-- The push branch on a slot other than `-1`: the handle of the file is the front of the stack of
the slot and its live handle; no other stack changes. -/
theorem pushOverride_front (host : Host) (file tag : Str) (m : StrModule) (strId : Nat)
    (s : State) (h : strId ≠ NO_SLOT) :
    (pushOverride host file tag m strId s).g_handleStack (globalIdx strId m) ≠ [] ∧
    ((pushOverride host file tag m strId s).g_handleStack (globalIdx strId m)).head? =
      some ((pushOverride host file tag m strId s).host.handle (globalIdx strId m)) ∧
    ∀ i, i ≠ globalIdx strId m →
      (pushOverride host file tag m strId s).g_handleStack i = s.g_handleStack i := by
  unfold pushOverride
  rw [if_pos h]
  dsimp only
  refine ⟨?_, ?_, ?_⟩
  · rw [Function.update_same]
    exact List.cons_ne_nil _ _
  · rw [Function.update_same, Function.update_same]
    rfl
  · intro i hi
    rw [Function.update_noteq hi]

/-- The push branch on the slot `-1` does nothing. -/
theorem pushOverride_noSlot (host : Host) (file tag : Str) (m : StrModule) (s : State) :
    pushOverride host file tag m NO_SLOT s = s := by
  unfold pushOverride
  rw [if_neg (by simp)]

/-- The registration branch when the host returns a slot: the handle the host gave the slot is the
front of its stack; no other stack changes. -/
theorem registerNew_front (host : Host) (file tag baseName : Str) (s : State)
    (h : (RegisterRawStreamingFile host s.host file baseName).1 ≠ NO_SLOT) :
    (registerNew host file tag baseName s).g_handleStack
      (RegisterRawStreamingFile host s.host file baseName).1 ≠ [] ∧
    ((registerNew host file tag baseName s).g_handleStack
      (RegisterRawStreamingFile host s.host file baseName).1).head? =
      some ((registerNew host file tag baseName s).host.handle
        (RegisterRawStreamingFile host s.host file baseName).1) ∧
    ∀ i, i ≠ (RegisterRawStreamingFile host s.host file baseName).1 →
      (registerNew host file tag baseName s).g_handleStack i = s.g_handleStack i := by
  unfold registerNew
  dsimp only
  rw [if_pos h]
  dsimp only [State.emit]
  refine ⟨?_, ?_, ?_⟩
  · split <;>
    · dsimp only
      rw [Function.update_same]
      exact List.cons_ne_nil _ _
  · split <;>
    · dsimp only
      rw [Function.update_same]
      rfl
  · intro i hi
    split <;>
    · dsimp only
      rw [Function.update_noteq hi]

/-- The registration branch when the host returns `-1`: no stack changes. -/
theorem registerNew_failed (host : Host) (file tag baseName : Str) (s : State)
    (h : (RegisterRawStreamingFile host s.host file baseName).1 = NO_SLOT) :
    (registerNew host file tag baseName s).g_handleStack = s.g_handleStack := by
  unfold registerNew
  dsimp only
  rw [if_neg (by rw [h]; simp)]
  rfl

/-- One apply, either branch: a slot whose handle stack the apply changed has its live handle at
the front of the stack. -/
theorem applyToSlot_front (host : Host) (file tag baseName : Str) (m : StrModule) (strId : Nat)
    (s : State) (i : Nat)
    (hi : (applyToSlot host file tag baseName m strId s).g_handleStack i ≠ s.g_handleStack i) :
    ((applyToSlot host file tag baseName m strId s).g_handleStack i).head? =
      some ((applyToSlot host file tag baseName m strId s).host.handle i) := by
  unfold applyToSlot at hi ⊢
  dsimp only at hi ⊢
  split at hi
  · rename_i hlive
    rw [if_pos hlive]
    by_cases hs : strId = NO_SLOT
    · subst hs
      rw [pushOverride_noSlot] at hi
      exact absurd rfl hi
    · have hp := pushOverride_front host file tag m strId
        { s with
          g_ourIndexes := Function.update s.g_ourIndexes (globalIdx strId m) true
          g_pendingRemovals := setErase (m, toInt32 strId) s.g_pendingRemovals } hs
      by_cases hg : i = globalIdx strId m
      · subst hg
        exact hp.2.1
      · exact absurd (hp.2.2 i hg) hi
  · rename_i hlive
    rw [if_neg hlive]
    by_cases hr : (RegisterRawStreamingFile host s.host file baseName).1 = NO_SLOT
    · have hf := registerNew_failed host file tag baseName
        { s with
          g_ourIndexes := Function.update s.g_ourIndexes (globalIdx strId m) true
          g_pendingRemovals := setErase (m, toInt32 strId) s.g_pendingRemovals } hr
      rw [hf] at hi
      exact absurd rfl hi
    · have hp := registerNew_front host file tag baseName
        { s with
          g_ourIndexes := Function.update s.g_ourIndexes (globalIdx strId m) true
          g_pendingRemovals := setErase (m, toInt32 strId) s.g_pendingRemovals } hr
      by_cases hg : i = (RegisterRawStreamingFile host s.host file baseName).1
      · subst hg
        exact hp.2.1
      · exact absurd (hp.2.2 i hg) hi

theorem applyToModule_front (host : Host) (file tag baseName ext : Str) (m : StrModule)
    (s : State) (i : Nat)
    (hi : (applyToModule host file tag baseName ext m s).g_handleStack i ≠ s.g_handleStack i) :
    ((applyToModule host file tag baseName ext m s).g_handleStack i).head? =
      some ((applyToModule host file tag baseName ext m s).host.handle i) := by
  unfold applyToModule at hi ⊢
  dsimp only at hi ⊢
  split at hi
  · rename_i hnone
    rw [if_pos hnone]
    split at hi
    · rename_i hgfx
      rw [if_pos hgfx]
      exact applyToSlot_front host file tag baseName m _ _ i hi
    · rename_i hgfx
      rw [if_neg hgfx]
      exact applyToSlot_front host file tag baseName m _ _ i hi
  · rename_i hnone
    rw [if_neg hnone]
    exact applyToSlot_front host file tag baseName m _ _ i hi

theorem applyRegistration_front (host : Host) (file tag baseName ext : Str) (s : State) (i : Nat)
    (hi : (applyRegistration host file tag baseName ext s).g_handleStack i ≠ s.g_handleStack i) :
    ((applyRegistration host file tag baseName ext s).g_handleStack i).head? =
      some ((applyRegistration host file tag baseName ext s).host.handle i) := by
  unfold applyRegistration at hi ⊢
  cases hm : host.getStreamingModule ext with
  | none =>
    rw [hm] at hi
    dsimp only at hi
    split at hi <;> exact absurd rfl hi
  | some m =>
    rw [hm] at hi
    dsimp only at hi ⊢
    split at hi <;> exact applyToModule_front host file tag baseName ext m s i hi

/-- One iteration of the loop of `LoadStreamingFiles`: a slot whose handle stack the iteration
changed has its live handle at the front of the stack. -/
theorem loadStreamingFile_front (host : Host) (loadType : LoadType) (reg : Str × Str)
    (s : State) (i : Nat)
    (hi : (loadStreamingFile host loadType reg s).2.g_handleStack i ≠ s.g_handleStack i) :
    ((loadStreamingFile host loadType reg s).2.g_handleStack i).head? =
      some ((loadStreamingFile host loadType reg s).2.host.handle i) := by
  unfold loadStreamingFile at hi ⊢
  dsimp only at hi ⊢
  split at hi
  · exact absurd rfl hi
  · rename_i hphase
    rw [if_neg hphase]
    cases h1 : afterLast '/' reg.1 with
    | none =>
      rw [h1] at hi
      exact absurd rfl hi
    | some afterSlash =>
      rw [h1] at hi
      dsimp only at hi ⊢
      cases h2 : afterLast '.' (GetBaseName host afterSlash) with
      | none =>
        rw [h2] at hi
        exact absurd rfl hi
      | some ext =>
        rw [h2] at hi
        dsimp only at hi ⊢
        split at hi
        · exact absurd rfl hi
        · rename_i hrpf
          rw [if_neg hrpf]
          split at hi
          · exact absurd rfl hi
          · rename_i hdef
            rw [if_neg hdef]
            exact applyRegistration_front host reg.1 reg.2 _ ext s i hi

/-- The body of `CfxCollection_RemoveStreamingTag` for a found slot: the slot has front = live
afterwards, and every other slot keeps its stack and its live handle. -/
theorem removeFromSlot_front (host : Host) (file baseName : Str) (m : StrModule) (strId : Nat)
    (s : State) :
    FrontIsLive (removeFromSlot host file baseName m strId s) (globalIdx strId m) ∧
    ∀ i, i ≠ globalIdx strId m →
      (removeFromSlot host file baseName m strId s).g_handleStack i = s.g_handleStack i ∧
      (removeFromSlot host file baseName m strId s).host.handle i = s.host.handle i := by
  refine ⟨?_, ?_⟩
  · unfold FrontIsLive
    rw [removeFromSlot_handleStack, removeFromSlot_handle, Function.update_same,
      Function.update_same]
    intro hne
    cases hl : eraseHandle (removeHandle host file) (s.g_handleStack (globalIdx strId m)) with
    | nil => exact absurd hl hne
    | cons a l => rfl
  · intro i hi
    rw [removeFromSlot_handleStack, removeFromSlot_handle, Function.update_noteq hi,
      Function.update_noteq hi]
    exact ⟨rfl, rfl⟩

/-- The loop body of `CfxCollection_RemoveStreamingTag`: every slot either keeps stack and live
handle or has front = live afterwards. -/
theorem removeStreamingFile_front (host : Host) (file : Str) (s s' : State)
    (h : removeStreamingFile host file s = some s') (i : Nat) :
    (s'.g_handleStack i = s.g_handleStack i ∧ s'.host.handle i = s.host.handle i) ∨
      FrontIsLive s' i := by
  rcases removeStreamingFile_cases host file s s' h with ⟨heq, _⟩ | ⟨b, m, strId, _, heq⟩
  · subst heq
    exact Or.inl ⟨rfl, rfl⟩
  · subst heq
    by_cases hi : i = globalIdx strId m
    · subst hi
      exact Or.inr (removeFromSlot_front host file b m strId s).1
    · exact Or.inl ((removeFromSlot_front host file b m strId s).2 i hi)

theorem FrontIsLive_congr (s s' : State) (i : Nat)
    (h : s'.g_handleStack i = s.g_handleStack i ∧ s'.host.handle i = s.host.handle i)
    (hf : FrontIsLive s i) : FrontIsLive s' i := by
  unfold FrontIsLive at hf ⊢
  rw [h.1, h.2]
  exact hf

theorem removeStreamingFiles_front (host : Host) (files : List Str) (s s' : State)
    (h : removeStreamingFiles host files s = some s') (i : Nat) :
    (s'.g_handleStack i = s.g_handleStack i ∧ s'.host.handle i = s.host.handle i) ∨
      FrontIsLive s' i := by
  induction files generalizing s with
  | nil =>
    simp only [removeStreamingFiles] at h
    injection h with h
    subst h
    exact Or.inl ⟨rfl, rfl⟩
  | cons f rest ih =>
    simp only [removeStreamingFiles] at h
    split at h
    · exact absurd h (by simp)
    · rename_i s1 h1
      rcases ih s1 h with h2 | h2
      · rcases removeStreamingFile_front host f s s1 h1 i with h3 | h3
        · exact Or.inl ⟨h2.1.trans h3.1, h2.2.trans h3.2⟩
        · exact Or.inr (FrontIsLive_congr s1 s' i h2 h3)
      · exact Or.inr h2

theorem removeStreamingFiles_slot (host : Host) (files : List Str) (s s' : State)
    (h : removeStreamingFiles host files s = some s') : s'.host.slot = s.host.slot := by
  induction files generalizing s with
  | nil =>
    simp only [removeStreamingFiles] at h
    injection h with h
    subst h
    rfl
  | cons f rest ih =>
    simp only [removeStreamingFiles] at h
    split at h
    · exact absurd h (by simp)
    · rename_i s1 h1
      rw [ih s1 h]
      rcases removeStreamingFile_cases host f s s1 h1 with ⟨heq, _⟩ | ⟨b, m, strId, _, heq⟩
      · rw [heq]
      · rw [heq, removeFromSlot_slot]

/-- The loop of `CfxCollection_RemoveStreamingTag`: the slot of every file of the list that
resolves to one has front = live at the end. -/
theorem removeStreamingFiles_touched (host : Host) (files : List Str) (s s' : State)
    (h : removeStreamingFiles host files s = some s') (f : Str) (hf : f ∈ files)
    (p : StrModule × Nat) (hp : resolveSlot host s.host f = some p) :
    FrontIsLive s' (globalIdx p.2 p.1) := by
  induction files generalizing s with
  | nil => exact absurd hf (List.not_mem_nil f)
  | cons g rest ih =>
    simp only [removeStreamingFiles] at h
    split at h
    · exact absurd h (by simp)
    · rename_i s1 h1
      have hslot : s1.host.slot = s.host.slot := by
        rcases removeStreamingFile_cases host g s s1 h1 with ⟨heq, _⟩ | ⟨b, m, strId, _, heq⟩
        · rw [heq]
        · rw [heq, removeFromSlot_slot]
      rcases List.mem_cons.mp hf with hfg | hfr
      · subst hfg
        obtain ⟨b, hb⟩ := removeStreamingFile_of_resolve host f s p hp
        rw [hb] at h1
        injection h1 with h1
        subst h1
        rcases removeStreamingFiles_front host rest _ s' h (globalIdx p.2 p.1) with h2 | h2
        · exact FrontIsLive_congr _ s' _ h2 (removeFromSlot_front host f b p.1 p.2 s).1
        · exact h2
      · exact ih s1 h hfr (by rw [resolveSlot_congr host s.host s1.host f hslot]; exact hp)

/-! ## The claim on the front of the handle stacks -/

/-- C23: front = currently active. (1) The push branch of an apply in `LoadStreamingFiles` (live
handle not zero, slot found) leaves the slot with a non-empty handle stack whose front entry is the
live handle of the slot. (2) The registration branch (live handle zero, the host returns the slot
`fileId`) leaves the slot `fileId` with a non-empty stack whose front entry is its live handle.
(3) In every iteration of the loop of `LoadStreamingFiles`, every slot whose handle stack the
iteration changed has its live handle at the front of the stack. (4)
`CfxCollection_RemoveStreamingTag` returns when every listed file has a `/`, and after it the slot
of every file of the tag that resolves to one has, when its stack is not empty, its live handle at
the front; so has every slot whose stack or live handle the removal changed. -/
theorem C23_front_is_live (host : Host) :
    (∀ file tag baseName m strId s, s.host.handle (globalIdx strId m) ≠ 0 → strId ≠ NO_SLOT →
      (applyToSlot host file tag baseName m strId s).g_handleStack (globalIdx strId m) ≠ [] ∧
      ((applyToSlot host file tag baseName m strId s).g_handleStack (globalIdx strId m)).head? =
        some ((applyToSlot host file tag baseName m strId s).host.handle (globalIdx strId m))) ∧
    (∀ file tag baseName m strId s, s.host.handle (globalIdx strId m) = 0 →
      (RegisterRawStreamingFile host s.host file baseName).1 ≠ NO_SLOT →
      (applyToSlot host file tag baseName m strId s).g_handleStack
        (RegisterRawStreamingFile host s.host file baseName).1 ≠ [] ∧
      ((applyToSlot host file tag baseName m strId s).g_handleStack
        (RegisterRawStreamingFile host s.host file baseName).1).head? =
        some ((applyToSlot host file tag baseName m strId s).host.handle
          (RegisterRawStreamingFile host s.host file baseName).1)) ∧
    (∀ loadType reg s i,
      (loadStreamingFile host loadType reg s).2.g_handleStack i ≠ s.g_handleStack i →
      (loadStreamingFile host loadType reg s).2.g_handleStack i ≠ [] ∧
      FrontIsLive (loadStreamingFile host loadType reg s).2 i) ∧
    ∀ tag s,
      (ListedFilesHaveSlash s → ∃ s', CfxCollection_RemoveStreamingTag host tag s = some s') ∧
      ∀ s', CfxCollection_RemoveStreamingTag host tag s = some s' →
        (∀ f ∈ mapGet s.g_customStreamingFilesByTag tag [], ∀ p,
          resolveSlot host s.host f = some p → FrontIsLive s' (globalIdx p.2 p.1)) ∧
        ∀ i, s'.g_handleStack i ≠ s.g_handleStack i ∨ s'.host.handle i ≠ s.host.handle i →
          FrontIsLive s' i := by
  refine ⟨?_, ?_, ?_, ?_⟩
  · intro file tag baseName m strId s hlive hs
    have hp := pushOverride_front host file tag m strId
      { s with
        g_ourIndexes := Function.update s.g_ourIndexes (globalIdx strId m) true
        g_pendingRemovals := setErase (m, toInt32 strId) s.g_pendingRemovals } hs
    unfold applyToSlot
    dsimp only
    rw [if_pos hlive]
    exact ⟨hp.1, hp.2.1⟩
  · intro file tag baseName m strId s hzero hr
    have hp := registerNew_front host file tag baseName
      { s with
        g_ourIndexes := Function.update s.g_ourIndexes (globalIdx strId m) true
        g_pendingRemovals := setErase (m, toInt32 strId) s.g_pendingRemovals } hr
    unfold applyToSlot
    dsimp only
    rw [if_neg (not_not.mpr hzero)]
    exact ⟨hp.1, hp.2.1⟩
  · intro loadType reg s i hi
    have h := loadStreamingFile_front host loadType reg s i hi
    refine ⟨?_, fun _ => h⟩
    intro hnil
    rw [hnil] at h
    exact absurd h (by simp)
  · intro tag s
    refine ⟨fun hs => ?_, ?_⟩
    · obtain ⟨s', h, _⟩ := RemoveStreamingTag_isSome host tag s hs
      exact ⟨s', h⟩
    · intro s' h
      unfold CfxCollection_RemoveStreamingTag at h
      dsimp only at h
      split at h
      · exact absurd h (by simp)
      · rename_i s1 h1
        injection h with h
        subst h
        refine ⟨?_, ?_⟩
        · intro f hf p hp
          exact removeStreamingFiles_touched host _ _ s1 h1 f hf p hp
        · intro i hi
          rcases removeStreamingFiles_front host _ _ s1 h1 i with h2 | h2
          · rcases hi with hi | hi
            · exact absurd h2.1 hi
            · exact absurd h2.2 hi
          · exact h2

/-- C23 at the demo texture `foo`, which carries the overrides of three tags: the removal of `t1`
leaves the stack `[19118, 777]` and the live handle 19118. -/
theorem C23_front_is_live_witness :
    resolveSlot demoHost demoShared.host "a/foo.ytd".toList = some (⟨1, 100⟩, 3) ∧
    CfxCollection_RemoveStreamingTag demoHost "t1".toList demoShared = some demoSharedRemoved ∧
    demoSharedRemoved.g_handleStack 103 = [19118, 777] ∧
    demoSharedRemoved.host.handle 103 = 19118 ∧
    FrontIsLive demoSharedRemoved (globalIdx 3 ⟨1, 100⟩) :=
  ⟨by decide!, isSome_eq_some_getD _ _ (by decide!), by decide!, by decide!,
    (((C23_front_is_live demoHost).2.2.2 "t1".toList demoShared).2 demoSharedRemoved
      (isSome_eq_some_getD _ _ (by decide!))).1 "a/foo.ytd".toList (by decide!) (⟨1, 100⟩, 3)
      (by decide!)⟩

/-! ## Slots that are ours and slots pending removal -/

/-- The signed index the pending set keeps for a slot gives the same global index as the unsigned
one. -/
theorem globalIdxInt_toInt32 (strId : Nat) (m : StrModule) :
    globalIdxInt (toInt32 strId) m = globalIdx strId m := by
  unfold globalIdxInt globalIdx toInt32
  split <;> omega

/-- Lines 1139-1140 are all an apply does to `g_ourIndexes` and `g_pendingRemovals`. -/
theorem applyToSlot_marks (host : Host) (file tag baseName : Str) (m : StrModule) (strId : Nat)
    (s : State) :
    (applyToSlot host file tag baseName m strId s).g_ourIndexes =
      Function.update s.g_ourIndexes (globalIdx strId m) true ∧
    (applyToSlot host file tag baseName m strId s).g_pendingRemovals =
      setErase (m, toInt32 strId) s.g_pendingRemovals := by
  unfold applyToSlot
  dsimp only
  split
  · unfold pushOverride
    dsimp only
    split <;> exact ⟨rfl, rfl⟩
  · unfold registerNew
    dsimp only [State.emit]
    split
    · split <;> exact ⟨rfl, rfl⟩
    · exact ⟨rfl, rfl⟩

theorem applyToSlot_notOursAndPending (host : Host) (file tag baseName : Str) (m : StrModule)
    (strId : Nat) (s : State) (hinv : NotOursAndPending s) (hd : SlotIndexDistinct s m strId) :
    NotOursAndPending (applyToSlot host file tag baseName m strId s) := by
  obtain ⟨h1, h2⟩ := applyToSlot_marks host file tag baseName m strId s
  intro p hp
  rw [h2] at hp
  unfold setErase at hp
  obtain ⟨hp1, hp2⟩ := List.mem_filter.mp hp
  have hne : p ≠ (m, toInt32 strId) := by simpa using hp2
  rw [h1, Function.update_noteq (hd p hp1 hne)]
  exact hinv p hp1

theorem removeFromSlot_notOursAndPending (host : Host) (file baseName : Str) (m : StrModule)
    (strId : Nat) (s : State) (hinv : NotOursAndPending s) :
    NotOursAndPending (removeFromSlot host file baseName m strId s) := by
  intro p hp
  rw [removeFromSlot_ourIndexes]
  rw [removeFromSlot_pending] at hp
  have hcase : p = (m, toInt32 strId) ∨ p ∈ s.g_pendingRemovals := by
    split at hp
    · exact mem_of_mem_setInsert pendingLt _ _ _ hp
    · exact Or.inr hp
  by_cases hg : globalIdxInt p.2 p.1 = globalIdx strId m
  · rw [hg, Function.update_same]
  · rw [Function.update_noteq hg]
    rcases hcase with hc | hc
    · subst hc
      exact absurd (globalIdxInt_toInt32 strId m) hg
    · exact hinv p hc

theorem removeStreamingFiles_notOursAndPending (host : Host) (files : List Str) (s s' : State)
    (h : removeStreamingFiles host files s = some s') (hinv : NotOursAndPending s) :
    NotOursAndPending s' := by
  induction files generalizing s with
  | nil =>
    simp only [removeStreamingFiles] at h
    injection h with h
    subst h
    exact hinv
  | cons f rest ih =>
    simp only [removeStreamingFiles] at h
    split at h
    · exact absurd h (by simp)
    · rename_i s1 h1
      apply ih s1 h
      rcases removeStreamingFile_cases host f s s1 h1 with ⟨heq, _⟩ | ⟨b, m, strId, _, heq⟩
      · rw [heq]
        exact hinv
      · rw [heq]
        exact removeFromSlot_notOursAndPending host f b m strId s hinv

theorem RemoveStreamingTag_notOursAndPending (host : Host) (tag : Str) (s s' : State)
    (h : CfxCollection_RemoveStreamingTag host tag s = some s') (hinv : NotOursAndPending s) :
    NotOursAndPending s' := by
  unfold CfxCollection_RemoveStreamingTag at h
  dsimp only at h
  split at h
  · exact absurd h (by simp)
  · rename_i s1 h1
    injection h with h
    subst h
    exact removeStreamingFiles_notOursAndPending host _ _ s1 h1 hinv

theorem removeAllTags_notOursAndPending (host : Host) (tags : List Str) (s s' : State)
    (h : removeAllTags host tags s = some s') (hinv : NotOursAndPending s) :
    NotOursAndPending s' := by
  induction tags generalizing s with
  | nil =>
    simp only [removeAllTags] at h
    injection h with h
    subst h
    exact hinv
  | cons t rest ih =>
    simp only [removeAllTags] at h
    split at h
    · exact absurd h (by simp)
    · rename_i s1 h1
      exact ih s1 h (RemoveStreamingTag_notOursAndPending host t s s1 h1 hinv)

theorem UnloadDataFiles_marks (host : Host) (s s' : State) (h : UnloadDataFiles host s = some s') :
    s'.g_ourIndexes = s.g_ourIndexes ∧ s'.g_pendingRemovals = s.g_pendingRemovals := by
  unfold UnloadDataFiles at h
  split at h
  · split at h
    · exact absurd h (by simp)
    · rename_i s1 h1
      injection h with h
      subst h
      have hf := HandleDataFileList_unmount_frame host _ _ s s1 h1
      constructor
      · show s1.g_ourIndexes = _
        rw [hf]
      · show s1.g_pendingRemovals = _
        rw [hf]
  · injection h with h
    subst h
    exact ⟨rfl, rfl⟩

/-- The first part of the shutdown handler, up to the loops over `g_pendingRemovals`. -/
theorem shutdownUnregister_notOursAndPending (host : Host) (s s' : State)
    (h : shutdownUnregister host s = some s') (hinv : NotOursAndPending s) :
    NotOursAndPending s' := by
  unfold shutdownUnregister at h
  dsimp only at h
  split at h
  · exact absurd h (by simp)
  · rename_i s2 h2
    obtain ⟨u1, u2⟩ := UnloadDataFiles_marks host _ s2 h2
    apply removeAllTags_notOursAndPending host _ s2 s' h
    intro p hp
    rw [u1]
    rw [u2] at hp
    exact hinv p hp

theorem Backout_marks (tag : Str) (s : State) :
    (CfxCollection_BackoutStreamingTag tag s).g_ourIndexes = s.g_ourIndexes ∧
    (CfxCollection_BackoutStreamingTag tag s).g_pendingRemovals = s.g_pendingRemovals := by
  unfold CfxCollection_BackoutStreamingTag
  dsimp only [State.emit]
  rw [backout_fold]
  exact ⟨rfl, rfl⟩

/-! ## The claim on slots that are ours and slots pending removal -/

/-- C29, evaluated at a failed slot lookup: on `noSlotHost` the slot 99 of the texture module
(global index 199) is pending removal and not ours, and no slot is both. The next pass of
`LoadStreamingFiles` comes to `b/bar.ybn`: `FindSlot` and `FindSlotFromHashKey` of the
static-bounds module (base index 200) leave `strId = -1`, and line 1139 inserts
`strId + baseIdx = 199` into `g_ourIndexes` without a test of `strId`, while line 1140 erases the
pair `(module, -1)`, which is not in the set. After the pass the index 199 is ours and the slot
`(texture module, 99)` with that index is still pending removal. -/
theorem C29_failed_lookup_marks_pending_slot :
    demoLookupFails.g_pendingRemovals = [(⟨1, 100⟩, 99)] ∧
    globalIdxInt 99 ⟨1, 100⟩ = 199 ∧
    demoLookupFails.g_ourIndexes 199 = false ∧
    NotOursAndPending demoLookupFails ∧
    demoLookupFails.g_customStreamingFiles = [("b/bar.ybn".toList, "t2".toList)] ∧
    noSlotHost.getStreamingModule "ybn".toList = some ⟨2, 200⟩ ∧
    FindSlot demoLookupFails.host ⟨2, 200⟩ "bar".toList = NO_SLOT ∧
    (FindSlotFromHashKey noSlotHost demoLookupFails.host ⟨2, 200⟩ "bar".toList).1 = NO_SLOT ∧
    globalIdx NO_SLOT ⟨2, 200⟩ = 199 ∧
    (LoadStreamingFiles noSlotHost LoadType.AfterSession demoLookupFails).g_ourIndexes 199 =
      true ∧
    (LoadStreamingFiles noSlotHost LoadType.AfterSession demoLookupFails).g_pendingRemovals =
      [(⟨1, 100⟩, 99)] ∧
    (LoadStreamingFiles noSlotHost LoadType.AfterSession demoLookupFails).g_customStreamingFiles =
      [] ∧
    ¬ NotOursAndPending (LoadStreamingFiles noSlotHost LoadType.AfterSession demoLookupFails) :=
  ⟨by decide!, by decide!, by decide!, by decide!, by decide!, by decide!, by decide!,
    by decide!, by decide!, by decide!, by decide!, by decide!, by decide!⟩

/-! ## The bottom of a handle stack -/

theorem getLast?_cons_of_some {α : Type} (a : α) (l : List α) (c : α)
    (h : l.getLast? = some c) : (a :: l).getLast? = some c := by
  cases l with
  | nil => simp at h
  | cons b t =>
    rw [List.getLast?_cons_cons]
    exact h

theorem getLast?_append_of_some {α : Type} (pre l : List α) (c : α)
    (h : l.getLast? = some c) : (pre ++ l).getLast? = some c := by
  induction pre with
  | nil => exact h
  | cons a t ih => exact getLast?_cons_of_some a _ c ih

/-- One run of the erase loop for a handle other than the bottom entry leaves the bottom entry. -/
theorem eraseScan_getLast (idx c : Nat) (hc : c ≠ idx) (l : List Nat)
    (h : l.getLast? = some c) : (eraseScan idx l).1.getLast? = some c := by
  suffices hn : ∀ n (l : List Nat), l.length ≤ n → l.getLast? = some c →
      (eraseScan idx l).1.getLast? = some c from hn l.length l (Nat.le_refl _) h
  intro n
  induction n with
  | zero =>
    intro l hl h
    cases l with
    | nil => simp at h
    | cons x xs => simp at hl
  | succ n ih =>
    intro l hl h
    match l, hl, h with
    | [], _, h => simp at h
    | [x], _, h =>
      have hx : x = c := by simpa using h
      subst hx
      simp [eraseScan, hc]
    | x :: y :: ys, hl, h =>
      simp only [List.length_cons] at hl
      rw [List.getLast?_cons_cons] at h
      by_cases hx : x = idx
      · simp only [eraseScan, if_pos hx]
        cases ys with
        | nil =>
          simp only [eraseScan]
          exact h
        | cons z zs =>
          rw [List.getLast?_cons_cons] at h
          exact getLast?_cons_of_some y _ c
            (ih (z :: zs) (by simp only [List.length_cons] at hl ⊢; omega) h)
      · simp only [eraseScan, if_neg hx]
        exact getLast?_cons_of_some x _ c
          (ih (y :: ys) (by simp only [List.length_cons]; omega) h)

theorem eraseRuns_getLast (idx c : Nat) (hc : c ≠ idx) (n : Nat) (l : List Nat)
    (h : l.getLast? = some c) : (eraseRuns idx n l).getLast? = some c := by
  induction n generalizing l with
  | zero => exact h
  | succ n ih =>
    have hs := eraseScan_getLast idx c hc l h
    unfold eraseRuns
    cases hr : eraseScan idx l with
    | mk r b =>
      rw [hr] at hs
      cases b with
      | true => exact ih r hs
      | false => exact hs

/-- The erase loop of `CfxCollection_RemoveStreamingTag` for a handle other than the bottom entry
of the stack leaves the bottom entry where it is. -/
theorem eraseHandle_getLast (idx c : Nat) (hc : c ≠ idx) (l : List Nat)
    (h : l.getLast? = some c) : (eraseHandle idx l).getLast? = some c :=
  eraseRuns_getLast idx c hc l.length l h

/-! ## What an apply keeps -/

theorem ApplyKeeps_refl (s : State) : ApplyKeeps s s :=
  ⟨fun _ _ h => h, fun _ _ h => h, fun _ h => h⟩

theorem ApplyKeeps_trans (s s1 s2 : State) (h1 : ApplyKeeps s s1) (h2 : ApplyKeeps s1 s2) :
    ApplyKeeps s s2 :=
  ⟨fun i c h => h2.1 i c (h1.1 i c h), fun i hi h => h2.2.1 i hi (h1.2.1 i hi h),
    fun p h => h1.2.2 p (h2.2.2 p h)⟩

theorem FindSlotFromHashKey_handle (host : Host) (hs : HostState) (m : StrModule) (name : Str) :
    (FindSlotFromHashKey host hs m name).2.handle = hs.handle := by
  unfold FindSlotFromHashKey
  split
  · rfl
  · dsimp only
    split <;> rfl

/-- The registration of a file changes the live handle of the slot it returns and of no other
slot. -/
theorem RegisterRawStreamingFile_handle (host : Host) (hs : HostState) (file registerAs : Str)
    (i : Nat) (hr : i ≠ (RegisterRawStreamingFile host hs file registerAs).1) :
    (RegisterRawStreamingFile host hs file registerAs).2.handle i = hs.handle i := by
  unfold RegisterRawStreamingFile at hr ⊢
  cases h1 : afterLast '.' registerAs with
  | none => rfl
  | some ext =>
    rw [h1] at hr
    dsimp only at hr ⊢
    cases h2 : host.getStreamingModule ext with
    | none => rfl
    | some m =>
      rw [h2] at hr
      dsimp only at hr ⊢
      split at hr
      · rename_i hno
        rw [if_pos hno]
        exact congrFun (FindSlotFromHashKey_handle host hs m _) i
      · rename_i hno
        rw [if_neg hno]
        dsimp only
        rw [Function.update_noteq hr]
        exact congrFun (FindSlotFromHashKey_handle host hs m _) i

theorem pushOverride_keeps (host : Host) (file tag : Str) (m : StrModule) (strId : Nat)
    (s : State) : ApplyKeeps s (pushOverride host file tag m strId s) := by
  unfold pushOverride
  split
  · dsimp only
    refine ⟨?_, ?_, fun p h => h⟩
    · intro i c h
      dsimp only
      by_cases hi : i = globalIdx strId m
      · subst hi
        rw [Function.update_same]
        cases hl : s.g_handleStack (globalIdx strId m) with
        | nil =>
          rw [hl] at h
          simp at h
        | cons a l =>
          rw [hl] at h
          exact getLast?_cons_of_some _ _ c (by simpa using h)
      · rw [Function.update_noteq hi]
        exact h
    · intro i _ h
      unfold FrontIsLive at h ⊢
      dsimp only
      by_cases hi : i = globalIdx strId m
      · subst hi
        rw [Function.update_same, Function.update_same]
        intro _
        rfl
      · rw [Function.update_noteq hi, Function.update_noteq hi]
        exact h
  · exact ApplyKeeps_refl s

theorem registerNew_keeps (host : Host) (file tag baseName : Str) (s : State) :
    ApplyKeeps s (registerNew host file tag baseName s) := by
  have hh := RegisterRawStreamingFile_handle host s.host file baseName
  unfold registerNew
  dsimp only [State.emit]
  split
  · rename_i hr
    have key : ApplyKeeps s
        { s with
          host := (RegisterRawStreamingFile host s.host file baseName).2
          g_handleStack := Function.update s.g_handleStack
            (RegisterRawStreamingFile host s.host file baseName).1
            ((RegisterRawStreamingFile host s.host file baseName).2.handle
              (RegisterRawStreamingFile host s.host file baseName).1 ::
              s.g_handleStack (RegisterRawStreamingFile host s.host file baseName).1) } := by
      refine ⟨?_, ?_, fun p h => h⟩
      · intro i c h
        dsimp only
        by_cases hi : i = (RegisterRawStreamingFile host s.host file baseName).1
        · rw [hi, Function.update_same]
          rw [hi] at h
          exact getLast?_cons_of_some _ _ c h
        · rw [Function.update_noteq hi]
          exact h
      · intro i _ h
        unfold FrontIsLive at h ⊢
        dsimp only
        by_cases hi : i = (RegisterRawStreamingFile host s.host file baseName).1
        · rw [hi, Function.update_same]
          intro _
          rfl
        · rw [Function.update_noteq hi, hh i hi]
          exact h
    split <;> exact key
  · rename_i hr
    have hr2 : (RegisterRawStreamingFile host s.host file baseName).1 = NO_SLOT := not_not.mp hr
    refine ⟨fun _ _ h => h, ?_, fun p h => h⟩
    intro i hno h
    unfold FrontIsLive at h ⊢
    dsimp only
    rw [hh i (by rw [hr2]; exact hno)]
    exact h

theorem applyToSlot_keeps (host : Host) (file tag baseName : Str) (m : StrModule) (strId : Nat)
    (s : State) : ApplyKeeps s (applyToSlot host file tag baseName m strId s) := by
  have h0 : ApplyKeeps s
      { s with
        g_ourIndexes := Function.update s.g_ourIndexes (globalIdx strId m) true
        g_pendingRemovals := setErase (m, toInt32 strId) s.g_pendingRemovals } :=
    ⟨fun _ _ h => h, fun _ _ h => h, fun p h => (List.mem_filter.mp h).1⟩
  unfold applyToSlot
  dsimp only
  split
  · exact ApplyKeeps_trans _ _ _ h0 (pushOverride_keeps host file tag m strId _)
  · exact ApplyKeeps_trans _ _ _ h0 (registerNew_keeps host file tag baseName _)

theorem applyToModule_keeps (host : Host) (file tag baseName ext : Str) (m : StrModule)
    (s : State) : ApplyKeeps s (applyToModule host file tag baseName ext m s) := by
  have hh := FindSlotFromHashKey_handle host s.host m (substr0 baseName (find_last_of '.' baseName))
  unfold applyToModule
  dsimp only
  split
  · have h0 : ∀ x, ApplyKeeps s
        { s with
          host := (FindSlotFromHashKey host s.host m
            (substr0 baseName (find_last_of '.' baseName))).2
          newGfx := x } := by
      intro x
      refine ⟨fun _ _ h => h, ?_, fun p h => h⟩
      intro i _ h
      unfold FrontIsLive at h ⊢
      dsimp only
      rw [hh]
      exact h
    split
    · exact ApplyKeeps_trans _ _ _ (h0 _) (applyToSlot_keeps host file tag baseName m _ _)
    · exact ApplyKeeps_trans _ _ _ (h0 s.newGfx) (applyToSlot_keeps host file tag baseName m _ _)
  · exact applyToSlot_keeps host file tag baseName m _ s

theorem applyRegistration_keeps (host : Host) (file tag baseName ext : Str) (s : State) :
    ApplyKeeps s (applyRegistration host file tag baseName ext s) := by
  unfold applyRegistration
  cases hm : host.getStreamingModule ext with
  | none =>
    dsimp only
    split
    · exact ⟨fun _ _ h => h, fun _ _ h => h, fun p h => h⟩
    · exact ApplyKeeps_refl s
  | some m =>
    dsimp only
    have h := applyToModule_keeps host file tag baseName ext m s
    split
    · exact ⟨h.1, h.2.1, h.2.2⟩
    · exact h

theorem loadStreamingFile_keeps (host : Host) (loadType : LoadType) (reg : Str × Str)
    (s : State) : ApplyKeeps s (loadStreamingFile host loadType reg s).2 := by
  unfold loadStreamingFile
  dsimp only
  split
  · exact ApplyKeeps_refl s
  · cases h1 : afterLast '/' reg.1 with
    | none => exact ApplyKeeps_refl s
    | some afterSlash =>
      dsimp only
      cases h2 : afterLast '.' (GetBaseName host afterSlash) with
      | none => exact ApplyKeeps_refl s
      | some ext =>
        dsimp only
        split
        · exact ApplyKeeps_refl s
        · split
          · exact ApplyKeeps_refl s
          · exact applyRegistration_keeps host reg.1 reg.2 _ ext s

theorem loadStreamingLoop_keeps (host : Host) (loadType : LoadType) (l : List (Str × Str))
    (s : State) : ApplyKeeps s (loadStreamingLoop host loadType l s).2 := by
  induction l generalizing s with
  | nil => exact ApplyKeeps_refl s
  | cons reg rest ih =>
    simp only [loadStreamingLoop]
    exact ApplyKeeps_trans _ _ _ (loadStreamingFile_keeps host loadType reg s) (ih _)

/-- A pass of `LoadStreamingFiles` keeps the bottom entry of every handle stack, keeps front =
live, and enters no slot in the pending set. -/
theorem LoadStreamingFiles_keeps (host : Host) (loadType : LoadType) (s : State) :
    ApplyKeeps s (LoadStreamingFiles host loadType s) := by
  have h := loadStreamingLoop_keeps host loadType s.g_customStreamingFiles { s with newGfx := [] }
  rw [LoadStreamingFiles_eq]
  exact ⟨h.1, h.2.1, h.2.2⟩

/-! ## What a tag removal keeps of a layered slot -/

theorem globalIdx_of_toInt32 (a b : Nat) (m : StrModule) (h : toInt32 a = toInt32 b) :
    globalIdx a m = globalIdx b m := by
  rw [← globalIdxInt_toInt32, ← globalIdxInt_toInt32, h]

theorem removeFromSlot_layered (host : Host) (file baseName : Str) (m' : StrModule)
    (strId' : Nat) (s : State) (m : StrModule) (strId c : Nat)
    (hc : removeHandle host file ≠ c) (hl : Layered s m strId c) :
    Layered (removeFromSlot host file baseName m' strId' s) m strId c := by
  obtain ⟨h1, h2, h3⟩ := hl
  have hfront := removeFromSlot_front host file baseName m' strId' s
  by_cases hg : globalIdx strId m = globalIdx strId' m'
  · have hlast : (eraseHandle (removeHandle host file)
        (s.g_handleStack (globalIdx strId' m'))).getLast? = some c :=
      eraseHandle_getLast _ c (Ne.symm hc) _ (by rw [← hg]; exact h1)
    refine ⟨?_, ?_, ?_⟩
    · rw [removeFromSlot_handleStack, hg, Function.update_same]
      exact hlast
    · rw [hg]
      exact hfront.1
    · rw [removeFromSlot_pending, if_neg]
      · exact h3
      · intro he
        rw [he] at hlast
        simp at hlast
  · refine ⟨?_, ?_, ?_⟩
    · rw [(hfront.2 _ hg).1]
      exact h1
    · exact FrontIsLive_congr s _ _ (hfront.2 _ hg) h2
    · rw [removeFromSlot_pending]
      split
      · intro hmem
        rcases mem_of_mem_setInsert pendingLt _ _ _ hmem with he | he
        · injection he with he1 he2
          subst he1
          exact hg (globalIdx_of_toInt32 strId strId' m he2)
        · exact h3 he
      · exact h3

theorem removeStreamingFiles_layered (host : Host) (files : List Str) (s s' : State)
    (h : removeStreamingFiles host files s = some s') (m : StrModule) (strId c : Nat)
    (hc : ∀ f ∈ files, removeHandle host f ≠ c) (hl : Layered s m strId c) :
    Layered s' m strId c := by
  induction files generalizing s with
  | nil =>
    simp only [removeStreamingFiles] at h
    injection h with h
    subst h
    exact hl
  | cons f rest ih =>
    simp only [removeStreamingFiles] at h
    split at h
    · exact absurd h (by simp)
    · rename_i s1 h1
      apply ih s1 h (fun g hg => hc g (List.mem_cons_of_mem f hg))
      rcases removeStreamingFile_cases host f s s1 h1 with ⟨heq, _⟩ | ⟨b, m', strId', _, heq⟩
      · rw [heq]
        exact hl
      · rw [heq]
        exact removeFromSlot_layered host f b m' strId' s m strId c
          (hc f (List.mem_cons_self f rest)) hl

theorem RemoveStreamingTag_layered (host : Host) (tag : Str) (s s' : State)
    (h : CfxCollection_RemoveStreamingTag host tag s = some s') (m : StrModule) (strId c : Nat)
    (hc : ListedFiles (fun f => removeHandle host f ≠ c) s) (hl : Layered s m strId c) :
    Layered s' m strId c := by
  unfold CfxCollection_RemoveStreamingTag at h
  dsimp only at h
  split at h
  · exact absurd h (by simp)
  · rename_i s1 h1
    injection h with h
    subst h
    have hfiles : ∀ f ∈ mapGet s.g_customStreamingFilesByTag tag [], removeHandle host f ≠ c := by
      intro f hf
      obtain ⟨kv, hkv, hfk⟩ := mem_mapGet _ _ _ hf
      exact hc kv hkv f hfk
    exact removeStreamingFiles_layered host _ _ s1 h1 m strId c hfiles hl

/-! ## Sequences of calls into the registry -/

theorem mem_mapSet {β : Type} (k : Str) (v : β) (l : List (Str × β)) (kv : Str × β)
    (h : kv ∈ mapSet k v l) : kv = (k, v) ∨ kv ∈ l := by
  induction l with
  | nil =>
    simp only [mapSet, List.mem_singleton] at h
    exact Or.inl h
  | cons a rest ih =>
    simp only [mapSet] at h
    split at h
    · rcases List.mem_cons.mp h with h | h
      · exact Or.inl h
      · exact Or.inr (List.mem_cons_of_mem a h)
    · split at h
      · rcases List.mem_cons.mp h with h | h
        · exact Or.inl h
        · exact Or.inr h
      · rcases List.mem_cons.mp h with h | h
        · exact Or.inr (by rw [h]; exact List.mem_cons_self a rest)
        · rcases ih h with h | h
          · exact Or.inl h
          · exact Or.inr (List.mem_cons_of_mem a h)

/-- One call into the registry on a layered slot: the call returns, the slot is still layered,
and the listed files still have the property the added files have. -/
theorem runOp_layered (host : Host) (m : StrModule) (strId c : Nat)
    (hidx : globalIdx strId m ≠ NO_SLOT) (op : RegistryOp) (s : State)
    (hl : Layered s m strId c)
    (hf : ListedFiles (fun f => '/' ∈ f ∧ removeHandle host f ≠ c) s)
    (hop : ∀ f ∈ op.files, '/' ∈ f ∧ removeHandle host f ≠ c) :
    ∃ s', runOp host op s = some s' ∧ Layered s' m strId c ∧
      ListedFiles (fun f => '/' ∈ f ∧ removeHandle host f ≠ c) s' := by
  cases op with
  | register tag file =>
    have hfile := hop file (List.mem_singleton.mpr rfl)
    obtain ⟨a, ha, _, hby, hhost, hstack, hpend⟩ := AddStreamingFileByTag_obs tag file s hfile.1
    refine ⟨a, ha, ?_, ?_⟩
    · obtain ⟨h1, h2, h3⟩ := hl
      refine ⟨by rw [hstack]; exact h1, ?_, by rw [hpend]; exact h3⟩
      exact FrontIsLive_congr s a _ ⟨by rw [hstack], by rw [hhost]⟩ h2
    · intro kv hkv f hfk
      rw [hby] at hkv
      rcases mem_mapSet _ _ _ _ hkv with he | he
      · rw [he] at hfk
        rcases List.mem_append.mp hfk with hm | hm
        · obtain ⟨kv2, hkv2, hf2⟩ := mem_mapGet _ _ _ hm
          exact hf kv2 hkv2 f hf2
        · rw [List.mem_singleton.mp hm]
          exact hfile
      · exact hf kv he f hfk
  | load loadType =>
    have hk := LoadStreamingFiles_keeps host loadType s
    refine ⟨_, rfl, ⟨hk.1 _ c hl.1, hk.2.1 _ hidx hl.2.1, fun hp => hl.2.2 (hk.2.2 _ hp)⟩, ?_⟩
    intro kv hkv f hfk
    rw [LoadStreamingFiles_frame] at hkv
    exact hf kv hkv f hfk
  | remove tag =>
    have hs : ListedFilesHaveSlash s := fun kv hkv f hfk => (hf kv hkv f hfk).1
    obtain ⟨s', h, _⟩ := RemoveStreamingTag_isSome host tag s hs
    refine ⟨s', h, ?_, ?_⟩
    · exact RemoveStreamingTag_layered host tag s s' h m strId c
        (fun kv hkv f hfk => (hf kv hkv f hfk).2) hl
    · intro kv hkv f hfk
      rw [(RemoveStreamingTag_tables host tag s s' h).1] at hkv
      exact hf kv (List.mem_filter.mp hkv).1 f hfk

theorem runOps_layered (host : Host) (m : StrModule) (strId c : Nat)
    (hidx : globalIdx strId m ≠ NO_SLOT) (ops : List RegistryOp) (s : State)
    (hl : Layered s m strId c)
    (hf : ListedFiles (fun f => '/' ∈ f ∧ removeHandle host f ≠ c) s)
    (hops : ∀ op ∈ ops, ∀ f ∈ op.files, '/' ∈ f ∧ removeHandle host f ≠ c) :
    ∃ s', runOps host ops s = some s' ∧ Layered s' m strId c := by
  induction ops generalizing s with
  | nil => exact ⟨s, rfl, hl⟩
  | cons op rest ih =>
    obtain ⟨s1, h1, hl1, hf1⟩ := runOp_layered host m strId c hidx op s hl hf
      (hops op (List.mem_cons_self op rest))
    obtain ⟨s2, h2, hl2⟩ := ih s1 hl1 hf1 (fun o ho => hops o (List.mem_cons_of_mem op ho))
    exact ⟨s2, by simp only [runOps, h1, h2], hl2⟩

/-! ## The claim on the original handle of an overridden slot -/

/-- C24, evaluated on a host with a custom raw streamer: the texture `foo` is a real asset with the
live handle 777 and an empty handle stack. `a/foo.ytd` is registered under `pack1` and applied:
`LoadStreamingFiles` asks `GetRawStreamerForFile` (lines 1150-1156) and pushes the handle 65541 of
the custom raw streamer, a handle other than 777, so the stack is `[65541, 777]`.
`CfxCollection_RemoveStreamingTag("pack1")` takes the handle of the file from the default raw
streamer alone (lines 1690-1691), looks for 56237, erases nothing and sets the live handle to the
front of the stack: no tag and no registration is left, the slot is not pending, and the stack is
still `[65541, 777]` with the live handle 65541, not 777. On the demo host, where the file has no
custom raw streamer, the same calls end with the stack `[777]` and the live handle 777. -/
theorem C24_custom_streamer_override_stays :
    (initState assetHostState).host.handle 103 = 777 ∧
    (initState assetHostState).g_handleStack 103 = [] ∧
    resolveSlot customStreamerHost (initState assetHostState).host "a/foo.ytd".toList =
      some (⟨1, 100⟩, 3) ∧
    overrideHandle customStreamerHost "a/foo.ytd".toList = 65541 ∧
    removeHandle customStreamerHost "a/foo.ytd".toList = 56237 ∧
    (runOps customStreamerHost (demoOverrideOps.take 2) (initState assetHostState)).map
      (fun s => (s.g_handleStack 103, s.host.handle 103)) = some ([65541, 777], 65541) ∧
    (runOps customStreamerHost demoOverrideOps (initState assetHostState)).map
      (fun s => (s.g_handleStack 103, s.host.handle 103)) = some ([65541, 777], 65541) ∧
    (runOps customStreamerHost demoOverrideOps (initState assetHostState)).map
      (fun s => s.g_customStreamingFilesByTag) = some [] ∧
    (runOps customStreamerHost demoOverrideOps (initState assetHostState)).map
      (fun s => s.g_customStreamingFiles) = some [] ∧
    (runOps customStreamerHost demoOverrideOps (initState assetHostState)).map
      (fun s => s.g_pendingRemovals) = some [] ∧
    (runOps demoHost demoOverrideOps (initState assetHostState)).map
      (fun s => (s.g_handleStack 103, s.host.handle 103)) = some ([777], 777) :=
  ⟨by decide!, by decide!, by decide!, by decide!, by decide!, by decide!, by decide!,
    by decide!, by decide!, by decide!, by decide!⟩

/-! ## The longest common prefix -/

theorem lcp_nil_left (b : Str) : lcp [] b = 0 := by
  cases b <;> rfl

theorem lcp_nil_right (a : Str) : lcp a [] = 0 := by
  cases a <;> rfl

theorem lcp_cons (a b : Char) (as bs : Str) :
    lcp (a :: as) (b :: bs) = if a = b then lcp as bs + 1 else 0 := by
  simp only [lcp]

theorem lcp_le_right (a b : Str) : lcp a b ≤ b.length := by
  induction a generalizing b with
  | nil => rw [lcp_nil_left]; exact Nat.zero_le _
  | cons x as ih =>
    cases b with
    | nil => rw [lcp_nil_right]; exact Nat.zero_le _
    | cons y bs =>
      rw [lcp_cons]
      split
      · have := ih bs
        simp only [List.length_cons]
        omega
      · exact Nat.zero_le _

theorem lcp_getElem (a b : Str) (j : Nat) (h : j < lcp a b) : a[j]? = b[j]? := by
  induction a generalizing b j with
  | nil =>
    rw [lcp_nil_left] at h
    exact absurd h (Nat.not_lt_zero j)
  | cons x as ih =>
    cases b with
    | nil =>
      rw [lcp_nil_right] at h
      exact absurd h (Nat.not_lt_zero j)
    | cons y bs =>
      rw [lcp_cons] at h
      split at h
      · rename_i hxy
        cases j with
        | zero => simp [hxy]
        | succ j =>
          simp only [List.getElem?_cons_succ]
          exact ih bs j (by omega)
      · exact absurd h (Nat.not_lt_zero j)

theorem lcp_stop (a b : Str) (h1 : lcp a b < a.length) (h2 : lcp a b < b.length) :
    a[lcp a b]? ≠ b[lcp a b]? := by
  induction a generalizing b with
  | nil => simp at h1
  | cons x as ih =>
    cases b with
    | nil => simp at h2
    | cons y bs =>
      rw [lcp_cons] at h1 h2 ⊢
      by_cases hxy : x = y
      · rw [if_pos hxy] at h1 h2 ⊢
        simp only [List.length_cons] at h1 h2
        simp only [List.getElem?_cons_succ]
        exact ih bs (by omega) (by omega)
      · rw [if_neg hxy]
        simp [hxy]

theorem lcp_unique (a b : Str) (k : Nat) (hk1 : k ≤ a.length) (hk2 : k ≤ b.length)
    (hm : ∀ j, j < k → a[j]? = b[j]?)
    (hs : k < a.length → k < b.length → a[k]? ≠ b[k]?) : lcp a b = k := by
  induction a generalizing b k with
  | nil =>
    rw [lcp_nil_left]
    simp only [List.length_nil] at hk1
    omega
  | cons x as ih =>
    cases b with
    | nil =>
      rw [lcp_nil_right]
      simp only [List.length_nil] at hk2
      omega
    | cons y bs =>
      rw [lcp_cons]
      simp only [List.length_cons] at hk1 hk2 hs
      cases k with
      | zero =>
        have h0 := hs (by omega) (by omega)
        have hxy : x ≠ y := by
          intro e
          apply h0
          simp [e]
        rw [if_neg hxy]
      | succ k =>
        have h0 := hm 0 (by omega)
        have hxy : x = y := by simpa using h0
        rw [if_pos hxy]
        have := ih bs k (by omega) (by omega)
          (fun j hj => by
            have := hm (j + 1) (by omega)
            simpa only [List.getElem?_cons_succ] using this)
          (fun h1 h2 => by
            have := hs (by omega) (by omega)
            simpa only [List.getElem?_cons_succ] using this)
        omega

/-! ## The Z-function -/

theorem Z_bound (s : Str) (i : Nat) (hi : i ≤ s.length) : i + lcp s (s.drop i) ≤ s.length := by
  have := lcp_le_right s (s.drop i)
  rw [List.length_drop] at this
  omega

theorem Z_get (s : Str) (i j : Nat) (h : j < lcp s (s.drop i)) : s[i + j]? = s[j]? := by
  have := lcp_getElem s (s.drop i) j h
  rw [List.getElem?_drop] at this
  exact this.symm

theorem Z_stop (s : Str) (i : Nat) (h : i + lcp s (s.drop i) < s.length) :
    s[i + lcp s (s.drop i)]? ≠ s[lcp s (s.drop i)]? := by
  have := lcp_stop s (s.drop i) (by omega) (by rw [List.length_drop]; omega)
  rw [List.getElem?_drop] at this
  exact Ne.symm this

theorem Z_unique (s : Str) (i k : Nat) (hk : i + k ≤ s.length)
    (hm : ∀ j, j < k → s[i + j]? = s[j]?)
    (hs : i + k < s.length → s[i + k]? ≠ s[k]?) : lcp s (s.drop i) = k := by
  apply lcp_unique
  · omega
  · rw [List.length_drop]
    omega
  · intro j hj
    rw [List.getElem?_drop]
    exact (hm j hj).symm
  · intro _ h2
    rw [List.length_drop] at h2
    rw [List.getElem?_drop]
    exact Ne.symm (hs (by omega))

/-! ## The loops of `calc_z` -/

/-- The inner loop of `calc_z` from a matched stretch `s[i..r)`: it returns, with `r` at the end
of the longest stretch from `i` that copies the beginning of the string. -/
theorem calc_z_inner_spec (s : Str) (i : Nat) (fuel r zi : Nat) (hzi : zi + i = r)
    (hi : 1 ≤ i) (hr : r ≤ s.length) (hfuel : s.length - r < fuel)
    (hm : ∀ j, j < zi → s[i + j]? = s[j]?) :
    ∃ r2, calc_z_inner s s.length fuel r zi = some (r2, r2 - i) ∧ r ≤ r2 ∧ r2 ≤ s.length ∧
      (∀ j, j < r2 - i → s[i + j]? = s[j]?) ∧ (r2 < s.length → s[r2]? ≠ s[r2 - i]?) := by
  induction fuel generalizing r zi with
  | zero => exact absurd hfuel (Nat.not_lt_zero _)
  | succ fuel ih =>
    have hzi2 : zi = r - i := by omega
    unfold calc_z_inner
    by_cases hlt : r < s.length
    · rw [if_pos hlt]
      have e1 : s[r]? = some s[r] := List.getElem?_eq_getElem hlt
      have hzlt : zi < s.length := by omega
      have e2 : s[zi]? = some s[zi] := List.getElem?_eq_getElem hzlt
      rw [e1, e2]
      dsimp only
      by_cases hne : s[r] ≠ s[zi]
      · rw [if_pos hne]
        refine ⟨r, by rw [hzi2], Nat.le_refl r, hr, ?_, ?_⟩
        · intro j hj
          exact hm j (by omega)
        · intro _
          rw [e1, ← hzi2, e2]
          intro e
          injection e with e
          exact hne e
      · rw [if_neg hne]
        have heq : s[r] = s[zi] := not_not.mp hne
        obtain ⟨r2, h1, h2, h3, h4, h5⟩ := ih (r + 1) (zi + 1) (by omega) (by omega) (by omega)
          (fun j hj => by
            by_cases hj2 : j < zi
            · exact hm j hj2
            · have hj3 : j = zi := by omega
              rw [hj3, Nat.add_comm, hzi, e1, e2, heq])
        exact ⟨r2, h1, by omega, h3, h4, h5⟩
    · rw [if_neg hlt]
      refine ⟨r, by rw [hzi2], Nat.le_refl r, hr, ?_, ?_⟩
      · intro j hj
        exact hm j (by omega)
      · intro h
        exact absurd h hlt

/-- The `else` branch of the body of `calc_z`: the inner loop computes the entry `i`. -/
theorem calc_z_extend (s : Str) (i : Nat) (z : List Nat) (l r : Nat) (hi : 1 ≤ i)
    (hin : i < s.length) (h : ZInv s i z l r)
    (hpre : ∀ j, j < (if i > r then i else r) - i → s[i + j]? = s[j]?) :
    ∃ r2 zi, calc_z_inner s s.length (s.length + 1) (if i > r then i else r)
        ((if i > r then i else r) - i) = some (r2, zi) ∧
      ZInv s (i + 1) (z.set i zi) i (r2 - 1) := by
  obtain ⟨hlen, hz, hzero, _, hr, _, _⟩ := h
  have hr1 : i ≤ (if i > r then i else r) ∧ (if i > r then i else r) < s.length := by
    split <;> omega
  obtain ⟨r2, h1, h2, h3, h4, h5⟩ := calc_z_inner_spec s i (s.length + 1)
    (if i > r then i else r) ((if i > r then i else r) - i) (by omega) hi (by omega) (by omega)
    hpre
  have hZ : lcp s (s.drop i) = r2 - i := by
    apply Z_unique s i (r2 - i) (by omega) h4
    intro hlt
    have e : i + (r2 - i) = r2 := by omega
    rw [e]
    exact h5 (by omega)
  refine ⟨r2, r2 - i, h1, ?_, ?_, ?_, Nat.lt_succ_self i, by omega, ?_, ?_⟩
  · rw [List.length_set]
    exact hlen
  · intro j hj1 hj2
    by_cases hji : j = i
    · subst hji
      rw [List.getElem?_set_self (by omega), hZ]
    · rw [List.getElem?_set_ne (Ne.symm hji)]
      exact hz j hj1 (by omega)
  · intro j hj1 hj2
    have hji : i ≠ j := by omega
    rw [List.getElem?_set_ne hji]
    exact hzero j (by omega) hj2
  · intro j hj1 hj2
    have := h4 (j - i) (by omega)
    have e : i + (j - i) = j := by omega
    rw [e] at this
    exact this
  · intro h0
    omega

/-- One iteration of the outer loop of `calc_z`: it returns and sets the entry `i`. -/
theorem calc_z_step_spec (s : Str) (i : Nat) (z : List Nat) (l r : Nat) (hi : 1 ≤ i)
    (hin : i < s.length) (h : ZInv s i z l r) :
    ∃ z1 l1 r1, calc_z_step s s.length i z l r = some (z1, l1, r1) ∧
      ZInv s (i + 1) z1 l1 r1 := by
  have h' := h
  obtain ⟨hlen, hz, hzero, hl, hr, hbox, hl0⟩ := h'
  unfold calc_z_step
  rw [if_pos ⟨by omega, by omega⟩]
  by_cases hl1 : l = 0
  · have hr0 := hl0 hl1
    have e : z[i - l]? = some 0 := by
      rw [hl1, Nat.sub_zero]
      exact hzero i (Or.inr (Nat.le_refl i)) hin
    rw [e]
    dsimp only
    rw [if_neg (by omega)]
    obtain ⟨r2, zi, hcall, hinv⟩ := calc_z_extend s i z l r hi hin h (by
      intro j hj
      rw [if_pos (by omega)] at hj
      omega)
    rw [hcall]
    exact ⟨_, _, _, rfl, hinv⟩
  · have e : z[i - l]? = some (lcp s (s.drop (i - l))) := hz (i - l) (by omega) (by omega)
    rw [e]
    dsimp only
    by_cases hA : lcp s (s.drop (i - l)) + i ≤ r
    · rw [if_pos hA]
      have hZ : lcp s (s.drop i) = lcp s (s.drop (i - l)) := by
        apply Z_unique s i _ (by omega)
        · intro j hj
          have b := hbox (i + j) (by omega) (by omega)
          have g := Z_get s (i - l) j hj
          have e2 : i + j - l = i - l + j := by omega
          rw [b, e2]
          exact g
        · intro _
          have b := hbox (i + lcp s (s.drop (i - l))) (by omega) (by omega)
          have g := Z_stop s (i - l) (by omega)
          have e2 : i + lcp s (s.drop (i - l)) - l = i - l + lcp s (s.drop (i - l)) := by omega
          rw [b, e2]
          exact g
      refine ⟨_, _, _, rfl, ?_, ?_, ?_, by omega, hr, hbox, hl0⟩
      · rw [List.length_set]
        exact hlen
      · intro j hj1 hj2
        by_cases hji : j = i
        · subst hji
          rw [List.getElem?_set_self (by omega), hZ]
        · rw [List.getElem?_set_ne (Ne.symm hji)]
          exact hz j hj1 (by omega)
      · intro j hj1 hj2
        have hji : i ≠ j := by omega
        rw [List.getElem?_set_ne hji]
        exact hzero j (by omega) hj2
    · rw [if_neg hA]
      obtain ⟨r2, zi, hcall, hinv⟩ := calc_z_extend s i z l r hi hin h (by
        intro j hj
        by_cases hir : i > r
        · rw [if_pos hir] at hj
          omega
        · rw [if_neg hir] at hj
          have b := hbox (i + j) (by omega) (by omega)
          have g := Z_get s (i - l) j (by omega)
          have e2 : i + j - l = i - l + j := by omega
          rw [b, e2]
          exact g)
      rw [hcall]
      exact ⟨_, _, _, rfl, hinv⟩

/-- The outer loop of `calc_z` from the iteration `i` to the end of the string. -/
theorem calc_z_loop_spec (s : Str) (k i : Nat) (z : List Nat) (l r : Nat) (hi : 1 ≤ i)
    (hk : i + k = s.length) (h : ZInv s i z l r) :
    ∃ z1 l1 r1, calc_z_loop s s.length k i z l r = some (z1, l1, r1) ∧
      ZInv s s.length z1 l1 r1 := by
  induction k generalizing i z l r with
  | zero =>
    have e : i = s.length := by omega
    subst e
    exact ⟨z, l, r, rfl, h⟩
  | succ k ih =>
    obtain ⟨z1, l1, r1, hstep, hinv⟩ := calc_z_step_spec s i z l r hi (by omega) h
    obtain ⟨z2, l2, r2, hloop, hinv2⟩ := ih (i + 1) z1 l1 r1 (by omega) (by omega) hinv
    refine ⟨z2, l2, r2, ?_, hinv2⟩
    simp only [calc_z_loop, hstep]
    exact hloop

/-- The function `calc_z` on an empty vector returns the Z-function of the string. -/
theorem calc_z_spec (s : Str) :
    ∃ z, calc_z s [] = some z ∧ z.length = s.length ∧
      (1 ≤ s.length → z[0]? = some 0) ∧
      ∀ i, 1 ≤ i → i < s.length → z[i]? = some (lcp s (s.drop i)) := by
  by_cases hn : s.length = 0
  · have hs : s = [] := List.eq_nil_of_length_eq_zero hn
    subst hs
    exact ⟨[], rfl, rfl, fun h => absurd h (by simp), fun i h1 h2 => absurd h2 (by simp)⟩
  · have hinit : ZInv s 1 (resize [] s.length) 0 0 := by
      have hres : resize [] s.length = List.replicate s.length 0 := by
        simp [resize]
      rw [hres]
      refine ⟨List.length_replicate _ _, ?_, ?_, Nat.zero_lt_one, by omega, ?_, fun _ => rfl⟩
      · intro j h1 h2
        omega
      · intro j _ hj
        rw [List.getElem?_replicate, if_pos hj]
      · intro j _ hj
        have e : j = 0 := by omega
        subst e
        rfl
    obtain ⟨z, l, r, hloop, hlen, hz, hzero, _⟩ :=
      calc_z_loop_spec s (s.length - 1) 1 _ 0 0 (Nat.le_refl 1) (by omega) hinit
    refine ⟨z, ?_, hlen, fun h => hzero 0 (Or.inl rfl) (by omega), fun i h1 h2 => hz i h1 h2⟩
    unfold calc_z
    rw [hloop]
    rfl

/-! ## The count of `LoadVehicleMetaForDlc` -/

theorem lcp_ge_iff (sub text c : Str) :
    sub.length ≤ lcp (sub ++ text) c ↔ startsWith sub c = true := by
  induction sub generalizing c with
  | nil =>
    cases c <;> simp [startsWith]
  | cons a as ih =>
    cases c with
    | nil =>
      rw [lcp_nil_right]
      simp [startsWith]
    | cons b bs =>
      rw [List.cons_append, lcp_cons]
      by_cases hab : a = b
      · rw [if_pos hab]
        simp only [List.length_cons, startsWith, hab, decide_True, Bool.true_and]
        rw [← ih bs]
        omega
      · rw [if_neg hab]
        simp [startsWith, hab]

/-- The counting loop over a vector that holds the Z-function of `sub ++ text` behind the
substring: it returns and adds the number of occurrences of the substring from the position on. -/
theorem countEntries_spec (sub text : Str) (z : List Nat)
    (hz : ∀ j, sub.length ≤ j → j < (sub ++ text).length →
      z[j]? = some (lcp (sub ++ text) ((sub ++ text).drop j)))
    (k i entryCount : Nat) (hi : sub.length ≤ i) (hk : i + k = (sub ++ text).length) :
    countEntries z sub.length k i entryCount =
      some (entryCount + occurrences sub ((sub ++ text).drop i)) := by
  induction k generalizing i entryCount with
  | zero =>
    have e : (sub ++ text).drop i = [] := List.drop_eq_nil_of_le (by omega)
    rw [e]
    rfl
  | succ k ih =>
    have hlt : i < (sub ++ text).length := by omega
    have e := List.drop_eq_getElem_cons hlt
    have hzi := hz i hi hlt
    have hiff := lcp_ge_iff sub text ((sub ++ text).drop i)
    simp only [countEntries, hzi]
    rw [ih (i + 1) _ (by omega) (by omega)]
    rw [e] at hiff ⊢
    simp only [occurrences]
    by_cases hsw : startsWith sub ((sub ++ text)[i] :: List.drop (i + 1) (sub ++ text)) = true
    · rw [if_pos (hiff.mpr hsw), if_pos hsw]
      congr 1
      omega
    · rw [if_neg (fun hge => hsw (hiff.mp hge)), if_neg hsw]
      congr 1
      omega

/-! ## The claim on `calc_z` -/

/-- C30: `calc_z` computes the Z-function. For every string `s` and an empty vector, the call
returns, so no index used in its loops is outside the vector or the string; the vector then has
the length of `s`, its entry 0 is 0 when `s` is not empty, and its entry `i` for `1 ≤ i < n` is the
length of the longest common prefix of `s` and the suffix of `s` from `i` on. Hence the entry count
that `LoadVehicleMetaForDlc` derives for a file with the text `text` is 4 plus the number of
occurrences of `"</modelName>"` in `text`, overlapping ones included. -/
theorem C30_calc_z_is_z_function (s : Str) :
    (∃ z, calc_z s [] = some z ∧ z.length = s.length ∧
      (1 ≤ s.length → z[0]? = some 0) ∧
      ∀ i, 1 ≤ i → i < s.length → z[i]? = some (lcp s (s.drop i))) ∧
    ∀ text : Str,
      guessEntryCount (some text) = some (4 + occurrences "</modelName>".toList text) := by
  refine ⟨calc_z_spec s, ?_⟩
  intro text
  have hsub : "</modelName>".toList.length = 12 := by decide
  obtain ⟨z, hz, _, _, hzi⟩ := calc_z_spec ("</modelName>".toList ++ text)
  unfold guessEntryCount
  dsimp only
  rw [hz]
  dsimp only
  rw [countEntries_spec "</modelName>".toList text z
    (fun j h1 h2 => hzi j (by omega) h2) _ _ _ (Nat.le_refl _)
    (by rw [List.length_append]; omega), List.drop_left]

/-- C30 at the string `aabxaabaab` and at a meta text with two model names. -/
theorem C30_calc_z_is_z_function_witness :
    calc_z "aabxaabaab".toList [] = some [0, 1, 0, 0, 3, 1, 0, 3, 1, 0] ∧
    guessEntryCount (some "<modelName>a</modelName><modelName>b</modelName>".toList) = some 6 ∧
    occurrences "</modelName>".toList
      "<modelName>a</modelName><modelName>b</modelName>".toList = 2 ∧
    ∃ z, calc_z "aabxaabaab".toList [] = some z ∧ z.length = "aabxaabaab".toList.length ∧
      (1 ≤ "aabxaabaab".toList.length → z[0]? = some 0) ∧
      ∀ i, 1 ≤ i → i < "aabxaabaab".toList.length →
        z[i]? = some (lcp "aabxaabaab".toList ("aabxaabaab".toList.drop i)) :=
  ⟨by decide!, by decide!, by decide!, (C30_calc_z_is_z_function "aabxaabaab".toList).1⟩

end Cfx
